import Mathlib

/-!
# P6 deferred renderer: shallow embedding and verified properties

Embedding of the parts of `GLProgram.cpp`, `TextureManager.cpp`, `GLRenderer.cpp`
and `main.cpp` (class `Camera`) that the stated properties are about.

Conventions
* `uint32_t` values are natural numbers below `UINT32_MOD`; every `uint32_t`
  addition and subtraction is reduced modulo `UINT32_MOD`.
* `float` values of the camera and the light test are exact rationals.
* `std::string` is `List Char`.
* `assert(false)` is a fatal outcome of the embedding.
-/

namespace P6

/-! ## GLProgram.cpp: std140 offsets (lines 214-239) -/

/-- Number of values of a `uint32_t`. -/
def UINT32_MOD : Nat := 4294967296

/-- Number of non-negative values of an `int32_t`. -/
def INT32_LIMIT : Nat := 2147483648

/-- Type tags of `ShaderConstantManager::SupportedTypes` that occur in
`GLTypeToSupportedType` (GLProgram.cpp 442-461). -/
inductive SupportedTypes where
  | FLOAT
  | BOOL
  | INT
  | MAT4
  | VEC3
  | VEC4
  deriving DecidableEq

/-- The two static tables of `ShaderConstantManager` that the std140 branch reads,
`GetAlignmentForType` and `GetSizeForType`. Their bodies are not part of the sources,
so they are parameters of the embedding. Both return `uint32_t`. -/
structure TypeTable where
  GetAlignmentForType : SupportedTypes → Nat
  GetSizeForType : SupportedTypes → Nat

/-- Every alignment of the table is positive (the loop takes the running offset modulo
the alignment). -/
def TypeTable.PositiveAlignments (tbl : TypeTable) : Prop :=
  ∀ t, 0 < tbl.GetAlignmentForType t

/-- The fields of `ShaderConstantSignature` written by the loop. -/
structure ShaderConstantSignature where
  name : String
  type : SupportedTypes
  offset : Nat
  size : Nat
  deriving DecidableEq

/-- Lines 228-232: the padded offset of a member whose type has alignment `a`, when the
running `stdOffset` is `off`.
`padding = a - (off % a)` cannot underflow for `a > 0`; `stdOffset += padding` is a
`uint32_t` addition. -/
def paddedOffset (a off : Nat) : Nat :=
  let padding := a - off % a
  if padding ≠ a then (off + padding) % UINT32_MOD else off

/-- Line 233: `stdOffset += GetSizeForType(type)` as a `uint32_t` addition. -/
def advanceOffset (off size : Nat) : Nat :=
  (off + size) % UINT32_MOD

/-- The `while (tokenList[itr] != "};")` loop of the std140 branch over the parsed
members `(type, name)` of one block, started with running offset `stdOffset`; the result
is what the loop appends to `constBufferSignature`. -/
def std140Loop (tbl : TypeTable) : List (SupportedTypes × String) → Nat →
    List ShaderConstantSignature
  | [], _ => []
  | (ty, nm) :: rest, stdOffset =>
    let off := paddedOffset (tbl.GetAlignmentForType ty) stdOffset
    { name := nm, type := ty, offset := off, size := 1 } ::
      std140Loop tbl rest (advanceOffset off (tbl.GetSizeForType ty))

/-- The signature list of one std140 block: the loop run from `stdOffset = 0`
(line 216). -/
def std140Signature (tbl : TypeTable) (members : List (SupportedTypes × String)) :
    List ShaderConstantSignature :=
  std140Loop tbl members 0

/-- No `uint32_t` addition of the loop wraps around: for every member the padded offset
and the offset after adding the member's size, computed without reduction, stay below
`UINT32_MOD`. -/
def std140Fits (tbl : TypeTable) : List (SupportedTypes × String) → Nat → Prop
  | [], _ => True
  | (ty, _) :: rest, stdOffset =>
    let a := tbl.GetAlignmentForType ty
    let padding := a - stdOffset % a
    let off := if padding ≠ a then stdOffset + padding else stdOffset
    off + tbl.GetSizeForType ty < UINT32_MOD ∧
      std140Fits tbl rest (off + tbl.GetSizeForType ty)

instance std140FitsDecidable (tbl : TypeTable) :
    ∀ (ms : List (SupportedTypes × String)) (off : Nat), Decidable (std140Fits tbl ms off)
  | [], _ => by unfold std140Fits; exact inferInstance
  | (ty, _) :: rest, off => by
    unfold std140Fits
    have := std140FitsDecidable tbl rest
    exact inferInstance

/-- The property stated for the offsets of one block: every offset is a multiple of the
alignment of its member's type, and every member after the first starts at or after the
end (offset plus size of the type) of the member before it. -/
def AlignedAndOrdered (tbl : TypeTable) (sigs : List ShaderConstantSignature) : Prop :=
  (∀ s ∈ sigs, s.offset % tbl.GetAlignmentForType s.type = 0) ∧
    List.Chain' (fun s s2 => s.offset + tbl.GetSizeForType s.type ≤ s2.offset) sigs

/-- The words "the smallest multiple of `a` that is greater than or equal to `e`", said
of `off`. -/
def SmallestMultipleFrom (a e off : Nat) : Prop :=
  off % a = 0 ∧ e ≤ off ∧ ∀ m, m % a = 0 → e ≤ m → off ≤ m

/-- The property stated for the offsets of one block: the first member is at offset 0, and
every member after the first is at the smallest multiple of the alignment of its type
that is at or after the end (offset plus size of the type) of the member before it, the
padding between the two being strictly less than that alignment. -/
def TightlyPacked (tbl : TypeTable) (sigs : List ShaderConstantSignature) : Prop :=
  (∀ s ∈ sigs.head?, s.offset = 0) ∧
    List.Chain'
      (fun s s2 =>
        SmallestMultipleFrom (tbl.GetAlignmentForType s2.type)
            (s.offset + tbl.GetSizeForType s.type) s2.offset ∧
          s2.offset - (s.offset + tbl.GetSizeForType s.type) <
            tbl.GetAlignmentForType s2.type)
      sigs

/-- A sample table, with the std140 values of the GLSL specification for the tags above:
scalars 4 bytes, `vec3` and `vec4` aligned to 16, `mat4` four `vec4` columns. -/
def std140Table : TypeTable where
  GetAlignmentForType := fun t =>
    match t with
    | .FLOAT => 4
    | .BOOL => 4
    | .INT => 4
    | .MAT4 => 16
    | .VEC3 => 16
    | .VEC4 => 16
  GetSizeForType := fun t =>
    match t with
    | .FLOAT => 4
    | .BOOL => 4
    | .INT => 4
    | .MAT4 => 64
    | .VEC3 => 12
    | .VEC4 => 16

/-! ## TextureManager.cpp: Acquire and Release (lines 89-167, 334-336, 519-526) -/

/-- One element of `m_textureNameToObjectMap`
(`std::map<uint32_t, std::pair<GLType_uint, uint32_t>>`): the key is the hash of the
texture name, `object` is `second.first` (the GL texture object) and `refs` is
`second.second` (the reference count, a `uint32_t`). -/
structure TextureEntry where
  key : Nat
  object : Nat
  refs : Nat
  deriving DecidableEq

/-- The map, as the list of its elements in iteration order (increasing key). -/
abbrev TextureMap := List TextureEntry

/-- The `std::map` invariant: keys strictly increasing, hence unique. -/
def TextureMap.Sorted (m : TextureMap) : Prop :=
  List.Pairwise (fun a b => a.key < b.key) m

/-- `m.find(key)`. -/
def TextureMap.lookup (key : Nat) (m : TextureMap) : Option TextureEntry :=
  List.find? (fun e => e.key == key) m

/-- `m[e.key] = (e.object, e.refs)`: assign in place when the key is present, insert at
the key's position otherwise. -/
def TextureMap.assign (e : TextureEntry) : TextureMap → TextureMap
  | [] => [e]
  | x :: rest =>
    if e.key < x.key then e :: x :: rest
    else if e.key = x.key then e :: rest
    else x :: TextureMap.assign e rest

/-- `m.erase(key)`. -/
def TextureMap.eraseKey (key : Nat) (m : TextureMap) : TextureMap :=
  List.filter (fun e => e.key != key) m

/-- `++count` on a `uint32_t`. -/
def uint32Inc (n : Nat) : Nat := (n + 1) % UINT32_MOD

/-- `--count` on a `uint32_t`. -/
def uint32Dec (n : Nat) : Nat := (n + UINT32_MOD - 1) % UINT32_MOD

/-- A decoded image as handed back by `SOIL_load_image`. -/
structure Image where
  width : Nat
  height : Nat
  channels : Nat
  data : List Nat
  deriving DecidableEq

/-- The collaborators of the texture cache whose code is outside the sources:
`Utility::HashCString` and the image decoder `SOIL_load_image` (`none` is the `NULL`
result of a failed decode). -/
structure TextureEnv where
  HashCString : String → Nat
  SOIL_load_image : String → Option Image

/-- The assertions of `TextureManager.cpp` that end the process. -/
inductive Fatal where
  /-- Line 143: "Trying to Release a texture that was not Acquired?" -/
  | releaseNotAcquired
  /-- Line 523: "Failed to generate an OpenGL texture name; missing OpenGL context?" -/
  | noTextureName
  deriving DecidableEq

/-- How a call on the texture manager ends: it returns a value, or it stops at an
assertion; either way with the map as it is at that point. -/
inductive Outcome (α : Type) where
  | returned (value : α) (map : TextureMap)
  | aborted (site : Fatal) (map : TextureMap)
  deriving DecidableEq

/-- The value `LoadImageAndCreateTexture(textureName, 0, 0, flags)` returns, or the
assertion it stops at. `texId` is what `glCreateTextures` stores into `tex_id` if the
call gets that far (0 when the driver hands out no name).
Lines 154-167: a failed decode logs and returns 0. Lines 334-338 and 519-526: with
`reuseTextureName = 0` the name comes from `glCreateTextures`; a zero name reaches
`assert(false)`, a non-zero name is returned. The code in between changes the pixel
buffer and the GL texture only. -/
def LoadImageAndCreateTexture (env : TextureEnv) (texId : Nat) (textureName : String) :
    Except Fatal Nat :=
  match env.SOIL_load_image textureName with
  | none => Except.ok 0
  | some _ => if texId ≠ 0 then Except.ok texId else Except.error Fatal.noTextureName

/-- `TextureManager::Acquire(textureName)` (lines 89-116) on the map `m`. -/
def Acquire (env : TextureEnv) (texId : Nat) (textureName : String) (m : TextureMap) :
    Outcome Nat :=
  let textureNameHash := env.HashCString textureName
  if textureName.length ≠ 0 then
    match TextureMap.lookup textureNameHash m with
    | some textureObject =>
      Outcome.returned textureObject.object
        (List.map (fun e => if e.key = textureNameHash
          then { e with refs := uint32Inc e.refs } else e) m)
    | none =>
      match LoadImageAndCreateTexture env texId textureName with
      | Except.ok obj =>
        Outcome.returned obj
          (TextureMap.assign { key := textureNameHash, object := obj, refs := 1 } m)
      | Except.error f => Outcome.aborted f m
  else Outcome.returned 0 m

/-- The body of `Release` after the search loop has stopped at the element `it` (lines
132-140): decrement its count through the iterator and erase its key when the count is
zero. `pre` are the elements before `it`, `post` the ones after it. -/
def releaseAt (pre : TextureMap) (it : TextureEntry) (post : TextureMap) : TextureMap :=
  let refs := uint32Dec it.refs
  if refs = 0 then TextureMap.eraseKey it.key (pre ++ { it with refs := refs } :: post)
  else pre ++ { it with refs := refs } :: post

/-- The search loop of `Release` (lines 122-130) over the elements not yet visited;
`pre` are the visited ones, none of which has the object. -/
def releaseLoop (textureObject : Nat) (pre : TextureMap) : TextureMap → Outcome Unit
  | [] => Outcome.aborted Fatal.releaseNotAcquired pre
  | it :: post =>
    if it.object = textureObject then Outcome.returned () (releaseAt pre it post)
    else releaseLoop textureObject (pre ++ [it]) post

/-- `TextureManager::Release(textureObject)` (lines 118-145) on the map `m`. -/
def Release (textureObject : Nat) (m : TextureMap) : Outcome Unit :=
  releaseLoop textureObject [] m

/-- One call on the texture manager: `Acquire(textureName)`, with the driver answer
`texId` for it, or `Release(textureObject)`. -/
inductive CacheCall where
  | acquire (texId : Nat) (textureName : String)
  | release (textureObject : Nat)
  deriving DecidableEq

/-- The calls of the list, in order, from the map `m`: the map after the last call, `none`
when one of the calls stops at an assertion. -/
def runCalls (env : TextureEnv) : List CacheCall → TextureMap → Option TextureMap
  | [], m => some m
  | CacheCall.acquire texId textureName :: rest, m =>
    match Acquire env texId textureName m with
    | Outcome.returned _ m1 => runCalls env rest m1
    | Outcome.aborted _ _ => none
  | CacheCall.release textureObject :: rest, m =>
    match Release textureObject m with
    | Outcome.returned _ m1 => runCalls env rest m1
    | Outcome.aborted _ _ => none

/-- The number of `Acquire` calls of the list. -/
def acquisitions : List CacheCall → Nat
  | [] => 0
  | CacheCall.acquire _ _ :: rest => acquisitions rest + 1
  | CacheCall.release _ :: rest => acquisitions rest

/-- A decoder under which every file decodes to a one-pixel image, with the length of the
name as its hash. -/
def decodingEnv : TextureEnv where
  HashCString := fun s => s.length
  SOIL_load_image := fun _ => some { width := 1, height := 1, channels := 1, data := [0] }

/-- A decoder under which no file decodes, with the length of the name as its hash. -/
def failingEnv : TextureEnv where
  HashCString := fun s => s.length
  SOIL_load_image := fun _ => none

/-! ## glm vectors and matrices over exact rationals -/

/-- `glm::vec3`. -/
structure Vec3 where
  x : ℚ
  y : ℚ
  z : ℚ
  deriving DecidableEq

/-- `glm::vec4`. -/
structure Vec4 where
  x : ℚ
  y : ℚ
  z : ℚ
  w : ℚ
  deriving DecidableEq

/-- `glm::mat4`, stored by columns as in glm: `c0` is `m[0]`. -/
structure Mat4 where
  c0 : Vec4
  c1 : Vec4
  c2 : Vec4
  c3 : Vec4
  deriving DecidableEq

/-- `glm::mat4()`: the identity. -/
def Mat4.identity : Mat4 :=
  { c0 := ⟨1, 0, 0, 0⟩, c1 := ⟨0, 1, 0, 0⟩, c2 := ⟨0, 0, 1, 0⟩, c3 := ⟨0, 0, 0, 1⟩ }

/-- `m * v` for a `glm::mat4` and a `glm::vec4`: the combination of the columns of `m`
with the components of `v`. -/
def Mat4.mulVec (m : Mat4) (v : Vec4) : Vec4 :=
  { x := m.c0.x * v.x + m.c1.x * v.y + m.c2.x * v.z + m.c3.x * v.w
    y := m.c0.y * v.x + m.c1.y * v.y + m.c2.y * v.z + m.c3.y * v.w
    z := m.c0.z * v.x + m.c1.z * v.y + m.c2.z * v.z + m.c3.z * v.w
    w := m.c0.w * v.x + m.c1.w * v.y + m.c2.w * v.z + m.c3.w * v.w }

/-- `glm::translate(m, v)`: the last column becomes `m[0]*v.x + m[1]*v.y + m[2]*v.z + m[3]`. -/
def Mat4.translate (m : Mat4) (v : Vec3) : Mat4 :=
  { m with c3 := m.mulVec ⟨v.x, v.y, v.z, 1⟩ }

/-! ## main.cpp: Camera (lines 14-51) -/

/-- `FLT_EPSILON`, 2^-23. -/
def FLT_EPSILON : ℚ := 1 / 8388608

/-- Rounding toward zero, the quotient that `fmod` removes. -/
def truncToZero (q : ℚ) : ℤ :=
  if 0 ≤ q then ⌊q⌋ else ⌈q⌉

/-- `fmod(x, y)`: the remainder of the division truncated toward zero, `x - n*y` with
`n = trunc(x / y)`. -/
def fmod (x y : ℚ) : ℚ :=
  x - (truncToZero (x / y) : ℚ) * y

/-- `glm::clamp(x, minVal, maxVal)`, which is `min(max(x, minVal), maxVal)`. -/
def clamp (x minVal maxVal : ℚ) : ℚ :=
  min (max x minVal) maxVal

/-- The members of `Camera` that `adjust`, `CalculateViewProjection` and the constructor
touch. -/
structure Camera where
  m_view : Mat4
  m_transform : Mat4
  rx : ℚ
  ry : ℚ
  pos : Vec3
  m_perspective : Mat4
  m_inversePerspective : Mat4
  deriving DecidableEq

/-- `Camera::Camera(start_pos, start_dir, up)` (lines 14-27). `rx` and `ry` start at 0,
and `glm::rotate` by the angle 0 multiplies by the identity, so both matrices are the
translation to `start_pos`. The two projection matrices are not in the initialiser list
and keep the value of `glm::mat4()`. -/
def Camera.construct (start_pos : Vec3) : Camera :=
  { m_view := Mat4.translate Mat4.identity start_pos
    m_transform := Mat4.translate Mat4.identity start_pos
    rx := 0
    ry := 0
    pos := start_pos
    m_perspective := Mat4.identity
    m_inversePerspective := Mat4.identity }

/-- `Camera::adjust(dx, dy, dz, tx, ty, tz)` (lines 29-51); `abs` is the absolute value
of a `float`, `dz` is not used. -/
def Camera.adjust (cam : Camera) (dx dy _dz tx ty tz : ℚ) : Camera :=
  let rx := if |dx| > FLT_EPSILON then fmod (cam.rx - dx) 360 else cam.rx
  let ry := if |dy| > FLT_EPSILON then clamp (cam.ry - dy) (-70) 70 else cam.ry
  let translation := cam.m_transform.mulVec ⟨tx, ty, tz, 0⟩
  { cam with
    rx := rx
    ry := ry
    pos := ⟨cam.pos.x + translation.x, cam.pos.y + translation.y,
      cam.pos.z + translation.z⟩ }

/-- The glm functions of `CalculateViewProjection` whose results are not rational
(`rotate` and `perspective` take sines, cosines and a tangent) or whose code is outside
the sources (`inverse`). -/
structure GlmOps where
  rotate : Mat4 → ℚ → Vec3 → Mat4
  perspective : ℚ → ℚ → ℚ → ℚ → Mat4
  inverse : Mat4 → Mat4

/-- `Camera::CalculateViewProjection(fov, width, height, nearPlane, farPlane)` (lines
53-71). -/
def Camera.CalculateViewProjection (glm : GlmOps) (cam : Camera)
    (fov width height nearPlane farPlane : ℚ) : Camera :=
  let t0 := Mat4.translate Mat4.identity cam.pos
  let t1 := glm.rotate t0 cam.rx ⟨0, 1, 0⟩
  let t2 := glm.rotate t1 cam.ry ⟨1, 0, 0⟩
  let persp := glm.perspective fov (width / height) nearPlane farPlane
  { cam with
    m_transform := t2
    m_perspective := persp
    m_view := glm.inverse t2
    m_inversePerspective := glm.inverse persp }

/-- The arguments of one `adjust` call. -/
structure AdjustArgs where
  dx : ℚ
  dy : ℚ
  dz : ℚ
  tx : ℚ
  ty : ℚ
  tz : ℚ

/-- A sequence of `adjust` calls, one for each element of the list. -/
def Camera.adjustAll (cam : Camera) (calls : List AdjustArgs) : Camera :=
  calls.foldl (fun c a => c.adjust a.dx a.dy a.dz a.tx a.ty a.tz) cam

/-- The calls of the list with their look deltas replaced by the fixed `dx`, `dy`: one
call `adjust(dx, dy, dz, tx, ty, tz)` for each element, whatever its `dz, tx, ty, tz`. -/
def lookCalls (dx dy : ℚ) (moves : List AdjustArgs) : List AdjustArgs :=
  moves.map (fun a => { a with dx := dx, dy := dy })

/-! ## GLRenderer.cpp: drawLight (lines 180-213) -/

/-- What `drawLight` asks of the current program and the renderer. -/
inductive LightCommand where
  /-- The call `SetShaderConstant("uf4Light", light)`. -/
  | setLight (light : Vec4)
  /-- The call `SetShaderConstant("ufLightIl", strength)`. -/
  | setLightIl (strength : ℚ)
  /-- The call `RenderQuad()`. -/
  | renderQuad
  deriving DecidableEq

/-- `light = m_pRenderCam->GetView() * glm::vec4(pos, 1.0)` (line 182). -/
def lightInView (view : Mat4) (pos : Vec3) : Vec4 :=
  view.mulVec ⟨pos.x, pos.y, pos.z, 1⟩

/-- `GLRenderer::drawLight(pos, strength)` (lines 180-213) for the camera view matrix
`view` and the renderer's `m_nearPlane`: the calls it makes, in order. -/
def drawLight (view : Mat4) (m_nearPlane : ℚ) (pos : Vec3) (strength : ℚ) :
    List LightCommand :=
  let light := lightInView view pos
  if light.z - strength > -m_nearPlane then []
  else
    [LightCommand.setLight { light with w := strength },
      LightCommand.setLightIl strength,
      LightCommand.renderQuad]

/-! ## GLProgram.cpp: PreprocessShaderSource (lines 121-153) -/

/-- Number of values of a `size_t` (64-bit build); `std::string::npos` is the largest. -/
def SIZE_MOD : Nat := 18446744073709551616

/-- The characters the name-end loop of line 131 steps over. -/
def isBlank (c : Char) : Bool :=
  c == '\r' || c == '\n' || c == '\t' || c == ' '

/-- Whether `pat` is a leading part of `s`. -/
def startsWith : List Char → List Char → Bool
  | [], _ => true
  | _ :: _, [] => false
  | p :: ps, c :: cs => p == c && startsWith ps cs

/-- `s.find(pat)`: the first position at which `pat` occurs in `s`; `none` is `npos`. -/
def findStr (pat : List Char) : List Char → Option Nat
  | [] => if startsWith pat [] then some 0 else none
  | c :: cs =>
    if startsWith pat (c :: cs) then some 0 else (findStr pat cs).map (fun i => i + 1)

/-- `s.find_first_of(ch)`: the first position of `ch` in `s`; `none` is `npos`. -/
def findChar (ch : Char) : List Char → Option Nat
  | [] => none
  | c :: cs => if c = ch then some 0 else (findChar ch cs).map (fun i => i + 1)

/-- `s.find(ch, pos)`: the first position of `ch` at or after `pos`. -/
def findCharFrom (ch : Char) (s : List Char) (pos : Nat) : Option Nat :=
  (findChar ch (s.drop pos)).map (fun i => i + pos)

/-- `s.find_last_of(ch)`: the last position of `ch` in `s`; `none` is `npos`. -/
def findLastChar (ch : Char) : List Char → Option Nat
  | [] => none
  | c :: cs =>
    match findLastChar ch cs with
    | some i => some (i + 1)
    | none => if c = ch then some 0 else none

/-- `s.substr(pos, len)` for `pos ≤ s.size()`: at most `len` characters from `pos`. -/
def substr (s : List Char) (pos len : Nat) : List Char :=
  (s.drop pos).take len

/-- `s.replace(pos, len, str)` for `pos ≤ s.size()`. -/
def replaceAt (s : List Char) (pos len : Nat) (str : List Char) : List Char :=
  s.take pos ++ str ++ s.drop (pos + len)

/-- The loop of lines 131-132, `while (blank(shaderSource[includeNameEnd])) --includeNameEnd;`
started at index `i`; `shaderSource[size()]` is the terminating NUL. `none` when the
index would be decremented below 0. -/
def scanBack (s : List Char) : Nat → Option Nat
  | 0 => if isBlank (s.getD 0 (Char.ofNat 0)) then none else some 0
  | i + 1 => if isBlank (s.getD (i + 1) (Char.ofNat 0)) then scanBack s i else some (i + 1)

/-- How `PreprocessShaderSource` ends. -/
inductive PreprocessOutcome where
  /-- The loop is left through `break`; `shaderSource` holds the text. -/
  | done (shaderSource : List Char)
  /-- The `assert(false)` of line 141, "Header not enclosed in quotes". -/
  | headerNotQuoted
  /-- The include file `headerName` could not be loaded. -/
  | loadFailed (headerName : List Char)
  /-- An index or position outside the string (no newline after the directive). -/
  | outOfRange
  /-- The iteration bound of the embedding was reached. -/
  | outOfFuel
  deriving DecidableEq

/-- The result of one iteration of the `while (1)` loop. -/
inductive PreprocessStep where
  /-- The iteration replaced a directive; the loop goes on with the new text. -/
  | next (shaderSource : List Char)
  /-- The loop ends. -/
  | stop (outcome : PreprocessOutcome)
  deriving DecidableEq

/-- One iteration of the loop body (lines 126-151). `loadFile` stands for
`Utility::loadFile`, whose code is outside the sources: the content of the file with the
given path, `none` when it is missing. All index arithmetic is `size_t` arithmetic. -/
def preprocessStep (loadFile : List Char → Option (List Char)) (workingDirectory : List Char)
    (shaderSource : List Char) : PreprocessStep :=
  match findStr "#include".toList shaderSource with
  | none => PreprocessStep.stop (PreprocessOutcome.done shaderSource)
  | some includePosition =>
    match findCharFrom '\n' shaderSource includePosition with
    | none => PreprocessStep.stop PreprocessOutcome.outOfRange
    | some includeEndPosition =>
      match scanBack shaderSource includeEndPosition with
      | none => PreprocessStep.stop PreprocessOutcome.outOfRange
      | some includeNameEnd =>
        if includePosition + 9 > shaderSource.length then
          PreprocessStep.stop PreprocessOutcome.outOfRange
        else
          let headerNameWithQuotes := substr shaderSource (includePosition + 9)
            ((includeNameEnd + SIZE_MOD - (includePosition + 9) + 1) % SIZE_MOD)
          match findChar '"' headerNameWithQuotes, findLastChar '"' headerNameWithQuotes with
          | some first, some last =>
            if first ≠ last then
              let headerName := workingDirectory ++
                substr headerNameWithQuotes (first + 1) (last - first - 1)
              match loadFile headerName with
              | none => PreprocessStep.stop (PreprocessOutcome.loadFailed headerName)
              | some includeSourceRaw =>
                PreprocessStep.next
                  (replaceAt shaderSource includePosition
                    (includeEndPosition - includePosition - 1) includeSourceRaw)
            else PreprocessStep.stop PreprocessOutcome.headerNotQuoted
          | _, _ => PreprocessStep.stop PreprocessOutcome.headerNotQuoted

/-- `GLProgram::PreprocessShaderSource(shaderSource, workingDirectory)`: the `while (1)`
loop, run for at most `fuel` iterations. -/
def PreprocessShaderSource (loadFile : List Char → Option (List Char))
    (workingDirectory : List Char) : Nat → List Char → PreprocessOutcome
  | 0, _ => PreprocessOutcome.outOfFuel
  | fuel + 1, shaderSource =>
    match preprocessStep loadFile workingDirectory shaderSource with
    | PreprocessStep.next shaderSource1 =>
      PreprocessShaderSource loadFile workingDirectory fuel shaderSource1
    | PreprocessStep.stop outcome => outcome

/-- The text of a directive `#include "name"`. -/
def includeDirective (name : List Char) : List Char :=
  "#include".toList ++ ' ' :: '"' :: name ++ ['"']

/-- A file system with the given files and nothing else. -/
def filesOf (files : List (List Char × List Char)) (path : List Char) : Option (List Char) :=
  (files.find? (fun f => f.1 == path)).map (fun f => f.2)

/-! ## main.cpp: WinMain (lines 93-139) -/

/-- The `std::istringstream` over the command line: the characters not yet extracted, and
whether `good()` holds (neither `eofbit` nor `failbit` is set). -/
structure IStringStream where
  rest : List Char
  good : Bool
  deriving DecidableEq

/-- Whether `liness.peek() == EOF`: the stream is not good or has no character left. -/
def IStringStream.peekIsEOF (liness : IStringStream) : Bool :=
  !liness.good || liness.rest.isEmpty

/-- `std::getline(liness, str, delim)`: the stream and the string after the call. On a
stream that is not good the call only sets `failbit` and leaves `str` as it is. Otherwise
`str` becomes the characters before the first `delim`, which is extracted as well; when
there is no `delim` the whole rest is taken and `eofbit` is set. -/
def getline (liness : IStringStream) (str : List Char) (delim : Char) :
    IStringStream × List Char :=
  if liness.good then
    match findChar delim liness.rest with
    | some i => ({ rest := liness.rest.drop (i + 1), good := true }, liness.rest.take i)
    | none => ({ rest := [], good := false }, liness.rest)
  else (liness, str)

/-- The test of line 106: `value` has a double quote and its first and its last double
quote are the same one. -/
def hasUnclosedQuote (value : List Char) : Bool :=
  match findChar '"' value, findLastChar '"' value with
  | some first, some last => first == last
  | _, _ => false

/-- The `do ... while (value.back() != '"')` loop of lines 110-115, run for at most `fuel`
iterations; `_value` keeps its content from one iteration to the next. `none` when the
iterations run out. -/
def quoteLoop : Nat → IStringStream → List Char → List Char →
    Option (IStringStream × List Char)
  | 0, _, _, _ => none
  | fuel + 1, liness, value, _value =>
    let value1 := value ++ [' ']
    let r := getline liness _value ' '
    let value2 := value1 ++ r.2
    if value2.getLast? ≠ some '"' then quoteLoop fuel r.1 value2 r.2
    else some (r.1, value2)

/-- `argumentList[argument] = value` on the map, as the list of its pairs. -/
def assignArgument (argumentList : List (List Char × List Char))
    (argument value : List Char) : List (List Char × List Char) :=
  (argument, value) :: argumentList.filter (fun e => e.1 != argument)

/-- How the parsing block of `WinMain` ends. -/
inductive ParseOutcome where
  /-- The loop is left through `break` with this map. -/
  | parsed (argumentList : List (List Char × List Char))
  /-- `value.front()` is called on an empty string (undefined behaviour). -/
  | frontOfEmpty
  /-- The iteration bound of the embedding was reached. -/
  | outOfFuel
  deriving DecidableEq

/-- The `while (1)` loop of lines 99-127, run for at most `n` iterations, each inner loop
for at most `fuel` iterations. `argument` and `value` are declared outside the loop and
keep their content when a `getline` fails. When the first and the last character of
`value` are double quotes, `value` has at least two characters (a `value` that is one
double quote goes through the inner loop first). -/
def parseLoop (fuel : Nat) : Nat → IStringStream → List Char → List Char →
    List (List Char × List Char) → ParseOutcome
  | 0, _, _, _, _ => ParseOutcome.outOfFuel
  | n + 1, liness, argument, value, argumentList =>
    if liness.peekIsEOF then ParseOutcome.parsed argumentList
    else
      let r1 := getline liness argument '='
      let r2 := getline r1.1 value ' '
      match (if hasUnclosedQuote r2.2 then quoteLoop fuel r2.1 r2.2 [] else some r2) with
      | none => ParseOutcome.outOfFuel
      | some (liness3, value3) =>
        match value3 with
        | [] => ParseOutcome.frontOfEmpty
        | front :: _ =>
          let value4 :=
            if front = '"' ∧ value3.getLast? = some '"' then
              substr value3 1 (value3.length - 2)
            else value3
          parseLoop fuel n liness3 r1.2 value4 (assignArgument argumentList r1.2 value4)

/-- How `WinMain` ends, up to the creation of the application. -/
inductive MainOutcome where
  /-- The usage message is logged and `EXIT_SUCCESS` is returned (lines 131-137). -/
  | usage
  /-- The mesh key is in the map: `GLApp::Create` is called (line 140). -/
  | createsApp (argumentList : List (List Char × List Char))
  /-- `value.front()` is called on an empty string (undefined behaviour). -/
  | frontOfEmpty
  /-- The iteration bound of the embedding was reached. -/
  | outOfFuel
  deriving DecidableEq

/-- `WinMain` (lines 93-139) for the command line `lpCmdLine`; the value of
`GLApp::c_meshArgumentString` is outside the sources. Every iteration of the outer loop
extracts at least one character, so `lpCmdLine.length + 1` iterations are enough for it;
`fuel` bounds the inner loop. -/
def WinMain (c_meshArgumentString : List Char) (fuel : Nat) (lpCmdLine : List Char) :
    MainOutcome :=
  match parseLoop fuel (lpCmdLine.length + 1) { rest := lpCmdLine, good := true } [] [] []
    with
  | ParseOutcome.outOfFuel => MainOutcome.outOfFuel
  | ParseOutcome.frontOfEmpty => MainOutcome.frontOfEmpty
  | ParseOutcome.parsed argumentList =>
    match argumentList.find? (fun e => e.1 == c_meshArgumentString) with
    | none => MainOutcome.usage
    | some _ => MainOutcome.createsApp argumentList

/-! ## TextureManager.cpp: formats and uploads of LoadImageAndCreateTexture (lines 341-519) -/

/-- The `flags` argument of `LoadImageAndCreateTexture`, one field for each test
`flags & SOIL_FLAG_...` of the function (the flags are distinct bits). -/
structure SoilFlags where
  SOIL_FLAG_POWER_OF_TWO : Bool
  SOIL_FLAG_MIPMAPS : Bool
  SOIL_FLAG_TEXTURE_REPEATS : Bool
  SOIL_FLAG_MULTIPLY_ALPHA : Bool
  SOIL_FLAG_INVERT_Y : Bool
  SOIL_FLAG_COMPRESS_TO_DXT : Bool
  SOIL_FLAG_NTSC_SAFE_RGB : Bool
  SOIL_FLAG_CoCg_Y : Bool
  SOIL_FLAG_TEXTURE_RECTANGLE : Bool
  SOIL_FLAG_SRGB_TEXTURE : Bool
  deriving DecidableEq

/-- No flag set. -/
def SoilFlags.none : SoilFlags :=
  { SOIL_FLAG_POWER_OF_TWO := false, SOIL_FLAG_MIPMAPS := false,
    SOIL_FLAG_TEXTURE_REPEATS := false, SOIL_FLAG_MULTIPLY_ALPHA := false,
    SOIL_FLAG_INVERT_Y := false, SOIL_FLAG_COMPRESS_TO_DXT := false,
    SOIL_FLAG_NTSC_SAFE_RGB := false, SOIL_FLAG_CoCg_Y := false,
    SOIL_FLAG_TEXTURE_RECTANGLE := false, SOIL_FLAG_SRGB_TEXTURE := false }

/-- The GL format constants the function uses; `ZERO` is the initial value 0 of
`internalFormat` and `pixelFormat` (line 174). -/
inductive GLFormat where
  | ZERO
  | GL_RED
  | GL_RG
  | GL_RGB
  | GL_RGBA
  | GL_R8
  | GL_RG8
  | GL_RGB8
  | GL_RGBA8
  | GL_SRGB8
  | GL_SRGB8_ALPHA8
  | GL_COMPRESSED_RGB_S3TC_DXT1_EXT
  | GL_COMPRESSED_RGBA_S3TC_DXT5_EXT
  | GL_COMPRESSED_SRGB_S3TC_DXT1_EXT
  | GL_COMPRESSED_SRGB_ALPHA_S3TC_DXT5_EXT
  deriving DecidableEq

/-- The `switch (channels)` of lines 345-363: `(pixelFormat, internalFormat)`. -/
def formatsForChannels (channels : Nat) (isS3TCSupported : Bool) (flags : SoilFlags) :
    GLFormat × GLFormat :=
  match channels with
  | 1 => (GLFormat.GL_RED,
      if isS3TCSupported && flags.SOIL_FLAG_COMPRESS_TO_DXT
      then GLFormat.GL_COMPRESSED_RGB_S3TC_DXT1_EXT else GLFormat.GL_R8)
  | 2 => (GLFormat.GL_RG,
      if isS3TCSupported && flags.SOIL_FLAG_COMPRESS_TO_DXT
      then GLFormat.GL_COMPRESSED_RGBA_S3TC_DXT5_EXT else GLFormat.GL_RG8)
  | 3 => (GLFormat.GL_RGB,
      if isS3TCSupported && flags.SOIL_FLAG_COMPRESS_TO_DXT
      then GLFormat.GL_COMPRESSED_RGB_S3TC_DXT1_EXT else GLFormat.GL_RGB8)
  | 4 => (GLFormat.GL_RGBA,
      if isS3TCSupported && flags.SOIL_FLAG_COMPRESS_TO_DXT
      then GLFormat.GL_COMPRESSED_RGBA_S3TC_DXT5_EXT else GLFormat.GL_RGBA8)
  | _ => (GLFormat.ZERO, GLFormat.ZERO)

/-- The `if (flags & SOIL_FLAG_SRGB_TEXTURE)` chain of lines 364-374. -/
def applySRGB (flags : SoilFlags) (internalFormat : GLFormat) : GLFormat :=
  if flags.SOIL_FLAG_SRGB_TEXTURE then
    if internalFormat = GLFormat.GL_RGB8 then GLFormat.GL_SRGB8
    else if internalFormat = GLFormat.GL_RGBA8 then GLFormat.GL_SRGB8_ALPHA8
    else if internalFormat = GLFormat.GL_COMPRESSED_RGB_S3TC_DXT1_EXT
      then GLFormat.GL_COMPRESSED_SRGB_S3TC_DXT1_EXT
    else if internalFormat = GLFormat.GL_COMPRESSED_RGBA_S3TC_DXT5_EXT
      then GLFormat.GL_COMPRESSED_SRGB_ALPHA_S3TC_DXT5_EXT
    else internalFormat
  else internalFormat

/-- The value of `pixelFormat` after line 374. -/
def pixelFormatOf (channels : Nat) (isS3TCSupported : Bool) (flags : SoilFlags) : GLFormat :=
  (formatsForChannels channels isS3TCSupported flags).1

/-- The value of `internalFormat` after line 374. -/
def internalFormatOf (channels : Nat) (isS3TCSupported : Bool) (flags : SoilFlags) :
    GLFormat :=
  applySRGB flags (formatsForChannels channels isS3TCSupported flags).2

/-- The `while ((mipWidth > 1) || (mipHeight > 1))` loop of lines 381-387 on `uint32_t`
values, run for at most `fuel` iterations; every iteration halves both values, so 32
iterations are enough for any `uint32_t`. Returns `numMipLevels`. -/
def countMipLevels : Nat → Nat → Nat → Nat → Nat
  | 0, _, _, numMipLevels => numMipLevels
  | fuel + 1, mipWidth, mipHeight, numMipLevels =>
    if mipWidth > 1 ∨ mipHeight > 1 then
      countMipLevels fuel (max (mipWidth / 2) 1) (max (mipHeight / 2) 1)
        (numMipLevels + 1)
    else numMipLevels

/-- The value of `numMipLevels` after line 388 (levels above the base level). -/
def numMipLevelsOf (flags : SoilFlags) (width height : Nat) : Nat :=
  if flags.SOIL_FLAG_MIPMAPS then countMipLevels 32 width height 0 else 0

/-- The parameter names passed to `glTextureParameteri`. -/
inductive TexParameter where
  | GL_TEXTURE_MAG_FILTER
  | GL_TEXTURE_MIN_FILTER
  | GL_TEXTURE_MAX_LEVEL
  | GL_TEXTURE_WRAP_S
  | GL_TEXTURE_WRAP_T
  deriving DecidableEq

/-- The parameter values passed to `glTextureParameteri`. -/
inductive TexParameterValue where
  | GL_LINEAR
  | GL_LINEAR_MIPMAP_LINEAR
  | GL_REPEAT
  | GL_CLAMP_TO_EDGE
  | level (n : Nat)
  deriving DecidableEq

/-- The GL calls on the texture `tex_id` made by lines 390-518. -/
inductive TextureCall where
  /-- The call `glTextureStorage2D(tex_id, levels, internalFormat, width, height)`. -/
  | glTextureStorage2D (levels : Nat) (internalFormat : GLFormat) (width height : Nat)
  /-- The call `glCompressedTextureSubImage2D(tex_id, level, 0, 0, width, height, format, ...)`. -/
  | glCompressedTextureSubImage2D (level width height : Nat) (format : GLFormat)
  /-- The call `glTextureSubImage2D(tex_id, level, 0, 0, width, height, format, ...)`. -/
  | glTextureSubImage2D (level width height : Nat) (format : GLFormat)
  /-- The call `glTextureParameteri(tex_id, pname, value)`. -/
  | glTextureParameteri (pname : TexParameter) (value : TexParameterValue)
  deriving DecidableEq

/-- Lines 394-431, the upload of level 0. `converted` tells whether
`convert_image_to_DXT1/5` returned data. -/
def uploadBaseLevel (flags : SoilFlags) (isS3TCSupported converted : Bool)
    (width height : Nat) (pixelFormat internalFormat : GLFormat) : List TextureCall :=
  if flags.SOIL_FLAG_COMPRESS_TO_DXT then
    if isS3TCSupported then
      if converted then
        [TextureCall.glCompressedTextureSubImage2D 0 width height internalFormat]
      else [TextureCall.glTextureSubImage2D 0 width height pixelFormat]
    else []
  else [TextureCall.glTextureSubImage2D 0 width height pixelFormat]

/-- One iteration of the loop of lines 438-482 for level `MIPlevel`: the upload of the
data in `resampled`, declared with the dimensions `MIPwidth` x `MIPheight`. -/
def uploadMipLevel (isS3TCSupported converted : Bool) (MIPlevel MIPwidth MIPheight : Nat)
    (pixelFormat internalFormat : GLFormat) : TextureCall :=
  if isS3TCSupported then
    if converted then
      TextureCall.glCompressedTextureSubImage2D MIPlevel MIPwidth MIPheight internalFormat
    else TextureCall.glTextureSubImage2D MIPlevel MIPwidth MIPheight pixelFormat
  else TextureCall.glTextureSubImage2D MIPlevel MIPwidth MIPheight pixelFormat

/-- The loop `for (MIPlevel = 1; MIPlevel <= numMipLevels; ++MIPlevel)` of lines 438-482
with `remaining` iterations to go. The last two statements of the body assign
`(width + 1) / 2` and `(height + 1) / 2` to `MIPwidth` and `MIPheight`. -/
def mipLoop (isS3TCSupported : Bool) (converted : Nat → Bool) (width height : Nat)
    (pixelFormat internalFormat : GLFormat) : Nat → Nat → Nat → Nat → List TextureCall
  | 0, _, _, _ => []
  | remaining + 1, MIPlevel, MIPwidth, MIPheight =>
    uploadMipLevel isS3TCSupported (converted MIPlevel) MIPlevel MIPwidth MIPheight
        pixelFormat internalFormat ::
      mipLoop isS3TCSupported converted width height pixelFormat internalFormat remaining
        (MIPlevel + 1) ((width + 1) / 2) ((height + 1) / 2)

/-- Lines 341-518 for a texture name `tex_id ≠ 0`: the GL calls on the texture, in
order, for an image of `width` x `height` and `channels` channels as it is after the
resizing steps. `converted level` tells whether the DXT conversion of that level's data
returned data. The texture type is `GL_TEXTURE_2D` or `GL_TEXTURE_RECTANGLE`, never a
cube map. -/
def textureUploadCalls (flags : SoilFlags) (isS3TCSupported : Bool) (converted : Nat → Bool)
    (width height channels : Nat) : List TextureCall :=
  let pixelFormat := pixelFormatOf channels isS3TCSupported flags
  let internalFormat := internalFormatOf channels isS3TCSupported flags
  let numMipLevels := numMipLevelsOf flags width height
  [TextureCall.glTextureStorage2D (numMipLevels + 1) internalFormat width height] ++
  uploadBaseLevel flags isS3TCSupported (converted 0) width height pixelFormat
    internalFormat ++
  (if numMipLevels > 0 then
    mipLoop isS3TCSupported converted width height pixelFormat internalFormat numMipLevels 1
        ((width + 1) / 2) ((height + 1) / 2) ++
      [TextureCall.glTextureParameteri TexParameter.GL_TEXTURE_MAG_FILTER
          TexParameterValue.GL_LINEAR,
        TextureCall.glTextureParameteri TexParameter.GL_TEXTURE_MIN_FILTER
          TexParameterValue.GL_LINEAR_MIPMAP_LINEAR,
        TextureCall.glTextureParameteri TexParameter.GL_TEXTURE_MAX_LEVEL
          (TexParameterValue.level numMipLevels)]
  else
    [TextureCall.glTextureParameteri TexParameter.GL_TEXTURE_MAG_FILTER
        TexParameterValue.GL_LINEAR,
      TextureCall.glTextureParameteri TexParameter.GL_TEXTURE_MIN_FILTER
        TexParameterValue.GL_LINEAR,
      TextureCall.glTextureParameteri TexParameter.GL_TEXTURE_MAX_LEVEL
        (TexParameterValue.level 0)]) ++
  (if flags.SOIL_FLAG_TEXTURE_REPEATS then
    [TextureCall.glTextureParameteri TexParameter.GL_TEXTURE_WRAP_S
        TexParameterValue.GL_REPEAT,
      TextureCall.glTextureParameteri TexParameter.GL_TEXTURE_WRAP_T
        TexParameterValue.GL_REPEAT]
  else
    [TextureCall.glTextureParameteri TexParameter.GL_TEXTURE_WRAP_S
        TexParameterValue.GL_CLAMP_TO_EDGE,
      TextureCall.glTextureParameteri TexParameter.GL_TEXTURE_WRAP_T
        TexParameterValue.GL_CLAMP_TO_EDGE])

/-- Whether a call uploads pixel data for the given level. -/
def TextureCall.uploadsLevel (level : Nat) : TextureCall → Bool
  | TextureCall.glCompressedTextureSubImage2D l _ _ _ => l == level
  | TextureCall.glTextureSubImage2D l _ _ _ => l == level
  | _ => false

/-! ## TextureManager.cpp: the flip and the power-of-two rounding of
LoadImageAndCreateTexture (lines 198-215, 257-294) -/

/-- The ways in which `int` arithmetic on the pixel buffer has no defined result, and the
iteration bound of the embedding. -/
inductive ImageFault where
  /-- An `int` operation whose result is not a value of `int` (undefined behaviour). -/
  | signedOverflow
  /-- An access outside the pixel buffer (undefined behaviour). -/
  | outOfBounds
  /-- The iteration bound of the embedding was reached. -/
  | outOfFuel
  deriving DecidableEq

/-- The product of two `int` values that are not negative. -/
def intMul (a b : Nat) : Except ImageFault Nat :=
  if a * b < INT32_LIMIT then Except.ok (a * b) else Except.error ImageFault.signedOverflow

/-- The increment `++a` of an `int` value that is not negative. -/
def intInc (a : Nat) : Except ImageFault Nat :=
  if a + 1 < INT32_LIMIT then Except.ok (a + 1) else Except.error ImageFault.signedOverflow

/-- Lines 207-209: `temp = img[index1]; img[index1] = img[index2]; img[index2] = temp;`. -/
def swapBytes (img : List Nat) (index1 index2 : Nat) : Except ImageFault (List Nat) :=
  if index1 < img.length ∧ index2 < img.length then
    Except.ok ((img.set index1 (img.getD index2 0)).set index2 (img.getD index1 0))
  else Except.error ImageFault.outOfBounds

/-- The inner loop `for (i = width * channels; i > 0; --i)` of lines 205-212, with `i`
iterations to go. -/
def swapRowLoop : Nat → Nat → Nat → List Nat → Except ImageFault (List Nat)
  | 0, _, _, img => Except.ok img
  | i + 1, index1, index2, img => do
    let img1 ← swapBytes img index1 index2
    let index1 ← intInc index1
    let index2 ← intInc index2
    swapRowLoop i index1 index2 img1

/-- The outer loop `for (j = 0; j * 2 < height; ++j)` of lines 202-213 from the value `j`
on, run for at most `fuel` tests. All of `j * 2`, `j * width * channels`,
`(height - 1 - j) * width * channels` and `width * channels` are `int` products; inside
the loop `j <= height - 1`, so the difference is not negative. -/
def invertLoop (width height channels : Nat) :
    Nat → Nat → List Nat → Except ImageFault (List Nat)
  | 0, _, _ => Except.error ImageFault.outOfFuel
  | fuel + 1, j, img =>
    match intMul j 2 with
    | Except.error f => Except.error f
    | Except.ok j2 =>
      if j2 < height then do
        let a ← intMul j width
        let index1 ← intMul a channels
        let b ← intMul (height - 1 - j) width
        let index2 ← intMul b channels
        let i ← intMul width channels
        let img1 ← swapRowLoop i index1 index2 img
        let j1 ← intInc j
        invertLoop width height channels fuel j1 img1
      else Except.ok img

/-- The block of `SOIL_FLAG_INVERT_Y` (lines 199-214) on the pixel buffer `img` of an
image of the given width, height and number of channels. The loop makes at most
`height + 1` tests. -/
def invertY (width height channels : Nat) (img : List Nat) : Except ImageFault (List Nat) :=
  invertLoop width height channels (height + 1) 0 img

/-- The loop `while (new_width < width) new_width *= 2;` (lines 267-270, and 271-274 for
the height) from the value `new_width` on, for a `width` that is not negative, run for at
most `fuel` tests. `new_width *= 2` is an `int` multiplication. -/
def roundUpLoop : Nat → Nat → Nat → Except ImageFault Nat
  | 0, _, _ => Except.error ImageFault.outOfFuel
  | fuel + 1, new_width, width =>
    if new_width < width then
      if new_width * 2 < INT32_LIMIT then roundUpLoop fuel (new_width * 2) width
      else Except.error ImageFault.signedOverflow
    else Except.ok new_width

/-- `int new_width = 1;` followed by the loop; 32 tests are enough for every `int`. -/
def roundUpToPowerOfTwo (width : Nat) : Except ImageFault Nat :=
  roundUpLoop 32 1 width

/-- The test `(new_width != width) || (new_height != height)` of line 276: whether the
image is resampled by `up_scale_image`. -/
def resamples (width height : Nat) : Except ImageFault Bool :=
  match roundUpToPowerOfTwo width with
  | Except.error f => Except.error f
  | Except.ok new_width =>
    match roundUpToPowerOfTwo height with
    | Except.error f => Except.error f
    | Except.ok new_height => Except.ok (decide (new_width ≠ width ∨ new_height ≠ height))

/-! ## GLRenderer.cpp: MakeDrawableModel and ~DrawableGeometry (lines 58-73, 534-562) -/

/-- The texture paths of a mesh description (`Geometry`). -/
structure Geometry where
  diffuse_texpath : String
  normal_texpath : String
  specular_texpath : String
  deriving DecidableEq

/-- The texture handles, the vertex array and the index count of a `DrawableGeometry`.
The constructor (lines 49-56) value-initialises the members, so the vertex array and the
index count are 0 until they are set. -/
structure DrawableGeometry where
  diffuse_tex : Nat
  normal_tex : Nat
  specular_tex : Nat
  vertex_array : Nat := 0
  num_indices : Nat := 0
  deriving DecidableEq

/-- The three `Acquire` calls of `GLRenderer::MakeDrawableModel` (lines 555-557) on the
map `m`; `texId1`, `texId2`, `texId3` are the driver answers for the three calls. The
buffer and vertex-array calls before them do not touch the texture manager. -/
def MakeDrawableModel (env : TextureEnv) (texId1 texId2 texId3 : Nat) (model : Geometry)
    (m : TextureMap) : Outcome DrawableGeometry :=
  match Acquire env texId1 model.diffuse_texpath m with
  | Outcome.aborted f m1 => Outcome.aborted f m1
  | Outcome.returned diffuse m1 =>
    match Acquire env texId2 model.normal_texpath m1 with
    | Outcome.aborted f m2 => Outcome.aborted f m2
    | Outcome.returned normal m2 =>
      match Acquire env texId3 model.specular_texpath m2 with
      | Outcome.aborted f m3 => Outcome.aborted f m3
      | Outcome.returned specular m3 =>
        Outcome.returned
          { diffuse_tex := diffuse, normal_tex := normal, specular_tex := specular } m3

/-- One statement `if (tex != 0) TextureManager::GetSingleton()->Release(tex);` of the
destructor. -/
def releaseIfNonZero (tex : Nat) (m : TextureMap) : Outcome Unit :=
  if tex ≠ 0 then Release tex m else Outcome.returned () m

/-- The three guarded `Release` calls of `DrawableGeometry::~DrawableGeometry` (lines
64-69) on the map `m`. -/
def DrawableGeometry.destroy (g : DrawableGeometry) (m : TextureMap) : Outcome Unit :=
  match releaseIfNonZero g.diffuse_tex m with
  | Outcome.aborted f m1 => Outcome.aborted f m1
  | Outcome.returned _ m1 =>
    match releaseIfNonZero g.normal_tex m1 with
    | Outcome.aborted f m2 => Outcome.aborted f m2
    | Outcome.returned _ m2 => releaseIfNonZero g.specular_tex m2

/-- `MakeDrawableModel` followed by the destructor of its result. -/
def makeThenDestroy (env : TextureEnv) (texId1 texId2 texId3 : Nat) (model : Geometry)
    (m : TextureMap) : Outcome Unit :=
  match MakeDrawableModel env texId1 texId2 texId3 model m with
  | Outcome.aborted f m1 => Outcome.aborted f m1
  | Outcome.returned g m1 => g.destroy m1

/-- A decoder under which every file but `missing.png` decodes to a one-pixel image, with
the length of the name as its hash. -/
def oneMissingEnv : TextureEnv where
  HashCString := fun s => s.length
  SOIL_load_image := fun s =>
    if s = "missing.png" then none
    else some { width := 1, height := 1, channels := 1, data := [0] }

/-! ## GLProgram.cpp: SetupTextureBindingsAndConstantBuffers (lines 155-349, 423-461) -/

/-- A `std::map` with `uint32_t`-like keys, as the list of its elements. -/
abbrev KeyMap (β : Type) := List (Nat × β)

/-- `m.find(key)`: the mapped value, `none` for `m.end()`. -/
def KeyMap.find {β : Type} (key : Nat) : KeyMap β → Option β
  | [] => none
  | (k, v) :: rest => if k = key then some v else KeyMap.find key rest

/-- `m[key] = value`: assign in place when the key is present, insert at the key's
position otherwise. -/
def KeyMap.assign {β : Type} (key : Nat) (value : β) : KeyMap β → KeyMap β
  | [] => [(key, value)]
  | (k, v) :: rest =>
    if key < k then (key, value) :: (k, v) :: rest
    else if key = k then (key, value) :: rest
    else (k, v) :: KeyMap.assign key value rest

/-- The maps of a `GLProgram` that reflection fills: texture name hash to (bind
location, current texture), constant handle to constant-buffer index, and
constant-buffer index to bind point. -/
structure GLProgram where
  m_textureBindIndicesMap : KeyMap (Int × Nat)
  m_shaderConstantToConstantBufferBindingMap : KeyMap Nat
  m_constantBufferBindIndicesMap : KeyMap Int
  deriving DecidableEq

/-- The answers of the collaborators of reflection whose code is outside the sources:
`Utility::HashCString`, the two static tables and `GetTypeFromString` of
`ShaderConstantManager`, its `SetupConstantBuffer`, and the queries to the GL driver on
the linked program (`none` is `GL_INVALID_INDEX`; the `glGetActiveUniformsiv` answers are
given by uniform index, the `glGetActiveUniformBlockiv` answers by block index). -/
structure ReflectionEnv where
  HashCString : List Char → Nat
  GetTypeFromString : List Char → SupportedTypes
  table : TypeTable
  SetupConstantBuffer : List Char → Int → List ShaderConstantSignature → Nat
  glGetUniformBlockIndex : List Char → Option Nat
  glGetUniformIndices : List Char → Option Nat
  GL_UNIFORM_SIZE : Nat → Int
  GL_UNIFORM_OFFSET : Nat → Int
  GL_UNIFORM_TYPE : Nat → Int
  GL_UNIFORM_BLOCK_DATA_SIZE : Nat → Int
  GL_UNIFORM_BLOCK_BINDING : Nat → Int
  glGetUniformLocation : List Char → Int

/-- Where reflection stops without returning. -/
inductive ReflectFatal where
  /-- A token index past the end of `tokenList`. -/
  | outOfRange
  /-- The `assert(false)` of line 457, "GL type unsupported". -/
  | unsupportedGLType
  /-- The assertion of line 299, `constBufferSize >= stdOffset`. -/
  | bufferTooSmall
  /-- The `assert(false)` of line 310, "This constant is already mapped to a different
  constant buffer". -/
  | constantMappedElsewhere
  /-- The assertion of line 320, `constBufferBindPoint > -1`. -/
  | noBindPoint
  deriving DecidableEq

instance exceptDecidableEq {ε α : Type} [DecidableEq ε] [DecidableEq α] :
    DecidableEq (Except ε α)
  | Except.ok a, Except.ok b =>
    if h : a = b then isTrue (congrArg Except.ok h)
    else isFalse (fun e => h (Except.ok.inj e))
  | Except.error a, Except.error b =>
    if h : a = b then isTrue (congrArg Except.error h)
    else isFalse (fun e => h (Except.error.inj e))
  | Except.ok _, Except.error _ => isFalse (fun e => Except.noConfusion e)
  | Except.error _, Except.ok _ => isFalse (fun e => Except.noConfusion e)

/-- The loop of the static `tokenizer` (lines 423-440) over the rest of the source, with
the token being built and the tokens pushed so far. -/
def tokenizerLoop : List Char → List Char → List (List Char) → List (List Char)
  | [], _, tokenList => tokenList
  | itr :: rest, newToken, tokenList =>
    if isBlank itr then
      if newToken.length ≠ 0 then tokenizerLoop rest [] (tokenList ++ [newToken])
      else tokenizerLoop rest newToken tokenList
    else tokenizerLoop rest (newToken ++ [itr]) tokenList

/-- The static `tokenizer(sourceString, tokenList)` for an empty `tokenList`. -/
def tokenizer (sourceString : List Char) : List (List Char) :=
  tokenizerLoop sourceString [] []

/-- The words "the maximal runs of non-whitespace characters that are followed by a
whitespace character, in source order": the source is split at every whitespace
character, the last piece (the one that no whitespace character follows) is left out,
and so are the empty pieces between two adjacent whitespace characters. -/
def runsFollowedByBlank (sourceString : List Char) : List (List Char) :=
  ((sourceString.splitOnP isBlank).dropLast).filter (fun t => !t.isEmpty)

/-- Whether `token.find(pat) != std::string::npos`. -/
def tokenContains (pat : String) (token : List Char) : Bool :=
  (findStr pat.toList token).isSome

/-- The body of the backward scan of lines 199-212 with `previous` at the given index,
down to index 0. -/
def scanPrevious (tokenList : List (List Char)) : Nat → Bool
  | 0 =>
    tokenContains "std140" (tokenList.getD 0 [])
  | previous + 1 =>
    if tokenContains "std140" (tokenList.getD (previous + 1) []) then true
    else if tokenContains ";" (tokenList.getD (previous + 1) []) then false
    else scanPrevious tokenList previous

/-- The value of `stdLayout` after lines 198-212 for the `uniform` token at index `i`, a
`uint32_t`. `previous` is an `int32_t` initialised with the `uint32_t` value `i - 1`,
which is `UINT32_MOD - 1` for `i = 0`: from `INT32_LIMIT` on that value is negative as an
`int32_t` and the loop is not entered. -/
def scanStd140 (tokenList : List (List Char)) (i : Nat) : Bool :=
  let previous := if i = 0 then UINT32_MOD - 1 else i - 1
  if previous < INT32_LIMIT then scanPrevious tokenList previous else false

/-- The tokens read by the `while (tokenList[itr].compare("};") != 0)` loop of lines
218-239, from `tokenList[itr]` on: the pairs (type token, name token without its last
character). `none` when the tokens end before a `};` token is met. -/
def parseMembers : List (List Char) → Option (List (List Char × List Char))
  | [] => none
  | [t] => if t = "\x7d;".toList then some [] else none
  | t :: n :: rest =>
    if t = "\x7d;".toList then some []
    else (parseMembers rest).map (fun ms => (t, n.dropLast) :: ms)

/-- The value of `stdOffset` after the std140 loop over the members, started with
`stdOffset`. -/
def std140End (tbl : TypeTable) : List (SupportedTypes × String) → Nat → Nat
  | [], stdOffset => stdOffset
  | (ty, _) :: rest, stdOffset =>
    std140End tbl rest
      (advanceOffset (paddedOffset (tbl.GetAlignmentForType ty) stdOffset)
        (tbl.GetSizeForType ty))

/-- The static `GLTypeToSupportedType(gltype)` (lines 442-461), with the values of the
GL constants `GL_FLOAT` 0x1406, `GL_BOOL` 0x8B56, `GL_INT` 0x1404, `GL_FLOAT_MAT4`
0x8B5C, `GL_FLOAT_VEC3` 0x8B51 and `GL_FLOAT_VEC4` 0x8B52. -/
def GLTypeToSupportedType (gltype : Int) : Except ReflectFatal SupportedTypes :=
  if gltype = 5126 then Except.ok SupportedTypes.FLOAT
  else if gltype = 35670 then Except.ok SupportedTypes.BOOL
  else if gltype = 5124 then Except.ok SupportedTypes.INT
  else if gltype = 35676 then Except.ok SupportedTypes.MAT4
  else if gltype = 35665 then Except.ok SupportedTypes.VEC3
  else if gltype = 35666 then Except.ok SupportedTypes.VEC4
  else Except.error ReflectFatal.unsupportedGLType

/-- A `GLint` stored into a `uint32_t`. -/
def toUInt32 (n : Int) : Nat :=
  (n % (UINT32_MOD : Int)).toNat

/-- The loop of lines 273-284 over `activeUniforms`: a signature with the driver's size,
offset and type for every name the driver knows, none for the others. -/
def driverSignature (env : ReflectionEnv) :
    List (List Char) → Except ReflectFatal (List ShaderConstantSignature)
  | [] => Except.ok []
  | name :: rest =>
    match env.glGetUniformIndices name with
    | none => driverSignature env rest
    | some index =>
      match GLTypeToSupportedType (env.GL_UNIFORM_TYPE index) with
      | Except.error f => Except.error f
      | Except.ok ty =>
        match driverSignature env rest with
        | Except.error f => Except.error f
        | Except.ok sigs =>
          Except.ok
            ({ name := String.mk name
               type := ty
               offset := toUInt32 (env.GL_UNIFORM_OFFSET index)
               size := toUInt32 (env.GL_UNIFORM_SIZE index) } :: sigs)

/-- The loop of lines 302-316 over `activeUniforms` on the map
`m_shaderConstantToConstantBufferBindingMap`. -/
def registerConstants (HashCString : List Char → Nat) (indexOfConstantBuffer : Nat) :
    List (List Char) → KeyMap Nat → Except ReflectFatal (KeyMap Nat)
  | [], m => Except.ok m
  | name :: rest, m =>
    match KeyMap.find (HashCString name) m with
    | some mapped =>
      if mapped ≠ indexOfConstantBuffer then
        Except.error ReflectFatal.constantMappedElsewhere
      else registerConstants HashCString indexOfConstantBuffer rest m
    | none =>
      registerConstants HashCString indexOfConstantBuffer rest
        (KeyMap.assign (HashCString name) indexOfConstantBuffer m)

/-- The signature list built for a block (lines 214-295): by the std140 rules when
`stdLayout`, from the driver otherwise. -/
def blockSignature (env : ReflectionEnv) (stdLayout : Bool)
    (members : List (List Char × List Char)) :
    Except ReflectFatal (List ShaderConstantSignature) :=
  if stdLayout then
    Except.ok (std140Signature env.table
      (members.map (fun m => (env.GetTypeFromString m.1, String.mk m.2))))
  else driverSignature env (members.map (fun m => m.2))

/-- Lines 198-321 for the `uniform` token at index `i` that names the block
`constBufferName` with the active block index `constBufferBlockIndex`. -/
def processBlock (env : ReflectionEnv) (tokenList : List (List Char)) (i : Nat)
    (constBufferName : List Char) (constBufferBlockIndex : Nat) (program : GLProgram) :
    Except ReflectFatal GLProgram :=
  let stdLayout := scanStd140 tokenList i
  match parseMembers (tokenList.drop ((i + 3) % UINT32_MOD)) with
  | none => Except.error ReflectFatal.outOfRange
  | some members =>
    let stdOffset :=
      if stdLayout then
        std140End env.table
          (members.map (fun m => (env.GetTypeFromString m.1, String.mk m.2))) 0
      else 0
    match blockSignature env stdLayout members with
    | Except.error f => Except.error f
    | Except.ok constBufferSignature =>
      let constBufferSize := env.GL_UNIFORM_BLOCK_DATA_SIZE constBufferBlockIndex
      if toUInt32 constBufferSize < stdOffset then Except.error ReflectFatal.bufferTooSmall
      else
        let indexOfConstantBuffer :=
          env.SetupConstantBuffer constBufferName constBufferSize constBufferSignature
        match registerConstants env.HashCString indexOfConstantBuffer
            (members.map (fun m => m.2)) program.m_shaderConstantToConstantBufferBindingMap with
        | Except.error f => Except.error f
        | Except.ok bindingMap =>
          let constBufferBindPoint := env.GL_UNIFORM_BLOCK_BINDING constBufferBlockIndex
          if constBufferBindPoint > -1 then
            Except.ok
              { program with
                m_shaderConstantToConstantBufferBindingMap := bindingMap
                m_constantBufferBindIndicesMap :=
                  KeyMap.assign indexOfConstantBuffer constBufferBindPoint
                    program.m_constantBufferBindIndicesMap }
          else Except.error ReflectFatal.noBindPoint

/-- The program and the `activeTextures` list during the loop over the `uniform`
tokens. -/
structure ReflectState where
  program : GLProgram
  activeTextures : List (List Char)
  deriving DecidableEq

/-- One iteration of the loop of lines 183-327, for the `uniform` token at index `i`. -/
def processUniform (env : ReflectionEnv) (tokenList : List (List Char))
    (st : ReflectState) (i : Nat) : Except ReflectFatal ReflectState :=
  match tokenList[(i + 1) % UINT32_MOD]? with
  | none => Except.error ReflectFatal.outOfRange
  | some next =>
    if tokenContains "sampler" next then
      match tokenList[(i + 2) % UINT32_MOD]? with
      | none => Except.error ReflectFatal.outOfRange
      | some name =>
        Except.ok { st with activeTextures := st.activeTextures ++ [name.dropLast] }
    else
      match env.glGetUniformBlockIndex next with
      | none => Except.ok st
      | some constBufferBlockIndex =>
        match processBlock env tokenList i next constBufferBlockIndex st.program with
        | Except.error f => Except.error f
        | Except.ok program => Except.ok { st with program := program }

/-- The loop body of `GLProgram::SetupTextureBindings` (lines 336-347) for one name. -/
def bindTexture (env : ReflectionEnv) (table : KeyMap (Int × Nat)) (name : List Char) :
    KeyMap (Int × Nat) :=
  match KeyMap.find (env.HashCString name) table with
  | some _ => table
  | none =>
    if env.glGetUniformLocation name > -1 then
      KeyMap.assign (env.HashCString name) (env.glGetUniformLocation name, 0) table
    else table

/-- `GLProgram::SetupTextureBindings(textureNames)` (lines 332-349) on the map
`m_textureBindIndicesMap`. -/
def SetupTextureBindings (env : ReflectionEnv) (textureNames : List (List Char))
    (table : KeyMap (Int × Nat)) : KeyMap (Int × Nat) :=
  textureNames.foldl (bindTexture env) table

/-- The indices of the tokens equal to `uniform` (lines 162-167), in increasing order. -/
def uniformTokenPositions (tokenList : List (List Char)) : List Nat :=
  (List.range tokenList.length).filter (fun i => tokenList.getD i [] == "uniform".toList)

/-- The loop of lines 183-327 over the positions that are left. -/
def processUniforms (env : ReflectionEnv) (tokenList : List (List Char)) :
    List Nat → ReflectState → Except ReflectFatal ReflectState
  | [], st => Except.ok st
  | i :: rest, st =>
    match processUniform env tokenList st i with
    | Except.error f => Except.error f
    | Except.ok st1 => processUniforms env tokenList rest st1

/-- `GLProgram::SetupTextureBindingsAndConstantBuffers(shaderSource)` (lines 155-330). -/
def SetupTextureBindingsAndConstantBuffers (env : ReflectionEnv) (shaderSource : List Char)
    (program : GLProgram) : Except ReflectFatal GLProgram :=
  let tokenList := tokenizer shaderSource
  match processUniforms env tokenList (uniformTokenPositions tokenList)
      { program := program, activeTextures := [] } with
  | Except.error f => Except.error f
  | Except.ok st =>
    Except.ok
      { st.program with
        m_textureBindIndicesMap :=
          SetupTextureBindings env st.activeTextures st.program.m_textureBindIndicesMap }

/-- A program with empty maps. -/
def GLProgram.empty : GLProgram :=
  { m_textureBindIndicesMap := []
    m_shaderConstantToConstantBufferBindingMap := []
    m_constantBufferBindIndicesMap := [] }

/-- Sample collaborators: the length of a name as its hash, the sample std140 table, a
linked program whose only active block is `PerFrame` (block index 0, 80 bytes, bind
point 1) and whose only active sampler is `u_Colortex` (location 3), a registry that
hands out the index 0. -/
def sampleReflectionEnv : ReflectionEnv where
  HashCString := fun s => s.length
  GetTypeFromString := fun s =>
    if s = "mat4".toList then SupportedTypes.MAT4 else SupportedTypes.FLOAT
  table := std140Table
  SetupConstantBuffer := fun _ _ _ => 0
  glGetUniformBlockIndex := fun s => if s = "PerFrame".toList then some 0 else none
  glGetUniformIndices := fun _ => none
  GL_UNIFORM_SIZE := fun _ => 0
  GL_UNIFORM_OFFSET := fun _ => 0
  GL_UNIFORM_TYPE := fun _ => 0
  GL_UNIFORM_BLOCK_DATA_SIZE := fun _ => 80
  GL_UNIFORM_BLOCK_BINDING := fun _ => 1
  glGetUniformLocation := fun s => if s = "u_Colortex".toList then 3 else -1

/-- A sample shader source with one std140 block and two samplers. -/
def sampleShaderSource : List Char :=
  ("layout(std140) uniform PerFrame\n\x7b\n    mat4 um4View;\n    float ufFar;\n\x7d;\n" ++
    "uniform sampler2D u_Colortex;\nuniform sampler2D u_Unused;\n").toList

/-- A token list of more than 2^31 tokens: a `layout(std140)` token, 2147483648 tokens
`x`, and then the declaration `uniform PerFrame { float ufFar; };`. The `uniform` token
is at index 2147483649. -/
def longTokenList : List (List Char) :=
  "layout(std140)".toList ::
    (List.replicate 2147483648 "x".toList ++
      ["uniform".toList, "PerFrame".toList, "\x7b".toList, "float".toList, "ufFar;".toList,
        "\x7d;".toList])

/-! ## GLProgram.cpp: SetActive, SetShaderConstant, SetTexture and the two commits
(lines 86-119, 351-363, 395-421) -/

/-- The values that the enumerations of `RenderEnums` give to the names `Render` uses,
`Utility::HashCString`, and whether the `ShaderConstantManager` singleton is alive (the
renderer's constructor creates it). The code of all of them is outside the sources. -/
structure RenderEnv where
  HashCString : List Char → Nat
  managerCreated : Bool
  GBUFFER_FRAMEBUFFER : Nat
  LIGHTING_FRAMEBUFFER : Nat
  DISPLAY_TOTAL : Nat

/-- The ways in which `Render` does not return: one of the assertions fails, or the loop
of `DrawOpaqueList` does not end. -/
inductive RenderFatal where
  /-- `assert(fbID < m_FBO.size())` of `SetFramebufferActive`. -/
  | framebufferOutOfRange
  /-- `assert(false)` in a handler of `std::bad_weak_ptr`. -/
  | managerNotCreated
  /-- `assert(false)` in the handler of `std::out_of_range` of `SetShaderConstant`. -/
  | constantNotMapped
  /-- `assert(m_currentProgram != nullptr)`, or a call through the null pointer. -/
  | noCurrentProgram
  /-- The `uint32_t` counter of `DrawOpaqueList` never reaches a size of 2^32 or more. -/
  | opaqueLoopDiverges
  deriving DecidableEq

/-- The assignment `mapItr->second.second = textureObject` on the entry that
`find(textureHandle)` returns. -/
def setTextureObject (textureHandle textureObject : Nat) :
    KeyMap (Int × Nat) → KeyMap (Int × Nat)
  | [] => []
  | (k, v) :: rest =>
    if k = textureHandle then (k, (v.1, textureObject)) :: rest
    else (k, v) :: setTextureObject textureHandle textureObject rest

/-- `GLProgram::SetTexture(textureHandle, textureObject)` (lines 351-363); the `else`
branch is empty, its assertion being commented out. -/
def GLProgram.SetTexture (p : GLProgram) (textureHandle textureObject : Nat) : GLProgram :=
  match KeyMap.find textureHandle p.m_textureBindIndicesMap with
  | some _ =>
    { p with
      m_textureBindIndicesMap :=
        setTextureObject textureHandle textureObject p.m_textureBindIndicesMap }
  | none => p

/-- `GLProgram::SetActive()` (lines 86-101): `glUseProgram`, then the bind points of the
constant buffers, for which the manager must be alive. -/
def GLProgram.SetActive (env : RenderEnv) (_p : GLProgram) : Except RenderFatal Unit :=
  if env.managerCreated then Except.ok () else Except.error RenderFatal.managerNotCreated

/-- `GLProgram::SetShaderConstant(constantHandle, value_in)` (lines 103-119): `at` on the
constant map comes first, then the manager; the value goes to the manager, whose code is
outside the sources and whose call is taken to return. -/
def GLProgram.SetShaderConstant (env : RenderEnv) (p : GLProgram) (constantHandle : Nat) :
    Except RenderFatal Unit :=
  match KeyMap.find constantHandle p.m_shaderConstantToConstantBufferBindingMap with
  | none => Except.error RenderFatal.constantNotMapped
  | some _ =>
    if env.managerCreated then Except.ok () else Except.error RenderFatal.managerNotCreated

/-- `GLProgram::CommitConstantBufferChanges()` (lines 395-409). -/
def GLProgram.CommitConstantBufferChanges (env : RenderEnv) (_p : GLProgram) :
    Except RenderFatal Unit :=
  if env.managerCreated then Except.ok () else Except.error RenderFatal.managerNotCreated

/-- `GLProgram::CommitTextureBindings()` (lines 411-421): the (location, texture) pairs
bound to the texture units 0, 1, 2, ... in the order of the map. -/
def GLProgram.CommitTextureBindings (p : GLProgram) : List (Int × Nat) :=
  p.m_textureBindIndicesMap.map Prod.snd

/-! ## GLRenderer.cpp: Render and the passes it sequences (lines 96-126, 128-140, 164-269,
564-659) -/

/-- The five programs of the renderer, named by the member that points to each. -/
inductive ProgramSlot where
  | m_passProg
  | m_diagnosticProg
  | m_directionalProg
  | m_pointProg
  | m_postProg
  deriving DecidableEq

/-- Blend factors. -/
inductive BlendFactor where
  | GL_ZERO
  | GL_ONE
  | GL_SRC_ALPHA
  | GL_ONE_MINUS_SRC_ALPHA
  deriving DecidableEq

/-- The capabilities that `Render` enables and disables. -/
inductive Capability where
  | GL_BLEND
  | GL_DEPTH_TEST
  deriving DecidableEq

/-- The part of the GL state that `Render` sets: the framebuffer bound to
`GL_FRAMEBUFFER`, blending and its two factors, the depth test, the depth mask and the
bound vertex array. -/
structure GLState where
  framebuffer : Nat
  blend : Bool
  blendSrc : BlendFactor
  blendDst : BlendFactor
  depthTest : Bool
  depthMask : Bool
  vertexArray : Nat
  deriving DecidableEq

/-- One `glDrawElements` call: the index count, the program that was current, the
texture bindings it committed, and the GL state at the call (the bound vertex array is
the one of the geometry drawn). -/
structure DrawRecord where
  num_indices : Nat
  program : ProgramSlot
  textures : List (Int × Nat)
  gl : GLState
  deriving DecidableEq

/-- The members of `GLRenderer` that `Render` only reads. -/
structure GLRenderer where
  m_FBO : List Nat
  m_displayType : Nat
  m_nearPlane : ℚ
  m_pRenderCam : Camera
  m_opaqueList : List DrawableGeometry
  m_QuadGeometry : DrawableGeometry
  m_depthTexture : Nat
  m_normalTexture : Nat
  m_positionTexture : Nat
  m_colorTexture : Nat
  m_postTexture : Nat
  m_randomNormalTexture : Nat
  m_randomScalarTexture : Nat
  deriving DecidableEq

/-- What `Render` writes: the texture tables of the five programs, `m_currentProgram`,
the GL state, and the draw calls issued so far, oldest first. -/
structure RenderState where
  m_passProg : GLProgram
  m_diagnosticProg : GLProgram
  m_directionalProg : GLProgram
  m_pointProg : GLProgram
  m_postProg : GLProgram
  m_currentProgram : Option ProgramSlot
  gl : GLState
  draws : List DrawRecord
  deriving DecidableEq

/-- The program a member points to. -/
def RenderState.program (s : RenderState) : ProgramSlot → GLProgram
  | ProgramSlot.m_passProg => s.m_passProg
  | ProgramSlot.m_diagnosticProg => s.m_diagnosticProg
  | ProgramSlot.m_directionalProg => s.m_directionalProg
  | ProgramSlot.m_pointProg => s.m_pointProg
  | ProgramSlot.m_postProg => s.m_postProg

/-- Store the new value of the program a member points to. -/
def RenderState.withProgram (s : RenderState) (slot : ProgramSlot) (p : GLProgram) :
    RenderState :=
  match slot with
  | ProgramSlot.m_passProg => { s with m_passProg := p }
  | ProgramSlot.m_diagnosticProg => { s with m_diagnosticProg := p }
  | ProgramSlot.m_directionalProg => { s with m_directionalProg := p }
  | ProgramSlot.m_pointProg => { s with m_pointProg := p }
  | ProgramSlot.m_postProg => { s with m_postProg := p }

/-- `glEnable(cap)`. -/
def glEnable (cap : Capability) (s : RenderState) : RenderState :=
  match cap with
  | Capability.GL_BLEND => { s with gl := { s.gl with blend := true } }
  | Capability.GL_DEPTH_TEST => { s with gl := { s.gl with depthTest := true } }

/-- `glDisable(cap)`. -/
def glDisable (cap : Capability) (s : RenderState) : RenderState :=
  match cap with
  | Capability.GL_BLEND => { s with gl := { s.gl with blend := false } }
  | Capability.GL_DEPTH_TEST => { s with gl := { s.gl with depthTest := false } }

/-- `glBlendFunc(sfactor, dfactor)`. -/
def glBlendFunc (sfactor dfactor : BlendFactor) (s : RenderState) : RenderState :=
  { s with gl := { s.gl with blendSrc := sfactor, blendDst := dfactor } }

/-- `glDepthMask(flag)`. -/
def glDepthMask (flag : Bool) (s : RenderState) : RenderState :=
  { s with gl := { s.gl with depthMask := flag } }

/-- `glBindFramebuffer(GL_FRAMEBUFFER, framebuffer)`. -/
def glBindFramebuffer (framebuffer : Nat) (s : RenderState) : RenderState :=
  { s with gl := { s.gl with framebuffer := framebuffer } }

/-- `glBindVertexArray(array)`. -/
def glBindVertexArray (array : Nat) (s : RenderState) : RenderState :=
  { s with gl := { s.gl with vertexArray := array } }

/-- The call `program->SetTexture(name, textureObject)` on the program of `slot`. -/
def programSetTexture (env : RenderEnv) (slot : ProgramSlot) (name : String)
    (textureObject : Nat) (s : RenderState) : RenderState :=
  s.withProgram slot ((s.program slot).SetTexture (env.HashCString name.toList) textureObject)

/-- The call `program->SetShaderConstant(name, value)` on the program of `slot`; the
value is stored by the manager and is not part of the state. -/
def programSetShaderConstant (env : RenderEnv) (slot : ProgramSlot) (name : String)
    (s : RenderState) : Except RenderFatal RenderState :=
  match (s.program slot).SetShaderConstant env (env.HashCString name.toList) with
  | Except.error f => Except.error f
  | Except.ok _ => Except.ok s

/-- The call `m_currentProgram->SetShaderConstant(name, value)`. -/
def currentSetShaderConstant (env : RenderEnv) (name : String) (s : RenderState) :
    Except RenderFatal RenderState :=
  match s.m_currentProgram with
  | none => Except.error RenderFatal.noCurrentProgram
  | some slot => programSetShaderConstant env slot name s

/-- `GLRenderer::ApplyPerFrameShaderConstants()` (lines 96-126): only calls of the
manager, which store values outside the state. -/
def ApplyPerFrameShaderConstants (s : RenderState) : RenderState := s

/-- `GLRenderer::ClearFramebuffer(clearFlags)` (lines 128-140): `glClear` changes the
content of the bound framebuffer, which is not part of the state. -/
def ClearFramebuffer (s : RenderState) : RenderState := s

/-- `GLRenderer::SetFramebufferActive(fbID)` (lines 641-645). -/
def SetFramebufferActive (renderer : GLRenderer) (fbID : Nat) (s : RenderState) :
    Except RenderFatal RenderState :=
  match renderer.m_FBO[fbID]? with
  | none => Except.error RenderFatal.framebufferOutOfRange
  | some fbo => Except.ok (glBindFramebuffer fbo s)

/-- `GLRenderer::EndActiveFramebuffer()` (lines 266-269). -/
def EndActiveFramebuffer (s : RenderState) : RenderState :=
  glBindFramebuffer 0 s

/-- `GLRenderer::SetShaderProgram(currentlyUsedProgram)` (lines 647-651). -/
def SetShaderProgram (env : RenderEnv) (currentlyUsedProgram : ProgramSlot)
    (s : RenderState) : Except RenderFatal RenderState :=
  match (s.program currentlyUsedProgram).SetActive env with
  | Except.error f => Except.error f
  | Except.ok _ => Except.ok { s with m_currentProgram := some currentlyUsedProgram }

/-- `GLRenderer::SetTexturesForFullScreenPass()` (lines 653-659). -/
def SetTexturesForFullScreenPass (env : RenderEnv) (renderer : GLRenderer) (s : RenderState) :
    Except RenderFatal RenderState :=
  match s.m_currentProgram with
  | none => Except.error RenderFatal.noCurrentProgram
  | some slot =>
    let s := programSetTexture env slot "u_Depthtex" renderer.m_depthTexture s
    let s := programSetTexture env slot "u_Normaltex" renderer.m_normalTexture s
    let s := programSetTexture env slot "u_Positiontex" renderer.m_positionTexture s
    let s := programSetTexture env slot "u_RandomNormaltex" renderer.m_randomNormalTexture s
    Except.ok (programSetTexture env slot "u_RandomScalartex" renderer.m_randomScalarTexture s)

/-- `GLRenderer::DrawGeometry(geom)` (lines 170-178): the two commits of the current
program, `glBindVertexArray` and `glDrawElements`. -/
def DrawGeometry (env : RenderEnv) (geom : DrawableGeometry) (s : RenderState) :
    Except RenderFatal RenderState :=
  match s.m_currentProgram with
  | none => Except.error RenderFatal.noCurrentProgram
  | some slot =>
    match (s.program slot).CommitConstantBufferChanges env with
    | Except.error f => Except.error f
    | Except.ok _ =>
      let s1 := glBindVertexArray geom.vertex_array s
      Except.ok
        { s1 with
          draws := s1.draws ++
            [{ num_indices := geom.num_indices
               program := slot
               textures := (s.program slot).CommitTextureBindings
               gl := s1.gl }] }

/-- `GLRenderer::RenderQuad()` (lines 636-639). -/
def RenderQuad (env : RenderEnv) (renderer : GLRenderer) (s : RenderState) :
    Except RenderFatal RenderState :=
  DrawGeometry env renderer.m_QuadGeometry s

/-- One iteration of the loop of `DrawOpaqueList` (lines 248-257): three constants and
three textures of the pass program, then the draw. -/
def drawOpaque (env : RenderEnv) (geom : DrawableGeometry) (s : RenderState) :
    Except RenderFatal RenderState := do
  let s ← programSetShaderConstant env ProgramSlot.m_passProg "um4Model" s
  let s ← programSetShaderConstant env ProgramSlot.m_passProg "um4InvTrans" s
  let s ← programSetShaderConstant env ProgramSlot.m_passProg "uf3Color" s
  let s := programSetTexture env ProgramSlot.m_passProg "t2DDiffuse" geom.diffuse_tex s
  let s := programSetTexture env ProgramSlot.m_passProg "t2DNormal" geom.normal_tex s
  let s := programSetTexture env ProgramSlot.m_passProg "t2DSpecular" geom.specular_tex s
  DrawGeometry env geom s

/-- The loop of `DrawOpaqueList` over the entries that are left. -/
def drawOpaqueLoop (env : RenderEnv) : List DrawableGeometry → RenderState →
    Except RenderFatal RenderState
  | [], s => Except.ok s
  | geom :: rest, s => do
    let s ← drawOpaque env geom s
    drawOpaqueLoop env rest s

/-- `GLRenderer::DrawOpaqueList()` (lines 241-260). The counter `i` is a `uint32_t`: when
the list has 2^32 entries or more, `i < m_opaqueList.size()` stays true and the loop does
not end. -/
def DrawOpaqueList (env : RenderEnv) (renderer : GLRenderer) (s : RenderState) :
    Except RenderFatal RenderState :=
  match SetShaderProgram env ProgramSlot.m_passProg s with
  | Except.error f => Except.error f
  | Except.ok s =>
    match drawOpaqueLoop env renderer.m_opaqueList s with
    | Except.error f => Except.error f
    | Except.ok s =>
      if renderer.m_opaqueList.length < UINT32_MOD then Except.ok (glBindVertexArray 0 s)
      else Except.error RenderFatal.opaqueLoopDiverges

/-- `GLRenderer::DrawAlphaMaskedList()` (lines 164-168). -/
def DrawAlphaMaskedList (s : RenderState) : RenderState :=
  glDepthMask true (glDepthMask false s)

/-- What one call of `drawLight` asks for, carried out on the state. -/
def runLightCommand (env : RenderEnv) (renderer : GLRenderer) :
    LightCommand → RenderState → Except RenderFatal RenderState
  | LightCommand.setLight _, s => currentSetShaderConstant env "uf4Light" s
  | LightCommand.setLightIl _, s => currentSetShaderConstant env "ufLightIl" s
  | LightCommand.renderQuad, s => RenderQuad env renderer s

/-- The calls of one `drawLight`, in order. -/
def runLightCommands (env : RenderEnv) (renderer : GLRenderer) :
    List LightCommand → RenderState → Except RenderFatal RenderState
  | [], s => Except.ok s
  | c :: rest, s => do
    let s ← runLightCommand env renderer c s
    runLightCommands env renderer rest s

/-- `GLRenderer::drawLight(pos, strength)` (lines 180-213) on the state, with the view
matrix of the render camera and the renderer's near plane. -/
def drawLightOn (env : RenderEnv) (renderer : GLRenderer) (pos : Vec3) (strength : ℚ)
    (s : RenderState) : Except RenderFatal RenderState :=
  runLightCommands env renderer
    (drawLight renderer.m_pRenderCam.m_view renderer.m_nearPlane pos strength) s

/-- `GLRenderer::DrawLightList()` (lines 215-239). -/
def DrawLightList (env : RenderEnv) (renderer : GLRenderer) (s : RenderState) :
    Except RenderFatal RenderState := do
  let s ← SetShaderProgram env ProgramSlot.m_pointProg s
  let s ← SetTexturesForFullScreenPass env renderer s
  let s := programSetTexture env ProgramSlot.m_pointProg "u_Colortex" renderer.m_colorTexture s
  let s ← programSetShaderConstant env ProgramSlot.m_pointProg "uf3LightCol" s
  let s := glDepthMask false s
  let s ← drawLightOn env renderer ⟨5.4, -0.5, 3.0⟩ 1.0 s
  let s ← drawLightOn env renderer ⟨0.2, -0.5, 3.0⟩ 1.0 s
  let s ← programSetShaderConstant env ProgramSlot.m_pointProg "uf3LightCol" s
  let s ← drawLightOn env renderer ⟨5.4, -2.5, 3.0⟩ 1.0 s
  let s ← drawLightOn env renderer ⟨0.2, -2.5, 3.0⟩ 1.0 s
  let s ← programSetShaderConstant env ProgramSlot.m_pointProg "uf3LightCol" s
  let s ← drawLightOn env renderer ⟨5.4, -4.5, 3.0⟩ 1.0 s
  let s ← drawLightOn env renderer ⟨0.2, -4.5, 3.0⟩ 1.0 s
  let s ← programSetShaderConstant env ProgramSlot.m_pointProg "uf3LightCol" s
  let s ← drawLightOn env renderer ⟨2.5, -1.2, 0.5⟩ 2.5 s
  let s ← programSetShaderConstant env ProgramSlot.m_pointProg "uf3LightCol" s
  let s ← drawLightOn env renderer ⟨2.5, -5.0, 4.2⟩ 2.5 s
  pure (glDepthMask true s)

/-- `GLRenderer::RenderDirectionalAndAmbientLighting()` (lines 594-611). -/
def RenderDirectionalAndAmbientLighting (env : RenderEnv) (renderer : GLRenderer)
    (s : RenderState) : Except RenderFatal RenderState := do
  let s ← SetShaderProgram env ProgramSlot.m_directionalProg s
  let s ← SetTexturesForFullScreenPass env renderer s
  let s :=
    programSetTexture env ProgramSlot.m_directionalProg "u_Colortex" renderer.m_colorTexture s
  let s ← programSetShaderConstant env ProgramSlot.m_directionalProg "uf4DirecLightDir" s
  let s ← programSetShaderConstant env ProgramSlot.m_directionalProg "uf3AmbientContrib" s
  let s := glDepthMask false s
  let s ← RenderQuad env renderer s
  pure (glDepthMask true s)

/-- `GLRenderer::RenderFramebuffers()` (lines 613-622). -/
def RenderFramebuffers (env : RenderEnv) (renderer : GLRenderer) (s : RenderState) :
    Except RenderFatal RenderState := do
  let s ← SetShaderProgram env ProgramSlot.m_diagnosticProg s
  let s ← SetTexturesForFullScreenPass env renderer s
  let s :=
    programSetTexture env ProgramSlot.m_diagnosticProg "u_Colortex" renderer.m_colorTexture s
  let s := glDepthMask false s
  let s ← RenderQuad env renderer s
  pure (glDepthMask true s)

/-- `GLRenderer::RenderPostProcessEffects()` (lines 624-633). -/
def RenderPostProcessEffects (env : RenderEnv) (renderer : GLRenderer) (s : RenderState) :
    Except RenderFatal RenderState := do
  let s ← SetShaderProgram env ProgramSlot.m_postProg s
  let s ← SetTexturesForFullScreenPass env renderer s
  let s := programSetTexture env ProgramSlot.m_postProg "u_Posttex" renderer.m_postTexture s
  let s := glDepthMask false s
  let s ← RenderQuad env renderer s
  pure (glDepthMask true s)

/-- The G-buffer pass of `Render` (lines 568-572). -/
def GBufferPass (env : RenderEnv) (renderer : GLRenderer) (s : RenderState) :
    Except RenderFatal RenderState := do
  let s ← SetFramebufferActive renderer env.GBUFFER_FRAMEBUFFER s
  let s := ClearFramebuffer s
  let s ← DrawOpaqueList env renderer s
  pure (DrawAlphaMaskedList s)

/-- The lighting pass of `Render` (lines 574-582). -/
def LightingPass (env : RenderEnv) (renderer : GLRenderer) (s : RenderState) :
    Except RenderFatal RenderState := do
  let s ← SetFramebufferActive renderer env.LIGHTING_FRAMEBUFFER s
  let s := ClearFramebuffer s
  let s := glEnable Capability.GL_BLEND s
  let s := glBlendFunc BlendFactor.GL_ONE BlendFactor.GL_ONE s
  let s ← DrawLightList env renderer s
  let s := glDisable Capability.GL_BLEND s
  let s ← RenderDirectionalAndAmbientLighting env renderer s
  pure (EndActiveFramebuffer s)

/-- The post-process pass of `Render` (lines 584-591). -/
def PostProcessPass (env : RenderEnv) (renderer : GLRenderer) (s : RenderState) :
    Except RenderFatal RenderState :=
  let s := ClearFramebuffer s
  let s := glDisable Capability.GL_DEPTH_TEST s
  match
    (if renderer.m_displayType ≠ env.DISPLAY_TOTAL then RenderFramebuffers env renderer s
     else RenderPostProcessEffects env renderer s) with
  | Except.error f => Except.error f
  | Except.ok s => Except.ok (glEnable Capability.GL_DEPTH_TEST s)

/-- `GLRenderer::Render()` (lines 564-592): the per-frame constants and the three passes,
in order. -/
def Render (env : RenderEnv) (renderer : GLRenderer) (s : RenderState) :
    Except RenderFatal RenderState := do
  let s := ApplyPerFrameShaderConstants s
  let s ← GBufferPass env renderer s
  let s ← LightingPass env renderer s
  PostProcessPass env renderer s

/-- What a full-screen pass does to the state: the steps shared by
`RenderFramebuffers`, `RenderPostProcessEffects` and the end of
`RenderDirectionalAndAmbientLighting`. -/
def QuadDrawn (renderer : GLRenderer) (slot : ProgramSlot) (s s1 : RenderState) : Prop :=
  ∃ textures,
    s1.m_currentProgram = some slot ∧
    s1.gl = { s.gl with depthMask := true, vertexArray := renderer.m_QuadGeometry.vertex_array } ∧
    s1.draws = s.draws ++
      [{ num_indices := renderer.m_QuadGeometry.num_indices
         program := slot
         textures := textures
         gl :=
           { s.gl with
             depthMask := false, vertexArray := renderer.m_QuadGeometry.vertex_array } }]

/-- The draw call `d` is a draw of the geometry `geom` by the program of `slot`, issued
under the GL state `gl` with the vertex array of `geom` bound. -/
def DrawOf (slot : ProgramSlot) (gl : GLState) (geom : DrawableGeometry) (d : DrawRecord) :
    Prop :=
  d.program = slot ∧ d.num_indices = geom.num_indices ∧
    d.gl = { gl with vertexArray := geom.vertex_array }

/-- Between the states `s` and `s1` the draw calls issued are draws of geometries of
`geoms` by the program of `slot` under the GL state of `s`, the program of `slot` is
current in `s1`, and the GL state of `s1` is the one of `s` up to the bound vertex
array. -/
def DrawsBy (slot : ProgramSlot) (geoms : List DrawableGeometry) (s s1 : RenderState) :
    Prop :=
  s1.m_currentProgram = some slot ∧
    (∃ va, s1.gl = { s.gl with vertexArray := va }) ∧
    ∃ ds, s1.draws = s.draws ++ ds ∧ ∀ d ∈ ds, ∃ geom ∈ geoms, DrawOf slot s.gl geom d

/-- A sample hash of a name: the polynomial of its character codes at 31, modulo 2^32. -/
def sampleHash (name : List Char) : Nat :=
  name.foldl (fun h c => (h * 31 + c.toNat) % UINT32_MOD) 0

/-- The texture table with one entry per sampler, the n-th sampler of the list at the
location n with the given texture. -/
def sampleTextureTable : List (String × Nat) → Nat → KeyMap (Int × Nat)
  | [], _ => []
  | (name, texture) :: rest, n =>
    KeyMap.assign (sampleHash name.toList) ((n : Int), texture)
      (sampleTextureTable rest (n + 1))

/-- A program that maps the constants of the given names to the constant buffer 0 and
has the given samplers with their current textures. -/
def sampleProgram (constants : List String) (samplers : List (String × Nat)) : GLProgram :=
  { m_textureBindIndicesMap := sampleTextureTable samplers 0
    m_shaderConstantToConstantBufferBindingMap :=
      constants.foldl (fun m n => KeyMap.assign (sampleHash n.toList) 0 m) []
    m_constantBufferBindIndicesMap := [(0, 1)] }

/-- Sample values of the enumerations, the sample hash, and a live manager. -/
def sampleRenderEnv : RenderEnv where
  HashCString := sampleHash
  managerCreated := true
  GBUFFER_FRAMEBUFFER := 0
  LIGHTING_FRAMEBUFFER := 1
  DISPLAY_TOTAL := 0

/-- A renderer with two framebuffers (names 5 and 6), the camera at the origin, the near
plane at 1/10, one opaque mesh, and the display mode `displayType`. With this camera
only the light at (2.5, -1.2, 0.5) of radius 2.5 passes the test of `drawLight`. -/
def sampleRenderer (displayType : Nat) : GLRenderer :=
  { m_FBO := [5, 6]
    m_displayType := displayType
    m_nearPlane := 1 / 10
    m_pRenderCam := Camera.construct ⟨0, 0, 0⟩
    m_opaqueList :=
      [{ diffuse_tex := 21, normal_tex := 22, specular_tex := 23, vertex_array := 3,
         num_indices := 36 }]
    m_QuadGeometry :=
      { diffuse_tex := 0, normal_tex := 0, specular_tex := 0, vertex_array := 2,
        num_indices := 6 }
    m_depthTexture := 11
    m_normalTexture := 12
    m_positionTexture := 13
    m_colorTexture := 14
    m_postTexture := 15
    m_randomNormalTexture := 16
    m_randomScalarTexture := 17 }

/-- The pass program of the sample, with the given textures of its two samplers. -/
def samplePassProg (diffuse normal : Nat) : GLProgram :=
  sampleProgram ["um4Model", "um4InvTrans", "uf3Color"]
    [("t2DDiffuse", diffuse), ("t2DNormal", normal)]

/-- A full-screen program of the sample, with the given constants and the given textures
of its four samplers. -/
def sampleScreenProg (constants : List String) (depth normal position color : Nat) :
    GLProgram :=
  sampleProgram constants
    [("u_Depthtex", depth), ("u_Normaltex", normal), ("u_Positiontex", position),
      ("u_Colortex", color)]

/-- The default GL state, with the depth test on. -/
def sampleGLState : GLState :=
  { framebuffer := 0, blend := false, blendSrc := BlendFactor.GL_ONE,
    blendDst := BlendFactor.GL_ZERO, depthTest := true, depthMask := true,
    vertexArray := 0 }

/-- The state before the first frame: all samplers without a texture, no current
program, the default GL state, no draw call. -/
def sampleRenderState : RenderState :=
  { m_passProg := samplePassProg 0 0
    m_diagnosticProg := sampleScreenProg [] 0 0 0 0
    m_directionalProg := sampleScreenProg ["uf4DirecLightDir", "uf3AmbientContrib"] 0 0 0 0
    m_pointProg := sampleScreenProg ["uf3LightCol", "uf4Light", "ufLightIl"] 0 0 0 0
    m_postProg := sampleProgram [] [("u_Posttex", 0)]
    m_currentProgram := none
    gl := sampleGLState
    draws := [] }

/-- The three draw calls that the G-buffer and lighting passes issue on the sample: the
opaque mesh, the one point light in view, and the directional and ambient quad. -/
def sampleEarlierDraws : List DrawRecord :=
  [{ num_indices := 36
     program := ProgramSlot.m_passProg
     textures := (samplePassProg 21 22).CommitTextureBindings
     gl := { sampleGLState with framebuffer := 5, vertexArray := 3 } },
   { num_indices := 6
     program := ProgramSlot.m_pointProg
     textures := (sampleScreenProg [] 11 12 13 14).CommitTextureBindings
     gl :=
       { sampleGLState with
         framebuffer := 6, blend := true, blendDst := BlendFactor.GL_ONE,
         depthMask := false, vertexArray := 2 } },
   { num_indices := 6
     program := ProgramSlot.m_directionalProg
     textures := (sampleScreenProg [] 11 12 13 14).CommitTextureBindings
     gl :=
       { sampleGLState with
         framebuffer := 6, blendDst := BlendFactor.GL_ONE, depthMask := false,
         vertexArray := 2 } }]

/-- The draw call of the post pass on the sample. -/
def samplePostDraw (slot : ProgramSlot) (textures : List (Int × Nat)) : DrawRecord :=
  { num_indices := 6
    program := slot
    textures := textures
    gl :=
      { sampleGLState with
        blendDst := BlendFactor.GL_ONE, depthTest := false, depthMask := false,
        vertexArray := 2 } }

/-- The state after one frame of the sample in a display mode other than
`DISPLAY_TOTAL`. -/
def sampleDiagnosticFrame : RenderState :=
  { m_passProg := samplePassProg 21 22
    m_diagnosticProg := sampleScreenProg [] 11 12 13 14
    m_directionalProg :=
      sampleScreenProg ["uf4DirecLightDir", "uf3AmbientContrib"] 11 12 13 14
    m_pointProg := sampleScreenProg ["uf3LightCol", "uf4Light", "ufLightIl"] 11 12 13 14
    m_postProg := sampleProgram [] [("u_Posttex", 0)]
    m_currentProgram := some ProgramSlot.m_diagnosticProg
    gl := { sampleGLState with blendDst := BlendFactor.GL_ONE, vertexArray := 2 }
    draws := sampleEarlierDraws ++
      [samplePostDraw ProgramSlot.m_diagnosticProg
        (sampleScreenProg [] 11 12 13 14).CommitTextureBindings] }

/-- The sample state before a frame, but with blending enabled. -/
def sampleBlendedState : RenderState :=
  { sampleRenderState with gl := { sampleGLState with blend := true } }

/-- The state after one frame of the sample in the display mode `DISPLAY_TOTAL`. -/
def sampleTotalFrame : RenderState :=
  { m_passProg := samplePassProg 21 22
    m_diagnosticProg := sampleScreenProg [] 0 0 0 0
    m_directionalProg :=
      sampleScreenProg ["uf4DirecLightDir", "uf3AmbientContrib"] 11 12 13 14
    m_pointProg := sampleScreenProg ["uf3LightCol", "uf4Light", "ufLightIl"] 11 12 13 14
    m_postProg := sampleProgram [] [("u_Posttex", 15)]
    m_currentProgram := some ProgramSlot.m_postProg
    gl := { sampleGLState with blendDst := BlendFactor.GL_ONE, vertexArray := 2 }
    draws := sampleEarlierDraws ++
      [samplePostDraw ProgramSlot.m_postProg
        (sampleProgram [] [("u_Posttex", 15)]).CommitTextureBindings] }

/-! # Theorems -/

/-! ## std140 offsets -/

theorem paddedOffset_exact (a off : Nat)
    (hfit : (if a - off % a ≠ a then off + (a - off % a) else off) < UINT32_MOD) :
    paddedOffset a off = (if a - off % a ≠ a then off + (a - off % a) else off) := by
  unfold paddedOffset
  by_cases h : a - off % a ≠ a
  · rw [if_pos h] at hfit
    simp only [if_pos h]
    exact Nat.mod_eq_of_lt hfit
  · simp only [if_neg h]

theorem exact_padded_spec (a off : Nat) (ha : 0 < a) :
    (if a - off % a ≠ a then off + (a - off % a) else off) % a = 0 ∧
      off ≤ (if a - off % a ≠ a then off + (a - off % a) else off) ∧
      (if a - off % a ≠ a then off + (a - off % a) else off) < off + a := by
  have hlt : off % a < a := Nat.mod_lt off ha
  by_cases h : a - off % a ≠ a
  · rw [if_pos h]
    refine ⟨?_, by omega, by omega⟩
    have hdm := Nat.div_add_mod off a
    have heq : off + (a - off % a) = a * (off / a + 1) := by
      rw [Nat.mul_add, Nat.mul_one]; omega
    rw [heq]; exact Nat.mul_mod_right a _
  · rw [if_neg h]
    refine ⟨?_, le_refl _, by omega⟩
    have : off % a = 0 := by omega
    exact this

theorem std140Loop_spec (tbl : TypeTable) (hwf : tbl.PositiveAlignments) :
    ∀ (members : List (SupportedTypes × String)) (stdOffset : Nat),
      std140Fits tbl members stdOffset →
      AlignedAndOrdered tbl (std140Loop tbl members stdOffset) ∧
        ∀ s ∈ (std140Loop tbl members stdOffset).head?, stdOffset ≤ s.offset := by
  intro members
  induction members with
  | nil => intro off _; simp [std140Loop, AlignedAndOrdered]
  | cons m rest ih =>
    obtain ⟨ty, nm⟩ := m
    intro off hfit
    simp only [std140Fits] at hfit
    obtain ⟨hlt, hrest⟩ := hfit
    have ha := hwf ty
    have hsp := exact_padded_spec (tbl.GetAlignmentForType ty) off ha
    have hpo := paddedOffset_exact (tbl.GetAlignmentForType ty) off (by omega)
    have hadv : advanceOffset (paddedOffset (tbl.GetAlignmentForType ty) off)
        (tbl.GetSizeForType ty) =
        (if tbl.GetAlignmentForType ty - off % tbl.GetAlignmentForType ty ≠
            tbl.GetAlignmentForType ty
          then off + (tbl.GetAlignmentForType ty - off % tbl.GetAlignmentForType ty)
          else off) + tbl.GetSizeForType ty := by
      rw [hpo]; exact Nat.mod_eq_of_lt hlt
    obtain ⟨⟨hal, hch⟩, hhd⟩ := ih _ hrest
    simp only [std140Loop]
    rw [hadv]
    refine ⟨⟨?_, ?_⟩, ?_⟩
    · intro s hs
      rcases List.mem_cons.1 hs with h | h
      · subst h; simp only; rw [hpo]; exact hsp.1
      · exact hal s h
    · rw [List.chain'_cons']
      refine ⟨?_, hch⟩
      intro s hs
      have := hhd s hs
      simp only
      rw [hpo]; exact this
    · intro s hs
      simp only [List.head?_cons, Option.mem_def, Option.some.injEq] at hs
      subst hs
      simp only
      rw [hpo]; exact hsp.2.1

/-- C1 (as amended). In the std140 branch, for every sequence of block members and every
type table with positive alignments, provided no `uint32_t` addition of the loop wraps
around, every member's offset is a multiple of the alignment of its type and every
member after the first starts at or after the previous member's offset plus the size of
the previous member's type. -/
theorem std140_offsets_aligned_and_ordered (tbl : TypeTable) (hwf : tbl.PositiveAlignments)
    (members : List (SupportedTypes × String)) (hfit : std140Fits tbl members 0) :
    AlignedAndOrdered tbl (std140Signature tbl members) :=
  (std140Loop_spec tbl hwf members 0 hfit).1

/-- C1 (witness). The amended statement at the block `float ufA; vec3 uf3B; mat4 um4C;`
with the sample table. -/
theorem std140_witness :
    std140Table.PositiveAlignments ∧
      std140Fits std140Table
        [(SupportedTypes.FLOAT, "ufA"), (SupportedTypes.VEC3, "uf3B"),
          (SupportedTypes.MAT4, "um4C")] 0 ∧
      AlignedAndOrdered std140Table
        (std140Signature std140Table
          [(SupportedTypes.FLOAT, "ufA"), (SupportedTypes.VEC3, "uf3B"),
            (SupportedTypes.MAT4, "um4C")]) :=
  ⟨by intro t; cases t <;> decide, by decide,
    std140_offsets_aligned_and_ordered std140Table (by intro t; cases t <;> decide) _
      (by decide)⟩

theorem std140Loop_length (tbl : TypeTable) :
    ∀ (members : List (SupportedTypes × String)) (off : Nat),
      (std140Loop tbl members off).length = members.length := by
  intro members
  induction members with
  | nil => intro off; rfl
  | cons m rest ih =>
    obtain ⟨ty, nm⟩ := m
    intro off
    simp [std140Loop, ih]

theorem std140Loop_replicate_mat4 (nm : String) (rest : List (SupportedTypes × String)) :
    ∀ (n off : Nat), off % 16 = 0 → off < UINT32_MOD →
      std140Loop std140Table (List.replicate n (SupportedTypes.MAT4, nm) ++ rest) off =
        std140Loop std140Table (List.replicate n (SupportedTypes.MAT4, nm)) off ++
          std140Loop std140Table rest ((off + 64 * n) % UINT32_MOD) := by
  intro n
  induction n with
  | zero =>
    intro off _ hlt
    simp [std140Loop, Nat.mod_eq_of_lt hlt]
  | succ k ih =>
    intro off h16 hlt
    have hp : paddedOffset 16 off = off := by
      unfold paddedOffset
      simp [h16]
    have hnext : advanceOffset off 64 = (off + 64) % UINT32_MOD := rfl
    have h1 : ((off + 64) % UINT32_MOD) % 16 = 0 := by
      unfold UINT32_MOD; omega
    have h2 : (off + 64) % UINT32_MOD < UINT32_MOD := Nat.mod_lt _ (by decide)
    have h3 : ((off + 64) % UINT32_MOD + 64 * k) % UINT32_MOD =
        (off + 64 * (k + 1)) % UINT32_MOD := by
      unfold UINT32_MOD; omega
    simp only [List.replicate_succ, List.cons_append, std140Loop, std140Table, hp, hnext]
    rw [← h3]
    exact congrArg _ (ih _ h1 h2)

/-- C1 (counterexample). With the std140 table and a block of 67108865 `mat4` members
the running `uint32_t` offset wraps around: the last two members get the offsets
4294967232 and 0, so the last member does not start after the end of the one before it. -/
theorem std140_offsets_wrap_counterexample :
    std140Table.PositiveAlignments ∧
      (std140Signature std140Table
          (List.replicate 67108865 (SupportedTypes.MAT4, "m"))).drop 67108863 =
        [{ name := "m", type := SupportedTypes.MAT4, offset := 4294967232, size := 1 },
          { name := "m", type := SupportedTypes.MAT4, offset := 0, size := 1 }] ∧
      ¬ AlignedAndOrdered std140Table
        (std140Signature std140Table
          (List.replicate 67108865 (SupportedTypes.MAT4, "m"))) := by
  have hsplit : List.replicate 67108865 (SupportedTypes.MAT4, "m") =
      List.replicate 67108863 (SupportedTypes.MAT4, "m") ++
        [(SupportedTypes.MAT4, "m"), (SupportedTypes.MAT4, "m")] := by
    rw [show (67108865 : Nat) = 67108863 + 2 from rfl, List.replicate_add]
    rfl
  have htail : std140Loop std140Table
      [(SupportedTypes.MAT4, "m"), (SupportedTypes.MAT4, "m")]
      ((0 + 64 * 67108863) % UINT32_MOD) =
      [{ name := "m", type := SupportedTypes.MAT4, offset := 4294967232, size := 1 },
        { name := "m", type := SupportedTypes.MAT4, offset := 0, size := 1 }] := by
    decide
  have hloop := std140Loop_replicate_mat4 "m"
    [(SupportedTypes.MAT4, "m"), (SupportedTypes.MAT4, "m")] 67108863 0 (by decide)
    (by decide)
  rw [htail] at hloop
  refine ⟨by intro t; cases t <;> decide, ?_, ?_⟩
  · unfold std140Signature
    rw [hsplit, hloop]
    rw [List.drop_append_of_le_length (by rw [std140Loop_length, List.length_replicate])]
    rw [List.drop_of_length_le (by rw [std140Loop_length, List.length_replicate])]
    rfl
  · unfold std140Signature AlignedAndOrdered
    rw [hsplit, hloop]
    rintro ⟨_, hch⟩
    have h2 := List.Chain'.right_of_append hch
    rw [List.chain'_pair] at h2
    exact absurd h2 (by decide)

/-! ## Texture cache -/

theorem releaseLoop_none (h : Nat) :
    ∀ (rest pre : TextureMap), (∀ e ∈ rest, e.object ≠ h) →
      releaseLoop h pre rest = Outcome.aborted Fatal.releaseNotAcquired (pre ++ rest) := by
  intro rest
  induction rest with
  | nil => intro pre _; simp [releaseLoop]
  | cons x xs ih =>
    intro pre hall
    have hx : x.object ≠ h := hall x (List.mem_cons_self _ _)
    rw [releaseLoop, if_neg hx, ih (pre ++ [x]) (fun e he => hall e (List.mem_cons_of_mem _ he))]
    simp

theorem releaseLoop_first (h : Nat) (it : TextureEntry) (post : TextureMap)
    (hit : it.object = h) :
    ∀ (r1 pre : TextureMap), (∀ e ∈ r1, e.object ≠ h) →
      releaseLoop h pre (r1 ++ it :: post) =
        Outcome.returned () (releaseAt (pre ++ r1) it post) := by
  intro r1
  induction r1 with
  | nil => intro pre _; simp [releaseLoop, hit]
  | cons x xs ih =>
    intro pre hall
    have hx : x.object ≠ h := hall x (List.mem_cons_self _ _)
    rw [List.cons_append, releaseLoop, if_neg hx,
      ih (pre ++ [x]) (fun e he => hall e (List.mem_cons_of_mem _ he))]
    simp

theorem exists_first_with_object (h : Nat) :
    ∀ (m : TextureMap), (∃ e ∈ m, e.object = h) →
      ∃ pre it post, m = pre ++ it :: post ∧ it.object = h ∧ ∀ e ∈ pre, e.object ≠ h := by
  intro m
  induction m with
  | nil => rintro ⟨e, he, _⟩; cases he
  | cons x xs ih =>
    rintro ⟨e, he, heq⟩
    by_cases hx : x.object = h
    · exact ⟨[], x, xs, rfl, hx, by simp⟩
    · rcases List.mem_cons.1 he with rfl | hmem
      · exact absurd heq hx
      · obtain ⟨pre, it, post, hm, hit, hpre⟩ := ih ⟨e, hmem, heq⟩
        refine ⟨x :: pre, it, post, by rw [hm]; rfl, hit, ?_⟩
        intro e2 he2
        rcases List.mem_cons.1 he2 with rfl | h2
        · exact hx
        · exact hpre e2 h2

theorem eraseKey_sorted (pre post : TextureMap) (it it2 : TextureEntry)
    (hk : it2.key = it.key) (hs : TextureMap.Sorted (pre ++ it :: post)) :
    TextureMap.eraseKey it.key (pre ++ it2 :: post) = pre ++ post := by
  unfold TextureMap.Sorted at hs
  rw [List.pairwise_append] at hs
  obtain ⟨_, hpost, hcross⟩ := hs
  rw [List.pairwise_cons] at hpost
  have h1 : ∀ e ∈ pre, (e.key != it.key) = true := by
    intro e he
    have := hcross e he it (List.mem_cons_self _ _)
    simp only [bne_iff_ne, ne_eq]; omega
  have h2 : ∀ e ∈ post, (e.key != it.key) = true := by
    intro e he
    have := hpost.1 e he
    simp only [bne_iff_ne, ne_eq]; omega
  unfold TextureMap.eraseKey
  rw [List.filter_append, List.filter_cons]
  simp only [hk, bne_self_eq_false, Bool.false_eq_true, if_false]
  rw [List.filter_eq_self.2 h1, List.filter_eq_self.2 h2]

/-- C9. For every map (keys strictly increasing) and handle h, `Release(h)` stops at the
assertion exactly when no entry has GL object h, and then the map is unchanged;
otherwise the first entry with object h has its count decremented, is removed when the
count becomes zero, and every other entry is unchanged. -/
theorem release_spec (m : TextureMap) (h : Nat) (hs : TextureMap.Sorted m) :
    ((∃ f m1, Release h m = Outcome.aborted f m1) ↔ ∀ e ∈ m, e.object ≠ h) ∧
    ((∀ e ∈ m, e.object ≠ h) →
      Release h m = Outcome.aborted Fatal.releaseNotAcquired m) ∧
    ((∃ e ∈ m, e.object = h) →
      ∃ pre it post, m = pre ++ it :: post ∧ it.object = h ∧
        (∀ e ∈ pre, e.object ≠ h) ∧
        Release h m = Outcome.returned ()
          (if uint32Dec it.refs = 0 then pre ++ post
            else pre ++ { it with refs := uint32Dec it.refs } :: post)) := by
  have hnone : (∀ e ∈ m, e.object ≠ h) →
      Release h m = Outcome.aborted Fatal.releaseNotAcquired m := by
    intro hall
    have := releaseLoop_none h m [] hall
    simpa [Release] using this
  have hsome : (∃ e ∈ m, e.object = h) →
      ∃ pre it post, m = pre ++ it :: post ∧ it.object = h ∧
        (∀ e ∈ pre, e.object ≠ h) ∧
        Release h m = Outcome.returned ()
          (if uint32Dec it.refs = 0 then pre ++ post
            else pre ++ { it with refs := uint32Dec it.refs } :: post) := by
    intro hex
    obtain ⟨pre, it, post, hm, hit, hpre⟩ := exists_first_with_object h m hex
    refine ⟨pre, it, post, hm, hit, hpre, ?_⟩
    have hl := releaseLoop_first h it post hit pre [] hpre
    rw [List.nil_append] at hl
    unfold Release
    rw [hm, hl]
    unfold releaseAt
    by_cases hz : uint32Dec it.refs = 0
    · simp only [hz, if_true]
      exact congrArg _ (eraseKey_sorted pre post it _ rfl (hm ▸ hs))
    · simp only [hz, if_false]
  refine ⟨⟨?_, fun hall => ⟨_, _, hnone hall⟩⟩, hnone, hsome⟩
  rintro ⟨f, m1, hab⟩ e he heq
  obtain ⟨pre, it, post, _, _, _, hret⟩ := hsome ⟨e, he, heq⟩
  rw [hret] at hab
  cases hab

/-- C9 (witness). The statement at a map of two entries, which has strictly increasing
keys, and the handle 4. -/
theorem release_spec_witness :
    TextureMap.Sorted [{ key := 3, object := 7, refs := 2 }, { key := 9, object := 4, refs := 1 }] ∧
    (((∃ f m1, Release 4 [{ key := 3, object := 7, refs := 2 }, { key := 9, object := 4, refs := 1 }]
          = Outcome.aborted f m1) ↔
        ∀ e ∈ [({ key := 3, object := 7, refs := 2 } : TextureEntry),
          { key := 9, object := 4, refs := 1 }], e.object ≠ 4) ∧
    ((∀ e ∈ [({ key := 3, object := 7, refs := 2 } : TextureEntry),
          { key := 9, object := 4, refs := 1 }], e.object ≠ 4) →
      Release 4 [{ key := 3, object := 7, refs := 2 }, { key := 9, object := 4, refs := 1 }] =
        Outcome.aborted Fatal.releaseNotAcquired
          [{ key := 3, object := 7, refs := 2 }, { key := 9, object := 4, refs := 1 }]) ∧
    ((∃ e ∈ [({ key := 3, object := 7, refs := 2 } : TextureEntry),
          { key := 9, object := 4, refs := 1 }], e.object = 4) →
      ∃ pre it post,
        [({ key := 3, object := 7, refs := 2 } : TextureEntry),
          { key := 9, object := 4, refs := 1 }] = pre ++ it :: post ∧ it.object = 4 ∧
        (∀ e ∈ pre, e.object ≠ 4) ∧
        Release 4 [{ key := 3, object := 7, refs := 2 }, { key := 9, object := 4, refs := 1 }] =
          Outcome.returned ()
            (if uint32Dec it.refs = 0 then pre ++ post
              else pre ++ { it with refs := uint32Dec it.refs } :: post))) :=
  ⟨by unfold TextureMap.Sorted; decide,
    release_spec [{ key := 3, object := 7, refs := 2 }, { key := 9, object := 4, refs := 1 }] 4
      (by unfold TextureMap.Sorted; decide)⟩

/-- C10. For every path that is not in the map and whose image decode fails, `Acquire`
does not stop at an assertion and returns the handle 0; the map is left as it is for the
empty path and otherwise gets the entry (0, count 1) under the hash of the path. -/
theorem acquire_decode_failure (env : TextureEnv) (texId : Nat) (path : String)
    (m : TextureMap) (hnew : TextureMap.lookup (env.HashCString path) m = none)
    (hdecode : env.SOIL_load_image path = none) :
    Acquire env texId path m =
      Outcome.returned 0
        (if path.length ≠ 0
          then TextureMap.assign { key := env.HashCString path, object := 0, refs := 1 } m
          else m) := by
  by_cases hp : path.length ≠ 0
  · simp only [Acquire, hp, if_true, hnew, LoadImageAndCreateTexture, hdecode, ne_eq,
      not_false_eq_true]
  · simp only [Acquire, hp, if_false]

/-- C10 (witness). The statement for a path that is not in the map, under a decoder that
decodes nothing. -/
theorem acquire_decode_failure_witness :
    TextureMap.lookup (failingEnv.HashCString "missing.png")
        [{ key := 3, object := 7, refs := 2 }] = none ∧
      failingEnv.SOIL_load_image "missing.png" = none ∧
      Acquire failingEnv 5 "missing.png" [{ key := 3, object := 7, refs := 2 }] =
        Outcome.returned 0
          (if "missing.png".length ≠ 0
            then TextureMap.assign
              { key := failingEnv.HashCString "missing.png", object := 0, refs := 1 }
              [{ key := 3, object := 7, refs := 2 }]
            else [{ key := 3, object := 7, refs := 2 }]) :=
  ⟨by decide, rfl, acquire_decode_failure failingEnv 5 "missing.png" _ (by decide) rfl⟩

/-! ## Light culling -/

theorem adjustAll_cons (cam : Camera) (a : AdjustArgs) (rest : List AdjustArgs) :
    cam.adjustAll (a :: rest) = (cam.adjust a.dx a.dy a.dz a.tx a.ty a.tz).adjustAll rest :=
  rfl

theorem adjust_ry_down (cam : Camera) (dz tx ty tz : ℚ) (h : cam.ry ≤ 930) :
    (cam.adjust 0 1000 dz tx ty tz).ry = -70 := by
  have he : |(1000 : ℚ)| > FLT_EPSILON := by
    unfold FLT_EPSILON; norm_num
  simp only [Camera.adjust, he, if_true, clamp]
  have h1 : max (cam.ry - 1000) (-70) = -70 := max_eq_right (by linarith)
  rw [h1]
  exact min_eq_left (by norm_num)

theorem adjust_ry_up (cam : Camera) (dz tx ty tz : ℚ) (h : -930 ≤ cam.ry) :
    (cam.adjust 0 (-1000) dz tx ty tz).ry = 70 := by
  have he : |(-1000 : ℚ)| > FLT_EPSILON := by
    unfold FLT_EPSILON; norm_num
  simp only [Camera.adjust, he, if_true, clamp]
  have h1 : max (cam.ry - -1000) (-70) = cam.ry - -1000 := max_eq_left (by linarith)
  rw [h1]
  exact min_eq_right (by linarith)

theorem adjustAll_ry_down :
    ∀ (moves : List AdjustArgs) (cam : Camera), moves ≠ [] → cam.ry ≤ 930 →
      (cam.adjustAll (lookCalls 0 1000 moves)).ry = -70 := by
  intro moves
  induction moves with
  | nil => intro cam h; exact absurd rfl h
  | cons a rest ih =>
    intro cam _ hry
    have h1 := adjust_ry_down cam a.dz a.tx a.ty a.tz hry
    simp only [lookCalls, List.map_cons, adjustAll_cons]
    by_cases hr : rest = []
    · subst hr; simpa [Camera.adjustAll] using h1
    · exact ih _ hr (by rw [h1]; norm_num)

theorem adjustAll_ry_up :
    ∀ (moves : List AdjustArgs) (cam : Camera), moves ≠ [] → -930 ≤ cam.ry →
      (cam.adjustAll (lookCalls 0 (-1000) moves)).ry = 70 := by
  intro moves
  induction moves with
  | nil => intro cam h; exact absurd rfl h
  | cons a rest ih =>
    intro cam _ hry
    have h1 := adjust_ry_up cam a.dz a.tx a.ty a.tz hry
    simp only [lookCalls, List.map_cons, adjustAll_cons]
    by_cases hr : rest = []
    · subst hr; simpa [Camera.adjustAll] using h1
    · exact ih _ hr (by rw [h1]; norm_num)

/-- C4 (as amended). `adjust` subtracts the pitch delta: for every camera state whose
pitch lies between -930 and 930 (every state reachable from construction has its pitch in
[-70, 70]), after one or more calls with yaw delta 0 and pitch delta 1000 the pitch is
exactly -70, and after one or more calls with yaw delta 0 and pitch delta -1000 the
pitch is exactly +70. -/
theorem adjust_pitch_clamps (cam : Camera) (moves : List AdjustArgs) (hne : moves ≠ [])
    (hlo : -930 ≤ cam.ry) (hhi : cam.ry ≤ 930) :
    (cam.adjustAll (lookCalls 0 1000 moves)).ry = -70 ∧
      (cam.adjustAll (lookCalls 0 (-1000) moves)).ry = 70 :=
  ⟨adjustAll_ry_down moves cam hne hhi, adjustAll_ry_up moves cam hne hlo⟩

/-- C4 (witness). The amended statement for two calls on a freshly constructed camera. -/
theorem adjust_pitch_clamps_witness :
    ([⟨0, 0, 0, 1, 0, 0⟩, ⟨0, 0, 0, 0, 0, 1⟩] : List AdjustArgs) ≠ [] ∧
    -930 ≤ (Camera.construct ⟨1, 2, 3⟩).ry ∧ (Camera.construct ⟨1, 2, 3⟩).ry ≤ 930 ∧
    ((Camera.construct ⟨1, 2, 3⟩).adjustAll
        (lookCalls 0 1000 [⟨0, 0, 0, 1, 0, 0⟩, ⟨0, 0, 0, 0, 0, 1⟩])).ry = -70 ∧
    ((Camera.construct ⟨1, 2, 3⟩).adjustAll
        (lookCalls 0 (-1000) [⟨0, 0, 0, 1, 0, 0⟩, ⟨0, 0, 0, 0, 0, 1⟩])).ry = 70 :=
  ⟨by simp, by simp [Camera.construct], by simp [Camera.construct],
    adjust_pitch_clamps (Camera.construct ⟨1, 2, 3⟩)
      [⟨0, 0, 0, 1, 0, 0⟩, ⟨0, 0, 0, 0, 0, 1⟩] (by simp) (by simp [Camera.construct])
      (by simp [Camera.construct])⟩

/-- C4 (counterexample). From the freshly constructed camera (pitch 0) one call
`adjust(0, 1000, 0, 0, 0, 0)` leaves the pitch at -70, not +70, and one call
`adjust(0, -1000, 0, 0, 0, 0)` leaves it at +70, not -70. From a state with pitch 5000,
which no sequence of calls reaches, the first call `adjust(0, 1000, 0, 0, 0, 0)` clamps
at +70 and only the second one arrives at -70. -/
theorem adjust_pitch_counterexample :
    ((Camera.construct ⟨0, 0, 0⟩).adjust 0 1000 0 0 0 0).ry = -70 ∧
    ((Camera.construct ⟨0, 0, 0⟩).adjust 0 1000 0 0 0 0).ry ≠ 70 ∧
    ((Camera.construct ⟨0, 0, 0⟩).adjust 0 (-1000) 0 0 0 0).ry = 70 ∧
    ((Camera.construct ⟨0, 0, 0⟩).adjust 0 (-1000) 0 0 0 0).ry ≠ -70 ∧
    (({ Camera.construct ⟨0, 0, 0⟩ with ry := 5000 } : Camera).adjust 0 1000 0 0 0 0).ry = 70 ∧
    ((({ Camera.construct ⟨0, 0, 0⟩ with ry := 5000 } : Camera).adjust 0 1000 0 0 0 0).adjust
      0 1000 0 0 0 0).ry = -70 := by
  have h1 := adjust_ry_down (Camera.construct ⟨0, 0, 0⟩) 0 0 0 0
    (by simp [Camera.construct])
  have h2 := adjust_ry_up (Camera.construct ⟨0, 0, 0⟩) 0 0 0 0
    (by simp [Camera.construct])
  have he : |(1000 : ℚ)| > FLT_EPSILON := by
    unfold FLT_EPSILON; norm_num
  have h3 : (({ Camera.construct ⟨0, 0, 0⟩ with ry := 5000 } : Camera).adjust
      0 1000 0 0 0 0).ry = 70 := by
    simp only [Camera.adjust, he, if_true, clamp]
    norm_num
  refine ⟨h1, ?_, h2, ?_, h3, ?_⟩
  · rw [h1]; norm_num
  · rw [h2]; norm_num
  · exact adjust_ry_down _ 0 0 0 0 (by rw [h3]; norm_num)

theorem fmod_congr (x : ℚ) : ∃ k : ℤ, fmod x 360 = x + 360 * (k : ℚ) :=
  ⟨-truncToZero (x / 360), by unfold fmod; push_cast; ring⟩

theorem fmod_bounds (x : ℚ) : -360 < fmod x 360 ∧ fmod x 360 < 360 := by
  have hx : x = x / 360 * 360 := by ring
  unfold fmod truncToZero
  by_cases h : 0 ≤ x / 360
  · simp only [h, if_true]
    have h1 := Int.floor_le (x / 360)
    have h2 := Int.lt_floor_add_one (x / 360)
    constructor <;> nlinarith
  · simp only [h, if_false]
    have h1 := Int.le_ceil (x / 360)
    have h2 := Int.ceil_lt_add_one (x / 360)
    constructor <;> nlinarith

theorem adjust_rx_congr (cam : Camera) (dz tx ty tz : ℚ) :
    ∃ k : ℤ, (cam.adjust 360 0 dz tx ty tz).rx = cam.rx + 360 * (k : ℚ) := by
  have he : |(360 : ℚ)| > FLT_EPSILON := by
    unfold FLT_EPSILON; norm_num
  obtain ⟨k, hk⟩ := fmod_congr (cam.rx - 360)
  refine ⟨k - 1, ?_⟩
  simp only [Camera.adjust, he, if_true]
  rw [hk]; push_cast; ring

/-- C5. For every camera state, after any number of calls `adjust(360, 0, ...)` the yaw
differs from the yaw before the calls by an integer multiple of 360 (exact rationals,
`fmod` the truncated remainder). -/
theorem adjust_yaw_wraps (cam : Camera) (moves : List AdjustArgs) :
    ∃ k : ℤ, (cam.adjustAll (lookCalls 360 0 moves)).rx = cam.rx + 360 * (k : ℚ) := by
  induction moves generalizing cam with
  | nil => exact ⟨0, by simp [lookCalls, Camera.adjustAll]⟩
  | cons a rest ih =>
    obtain ⟨k1, h1⟩ := adjust_rx_congr cam a.dz a.tx a.ty a.tz
    obtain ⟨k2, h2⟩ := ih (cam.adjust 360 0 a.dz a.tx a.ty a.tz)
    refine ⟨k1 + k2, ?_⟩
    simp only [lookCalls, List.map_cons, adjustAll_cons]
    simp only [lookCalls] at h2
    rw [h2, h1]; push_cast; ring

theorem adjust_keeps_bounds (cam : Camera) (a : AdjustArgs)
    (h : (-70 ≤ cam.ry ∧ cam.ry ≤ 70) ∧ -360 < cam.rx ∧ cam.rx < 360) :
    (-70 ≤ (cam.adjust a.dx a.dy a.dz a.tx a.ty a.tz).ry ∧
      (cam.adjust a.dx a.dy a.dz a.tx a.ty a.tz).ry ≤ 70) ∧
    -360 < (cam.adjust a.dx a.dy a.dz a.tx a.ty a.tz).rx ∧
      (cam.adjust a.dx a.dy a.dz a.tx a.ty a.tz).rx < 360 := by
  obtain ⟨⟨h1, h2⟩, h3, h4⟩ := h
  refine ⟨⟨?_, ?_⟩, ?_⟩
  · simp only [Camera.adjust]
    split_ifs
    · unfold clamp; exact le_min (le_max_right _ _) (by norm_num)
    · exact h1
  · simp only [Camera.adjust]
    split_ifs
    · unfold clamp; exact min_le_right _ _
    · exact h2
  · simp only [Camera.adjust]
    split_ifs
    · exact fmod_bounds _
    · exact ⟨h3, h4⟩

/-- C6. In every state reached from `Camera` construction by a sequence of `adjust`
calls the pitch lies in [-70, 70] and the yaw lies strictly between -360 and 360 (exact
rationals, `fmod` the truncated remainder). -/
theorem camera_pitch_yaw_bounds (start_pos : Vec3) (calls : List AdjustArgs) :
    (-70 ≤ ((Camera.construct start_pos).adjustAll calls).ry ∧
      ((Camera.construct start_pos).adjustAll calls).ry ≤ 70) ∧
    -360 < ((Camera.construct start_pos).adjustAll calls).rx ∧
      ((Camera.construct start_pos).adjustAll calls).rx < 360 := by
  have hinit : (-70 ≤ (Camera.construct start_pos).ry ∧ (Camera.construct start_pos).ry ≤ 70) ∧
      -360 < (Camera.construct start_pos).rx ∧ (Camera.construct start_pos).rx < 360 := by
    simp [Camera.construct]
  generalize Camera.construct start_pos = cam at hinit
  induction calls generalizing cam with
  | nil => exact hinit
  | cons a rest ih =>
    rw [adjustAll_cons]
    exact ih _ (adjust_keeps_bounds cam a hinit)

/-! ## Include resolution -/

theorem include_chars :
    "#include".toList = ['#', 'i', 'n', 'c', 'l', 'u', 'd', 'e'] := by decide

theorem startsWith_self_append : ∀ (pat t : List Char), startsWith pat (pat ++ t) = true := by
  intro pat
  induction pat with
  | nil => intro t; rfl
  | cons p ps ih => intro t; simp [startsWith, ih]

theorem startsWith_append_right : ∀ (pat s v : List Char),
    startsWith pat s = true → startsWith pat (s ++ v) = true := by
  intro pat
  induction pat with
  | nil => intro s v _; rfl
  | cons p ps ih =>
    intro s v h
    cases s with
    | nil => simp [startsWith] at h
    | cons c cs =>
      simp only [startsWith, Bool.and_eq_true, List.cons_append] at h ⊢
      exact ⟨h.1, ih cs v h.2⟩

theorem startsWith_tail_false (ch : Char) : ∀ (rest a u : List Char), ch ∉ rest →
    startsWith rest a = false → startsWith rest (a ++ ch :: u) = false := by
  intro rest
  induction rest with
  | nil => intro a u _ h; simp [startsWith] at h
  | cons r rs ih =>
    intro a u hmem h
    have hr : r ≠ ch := fun e => hmem (e ▸ List.mem_cons_self _ _)
    have hrs : ch ∉ rs := fun e => hmem (List.mem_cons_of_mem _ e)
    cases a with
    | nil => simp [startsWith, hr]
    | cons x xs =>
      simp only [startsWith, List.cons_append, Bool.and_eq_false_iff] at h ⊢
      rcases h with h | h
      · exact Or.inl h
      · exact Or.inr (ih xs u hrs h)

theorem startsWith_straddle_false (ch : Char) (rest : List Char) (hmem : ch ∉ rest)
    (c : Char) (a u : List Char) (h : startsWith (ch :: rest) (c :: a) = false) :
    startsWith (ch :: rest) (c :: a ++ ch :: u) = false := by
  simp only [startsWith, List.cons_append, Bool.and_eq_false_iff] at h ⊢
  rcases h with h | h
  · exact Or.inl h
  · exact Or.inr (startsWith_tail_false ch rest a u hmem h)

theorem findStr_cons_none (pat : List Char) (c : Char) (cs : List Char)
    (h : findStr pat (c :: cs) = none) :
    startsWith pat (c :: cs) = false ∧ findStr pat cs = none := by
  unfold findStr at h
  by_cases hs : startsWith pat (c :: cs) = true
  · simp [hs] at h
  · simp only [hs, if_false, Option.map_eq_none', Bool.false_eq_true] at h
    exact ⟨by simpa using hs, h⟩

theorem findStr_at_append (ch : Char) (rest : List Char) (hmem : ch ∉ rest) (t : List Char) :
    ∀ (a : List Char), findStr (ch :: rest) a = none →
      findStr (ch :: rest) (a ++ (ch :: rest) ++ t) = some a.length := by
  intro a
  induction a with
  | nil =>
    intro _
    have := startsWith_self_append (ch :: rest) t
    simp only [List.nil_append, List.cons_append] at this ⊢
    unfold findStr
    simp [this]
  | cons c cs ih =>
    intro h
    obtain ⟨h1, h2⟩ := findStr_cons_none _ c cs h
    have h3 := startsWith_straddle_false ch rest hmem c cs (rest ++ t) h1
    have h4 : c :: cs ++ (ch :: rest) ++ t = c :: (cs ++ (ch :: rest) ++ t) := by simp
    have h5 : c :: cs ++ ch :: (rest ++ t) = c :: (cs ++ (ch :: rest) ++ t) := by simp
    rw [h4]
    rw [h5] at h3
    unfold findStr
    simp only [h3, if_false, Bool.false_eq_true]
    rw [ih h2]
    rfl

theorem findStr_none_left (pat : List Char) (hp : pat ≠ []) : ∀ (u v : List Char),
    findStr pat (u ++ v) = none → findStr pat u = none := by
  intro u
  induction u with
  | nil =>
    intro v _
    cases pat with
    | nil => exact absurd rfl hp
    | cons p ps => simp [findStr, startsWith]
  | cons c cs ih =>
    intro v h
    obtain ⟨h1, h2⟩ := findStr_cons_none _ c (cs ++ v) h
    have h3 : startsWith pat (c :: cs) = false := by
      by_contra hne
      have := startsWith_append_right pat (c :: cs) v (by simpa using hne)
      rw [List.cons_append, h1] at this
      cases this
    unfold findStr
    simp only [h3, if_false, Bool.false_eq_true]
    rw [ih v h2]
    rfl

theorem findChar_at_append (ch : Char) (v : List Char) : ∀ (u : List Char), ch ∉ u →
    findChar ch (u ++ ch :: v) = some u.length := by
  intro u
  induction u with
  | nil => intro _; simp [findChar]
  | cons x xs ih =>
    intro h
    have hx : x ≠ ch := fun e => h (e ▸ List.mem_cons_self _ _)
    have hxs : ch ∉ xs := fun e => h (List.mem_cons_of_mem _ e)
    simp [findChar, hx, ih hxs]

theorem findLastChar_snoc (ch : Char) : ∀ (u : List Char),
    findLastChar ch (u ++ [ch]) = some u.length := by
  intro u
  induction u with
  | nil => simp [findLastChar]
  | cons x xs ih => simp [findLastChar, ih]

theorem getD_at_length (u v : List Char) (c d : Char) (k : Nat) (hk : k = u.length) :
    (u ++ c :: v).getD k d = c := by
  subst hk
  induction u with
  | nil => rfl
  | cons x xs ih => simpa using ih

theorem scanBack_crlf (u v : List Char) (c0 : Char) (h0 : isBlank c0 = false) (k : Nat)
    (hk : k = u.length) :
    scanBack (u ++ c0 :: '\r' :: '\n' :: v) (k + 2) = some k := by
  have e2 : (u ++ c0 :: '\r' :: '\n' :: v).getD (k + 1 + 1) (Char.ofNat 0) = '\n' := by
    have := getD_at_length (u ++ [c0, '\r']) v '\n' (Char.ofNat 0) (k + 1 + 1) (by simp [hk])
    simpa using this
  have e1 : (u ++ c0 :: '\r' :: '\n' :: v).getD (k + 1) (Char.ofNat 0) = '\r' := by
    have := getD_at_length (u ++ [c0]) ('\n' :: v) '\r' (Char.ofNat 0) (k + 1) (by simp [hk])
    simpa using this
  have e0 : (u ++ c0 :: '\r' :: '\n' :: v).getD k (Char.ofNat 0) = c0 :=
    getD_at_length u _ c0 _ k hk
  have b2 : isBlank '\n' = true := by decide
  have b1 : isBlank '\r' = true := by decide
  show scanBack _ (k + 1 + 1) = some k
  rw [scanBack, e2, b2, if_pos rfl, scanBack, e1, b1, if_pos rfl]
  cases k with
  | zero => rw [scanBack, e0, h0]; rfl
  | succ j => rw [scanBack, e0, h0]; rfl

theorem includeDirective_length (name : List Char) :
    (includeDirective name).length = name.length + 11 := by
  simp [includeDirective, include_chars]

theorem step_find (a name t : List Char) (ha : findStr "#include".toList a = none) :
    findStr "#include".toList (a ++ includeDirective name ++ '\r' :: '\n' :: t) =
      some a.length := by
  rw [include_chars] at ha ⊢
  have h := findStr_at_append '#' ['i', 'n', 'c', 'l', 'u', 'd', 'e'] (by decide)
    (' ' :: '"' :: name ++ ['"'] ++ '\r' :: '\n' :: t) a ha
  rw [← h]
  simp [includeDirective, include_chars]

theorem step_end (a name t : List Char) (hn : '\n' ∉ name) :
    findCharFrom '\n' (a ++ includeDirective name ++ '\r' :: '\n' :: t) a.length =
      some (a.length + name.length + 10 + 2) := by
  unfold findCharFrom
  have hdrop : (a ++ includeDirective name ++ '\r' :: '\n' :: t).drop a.length =
      (includeDirective name ++ ['\r']) ++ '\n' :: t := by
    rw [List.append_assoc, List.drop_left]
    simp
  have hmem : '\n' ∉ includeDirective name ++ ['\r'] := by
    simp [includeDirective, include_chars, hn]
  rw [hdrop, findChar_at_append _ _ _ hmem]
  simp only [Option.map_some', List.length_append, includeDirective_length,
    List.length_singleton]
  congr 1
  omega

theorem step_scan (a name t : List Char) :
    scanBack (a ++ includeDirective name ++ '\r' :: '\n' :: t)
      (a.length + name.length + 10 + 2) = some (a.length + name.length + 10) := by
  have hsrc : a ++ includeDirective name ++ '\r' :: '\n' :: t =
      (a ++ "#include".toList ++ ' ' :: '"' :: name) ++ '"' :: '\r' :: '\n' :: t := by
    simp [includeDirective]
  rw [hsrc]
  exact scanBack_crlf _ t '"' (by decide) _ (by simp [include_chars]; omega)

theorem step_header (a name t : List Char) :
    substr (a ++ includeDirective name ++ '\r' :: '\n' :: t) (a.length + 9)
      (name.length + 2) = ('"' :: name) ++ ['"'] := by
  have hsrc : a ++ includeDirective name ++ '\r' :: '\n' :: t =
      (a ++ "#include".toList ++ [' ']) ++ ((('"' :: name) ++ ['"']) ++ '\r' :: '\n' :: t) := by
    simp [includeDirective]
  unfold substr
  rw [hsrc, List.drop_left' (by simp [include_chars]), List.take_left' (by simp)]

theorem step_replace (a name t content : List Char) :
    replaceAt (a ++ includeDirective name ++ '\r' :: '\n' :: t) a.length
      (a.length + name.length + 10 + 2 - a.length - 1) content =
      a ++ content ++ '\r' :: '\n' :: t := by
  unfold replaceAt
  have h1 : (a ++ includeDirective name ++ '\r' :: '\n' :: t).take a.length = a := by
    rw [List.append_assoc, List.take_left]
  have h2 : (a ++ includeDirective name ++ '\r' :: '\n' :: t).drop
      (a.length + (a.length + name.length + 10 + 2 - a.length - 1)) = '\r' :: '\n' :: t := by
    rw [List.drop_left' (by simp [includeDirective_length]; omega)]
  rw [h1, h2]

theorem preprocessStep_crlf (loadFile : List Char → Option (List Char))
    (wd a name t : List Char) (ha : findStr "#include".toList a = none)
    (hn : '\n' ∉ name) (hlen : name.length + 2 < SIZE_MOD) :
    preprocessStep loadFile wd (a ++ includeDirective name ++ '\r' :: '\n' :: t) =
      match loadFile (wd ++ name) with
      | some content => PreprocessStep.next (a ++ content ++ '\r' :: '\n' :: t)
      | none => PreprocessStep.stop (PreprocessOutcome.loadFailed (wd ++ name)) := by
  have hlen9 : ¬ (a.length + 9 > (a ++ includeDirective name ++ '\r' :: '\n' :: t).length) := by
    simp [includeDirective_length]; omega
  have hsize : (a.length + name.length + 10 + SIZE_MOD - (a.length + 9) + 1) % SIZE_MOD =
      name.length + 2 := by
    unfold SIZE_MOD at hlen ⊢; omega
  have hfirst : findChar '"' (('"' :: name) ++ ['"']) = some 0 := by
    simp [findChar]
  have hlast : findLastChar '"' (('"' :: name) ++ ['"']) = some (name.length + 1) := by
    rw [findLastChar_snoc]; simp
  have hname : substr (('"' :: name) ++ ['"']) (0 + 1) (name.length + 1 - 0 - 1) = name := by
    unfold substr
    simp
  unfold preprocessStep
  rw [step_find a name t ha]
  simp only []
  rw [step_end a name t hn]
  simp only []
  rw [step_scan a name t]
  simp only []
  rw [if_neg hlen9, hsize, step_header a name t, hfirst, hlast]
  simp only []
  rw [if_pos (by omega), hname]
  cases loadFile (wd ++ name) with
  | none => rfl
  | some content => simp only [step_replace]

theorem preprocessStep_clean (loadFile : List Char → Option (List Char))
    (wd src : List Char) (h : findStr "#include".toList src = none) :
    preprocessStep loadFile wd src = PreprocessStep.stop (PreprocessOutcome.done src) := by
  unfold preprocessStep
  rw [h]

/-- Two-level include on CR LF sources. For every file system in which source A consists
of a text a1, a directive `#include "B"` ended by CR LF and a text a2, file B consists of
b1, a directive `#include "C"` ended by CR LF and b2, and the assembled text contains no
further `#include`, `PreprocessShaderSource` on A ends after three iterations and yields
A's text with the directive replaced by B's text, in which B's directive is in turn
replaced by C's text; all other characters of A and B, the CR LF line ends included, are
kept unchanged and in their original order. The character that `replace` leaves before
the newline is here the CR. -/
theorem preprocess_two_level (loadFile : List Char → Option (List Char))
    (wd a1 a2 b1 b2 c nameB nameC : List Char)
    (hB : loadFile (wd ++ nameB) = some (b1 ++ includeDirective nameC ++ '\r' :: '\n' :: b2))
    (hC : loadFile (wd ++ nameC) = some c)
    (hnB : '\n' ∉ nameB) (hnC : '\n' ∉ nameC)
    (hlB : nameB.length + 2 < SIZE_MOD) (hlC : nameC.length + 2 < SIZE_MOD)
    (hclean : findStr "#include".toList
      (a1 ++ b1 ++ c ++ '\r' :: '\n' :: b2 ++ '\r' :: '\n' :: a2) = none)
    (fuel : Nat) (hfuel : 3 ≤ fuel) :
    PreprocessShaderSource loadFile wd fuel
        (a1 ++ includeDirective nameB ++ '\r' :: '\n' :: a2) =
      PreprocessOutcome.done
        (a1 ++ b1 ++ c ++ '\r' :: '\n' :: b2 ++ '\r' :: '\n' :: a2) := by
  obtain ⟨k, rfl⟩ : ∃ k, fuel = k + 1 + 1 + 1 := ⟨fuel - 3, by omega⟩
  have hne : "#include".toList ≠ [] := by decide
  have hab : findStr "#include".toList (a1 ++ b1) = none := by
    apply findStr_none_left _ hne (a1 ++ b1) (c ++ '\r' :: '\n' :: b2 ++ '\r' :: '\n' :: a2)
    rw [← hclean]
    simp
  have ha : findStr "#include".toList a1 = none := findStr_none_left _ hne a1 b1 hab
  have hstep1 := preprocessStep_crlf loadFile wd a1 nameB a2 ha hnB hlB
  rw [hB] at hstep1
  simp only [] at hstep1
  have hsrc1 : a1 ++ (b1 ++ includeDirective nameC ++ '\r' :: '\n' :: b2) ++ '\r' :: '\n' :: a2 =
      (a1 ++ b1) ++ includeDirective nameC ++ '\r' :: '\n' :: (b2 ++ '\r' :: '\n' :: a2) := by
    simp
  have hstep2 := preprocessStep_crlf loadFile wd (a1 ++ b1) nameC
    (b2 ++ '\r' :: '\n' :: a2) hab hnC hlC
  rw [hC] at hstep2
  simp only [] at hstep2
  have hsrc2 : (a1 ++ b1) ++ c ++ '\r' :: '\n' :: (b2 ++ '\r' :: '\n' :: a2) =
      a1 ++ b1 ++ c ++ '\r' :: '\n' :: b2 ++ '\r' :: '\n' :: a2 := by
    simp
  rw [PreprocessShaderSource, hstep1]
  simp only []
  rw [hsrc1, PreprocessShaderSource, hstep2]
  simp only []
  rw [hsrc2, PreprocessShaderSource, preprocessStep_clean loadFile wd _ hclean]

/-- Two-level include on CR LF sources, for
A = `A1 CR LF #include "b.glsl" CR LF A2`, B = `B1 CR LF #include "c.glsl" CR LF B2` and
C = `C`. -/
theorem preprocess_two_level_witness :
    PreprocessShaderSource
        (filesOf [("sh/b.glsl".toList, "B1\r\n".toList ++ includeDirective "c.glsl".toList ++
            '\r' :: '\n' :: "B2".toList),
          ("sh/c.glsl".toList, "C".toList)])
        "sh/".toList 3
        ("A1\r\n".toList ++ includeDirective "b.glsl".toList ++ '\r' :: '\n' :: "A2".toList) =
      PreprocessOutcome.done
        ("A1\r\n".toList ++ "B1\r\n".toList ++ "C".toList ++ '\r' :: '\n' :: "B2".toList ++
          '\r' :: '\n' :: "A2".toList) :=
  preprocess_two_level _ "sh/".toList "A1\r\n".toList "A2".toList "B1\r\n".toList "B2".toList
    "C".toList "b.glsl".toList "c.glsl".toList (by decide) (by decide) (by decide)
    (by decide) (by decide) (by decide) (by decide) 3 (le_refl 3)

/-- C7 (failing input). With directive lines ended by LF alone, `replace` is given the
length `includeEndPosition - includePosition - 1` and not the end of the directive found
in `includeNameEnd`, so the character before the newline, the closing quote of the header
name, is not replaced: for A = `A1 LF #include "b.glsl" LF A2`,
B = `#include "c.glsl" LF B` and C = `C` the result keeps a stray quote after each inlined
text instead of being `A1 LF C LF B LF A2`. -/
theorem preprocess_lf_leaves_closing_quote :
    PreprocessShaderSource
        (filesOf [("sh/b.glsl".toList, "#include \"c.glsl\"\nB".toList),
          ("sh/c.glsl".toList, "C".toList)])
        "sh/".toList 3 "A1\n#include \"b.glsl\"\nA2".toList =
      PreprocessOutcome.done "A1\nC\"\nB\"\nA2".toList ∧
    PreprocessShaderSource
        (filesOf [("sh/b.glsl".toList, "#include \"c.glsl\"\nB".toList),
          ("sh/c.glsl".toList, "C".toList)])
        "sh/".toList 3 "A1\n#include \"b.glsl\"\nA2".toList ≠
      PreprocessOutcome.done "A1\nC\nB\nA2".toList := by
  constructor <;> decide

/-- C8 (failing input). The source `#include LF "a.glsl" LF` has a directive with no
header name on its own line. The length of the header substring is computed as
`includeNameEnd - (includePosition + 9) + 1 = 7 - 9 + 1`, which wraps around in `size_t`,
so the substring runs to the end of the source, the quoted name of the next line is taken
as the header, the file is loaded and the assertion is not reached. -/
theorem preprocess_missing_name_loads_file :
    PreprocessShaderSource (filesOf [("sh/a.glsl".toList, "X".toList)])
        "sh/".toList 2 "#include\n\"a.glsl\"\n".toList =
      PreprocessOutcome.done "Xe\n\"a.glsl\"\n".toList ∧
    PreprocessShaderSource (filesOf [("sh/a.glsl".toList, "X".toList)])
        "sh/".toList 2 "#include\n\"a.glsl\"\n".toList ≠
      PreprocessOutcome.headerNotQuoted := by
  constructor <;> decide

/-! ## Camera movement -/

theorem adjust_matrices (cam : Camera) (dx dy dz tx ty tz : ℚ) :
    (cam.adjust dx dy dz tx ty tz).m_transform = cam.m_transform ∧
    (cam.adjust dx dy dz tx ty tz).m_view = cam.m_view ∧
    (cam.adjust dx dy dz tx ty tz).m_perspective = cam.m_perspective ∧
    (cam.adjust dx dy dz tx ty tz).m_inversePerspective = cam.m_inversePerspective :=
  ⟨rfl, rfl, rfl, rfl⟩

theorem adjustAll_matrices (calls : List AdjustArgs) :
    ∀ (cam : Camera), (cam.adjustAll calls).m_transform = cam.m_transform ∧
      (cam.adjustAll calls).m_view = cam.m_view ∧
      (cam.adjustAll calls).m_perspective = cam.m_perspective ∧
      (cam.adjustAll calls).m_inversePerspective = cam.m_inversePerspective := by
  induction calls with
  | nil => intro cam; exact ⟨rfl, rfl, rfl, rfl⟩
  | cons a rest ih =>
    intro cam
    rw [adjustAll_cons]
    exact ih _

/-- C16. For every camera state and every call `adjust(dx, dy, dz, tx, ty, tz)` the new
position is the old position plus the xyz part of `m_transform * (tx, ty, tz, 0)`;
`adjust` leaves the transform, view and projection matrices as they are, so after any
number of `adjust` calls that follow a `CalculateViewProjection` (or the constructor) the
matrix used is still the one stored there; and the new position is the same for every
`dx`, `dy` passed in the call. -/
theorem adjust_moves_by_stored_transform (cam : Camera) (dx dy dz tx ty tz : ℚ) :
    (cam.adjust dx dy dz tx ty tz).pos =
      ⟨cam.pos.x + (cam.m_transform.mulVec ⟨tx, ty, tz, 0⟩).x,
        cam.pos.y + (cam.m_transform.mulVec ⟨tx, ty, tz, 0⟩).y,
        cam.pos.z + (cam.m_transform.mulVec ⟨tx, ty, tz, 0⟩).z⟩ ∧
    ((cam.adjust dx dy dz tx ty tz).m_transform = cam.m_transform ∧
      (cam.adjust dx dy dz tx ty tz).m_view = cam.m_view ∧
      (cam.adjust dx dy dz tx ty tz).m_perspective = cam.m_perspective ∧
      (cam.adjust dx dy dz tx ty tz).m_inversePerspective = cam.m_inversePerspective) ∧
    (∀ (glm : GlmOps) (fov width height nearPlane farPlane : ℚ) (calls : List AdjustArgs),
      ((cam.CalculateViewProjection glm fov width height nearPlane farPlane).adjustAll
          calls).m_transform =
        (cam.CalculateViewProjection glm fov width height nearPlane farPlane).m_transform) ∧
    (∀ (start_pos : Vec3) (calls : List AdjustArgs),
      ((Camera.construct start_pos).adjustAll calls).m_transform =
        (Camera.construct start_pos).m_transform) ∧
    (∀ dx1 dy1 : ℚ,
      (cam.adjust dx1 dy1 dz tx ty tz).pos = (cam.adjust dx dy dz tx ty tz).pos) :=
  ⟨rfl, adjust_matrices cam dx dy dz tx ty tz,
    fun _ _ _ _ _ _ calls => (adjustAll_matrices calls _).1,
    fun _ calls => (adjustAll_matrices calls _).1,
    fun _ _ => rfl⟩

/-! ## Texture formats and uploads -/

/-- C17. For every channel count in 1..4 the pixel format is RED, RG, RGB, RGBA; when
compression is not in effect (no S3TC support or no compression flag) the internal
format is R8, RG8, RGB8, RGBA8 without the sRGB flag and R8, RG8, SRGB8, SRGB8_ALPHA8
with it; when compression is in effect the internal format is DXT1, DXT5, DXT1, DXT5
without the sRGB flag and the sRGB variants of these with it. -/
theorem texture_format_table (isS3TCSupported : Bool) (flags : SoilFlags) :
    (pixelFormatOf 1 isS3TCSupported flags = GLFormat.GL_RED ∧
      pixelFormatOf 2 isS3TCSupported flags = GLFormat.GL_RG ∧
      pixelFormatOf 3 isS3TCSupported flags = GLFormat.GL_RGB ∧
      pixelFormatOf 4 isS3TCSupported flags = GLFormat.GL_RGBA) ∧
    ((isS3TCSupported && flags.SOIL_FLAG_COMPRESS_TO_DXT) = false →
      flags.SOIL_FLAG_SRGB_TEXTURE = false →
      internalFormatOf 1 isS3TCSupported flags = GLFormat.GL_R8 ∧
      internalFormatOf 2 isS3TCSupported flags = GLFormat.GL_RG8 ∧
      internalFormatOf 3 isS3TCSupported flags = GLFormat.GL_RGB8 ∧
      internalFormatOf 4 isS3TCSupported flags = GLFormat.GL_RGBA8) ∧
    ((isS3TCSupported && flags.SOIL_FLAG_COMPRESS_TO_DXT) = false →
      flags.SOIL_FLAG_SRGB_TEXTURE = true →
      internalFormatOf 1 isS3TCSupported flags = GLFormat.GL_R8 ∧
      internalFormatOf 2 isS3TCSupported flags = GLFormat.GL_RG8 ∧
      internalFormatOf 3 isS3TCSupported flags = GLFormat.GL_SRGB8 ∧
      internalFormatOf 4 isS3TCSupported flags = GLFormat.GL_SRGB8_ALPHA8) ∧
    ((isS3TCSupported && flags.SOIL_FLAG_COMPRESS_TO_DXT) = true →
      flags.SOIL_FLAG_SRGB_TEXTURE = false →
      internalFormatOf 1 isS3TCSupported flags = GLFormat.GL_COMPRESSED_RGB_S3TC_DXT1_EXT ∧
      internalFormatOf 2 isS3TCSupported flags = GLFormat.GL_COMPRESSED_RGBA_S3TC_DXT5_EXT ∧
      internalFormatOf 3 isS3TCSupported flags = GLFormat.GL_COMPRESSED_RGB_S3TC_DXT1_EXT ∧
      internalFormatOf 4 isS3TCSupported flags = GLFormat.GL_COMPRESSED_RGBA_S3TC_DXT5_EXT) ∧
    ((isS3TCSupported && flags.SOIL_FLAG_COMPRESS_TO_DXT) = true →
      flags.SOIL_FLAG_SRGB_TEXTURE = true →
      internalFormatOf 1 isS3TCSupported flags = GLFormat.GL_COMPRESSED_SRGB_S3TC_DXT1_EXT ∧
      internalFormatOf 2 isS3TCSupported flags =
        GLFormat.GL_COMPRESSED_SRGB_ALPHA_S3TC_DXT5_EXT ∧
      internalFormatOf 3 isS3TCSupported flags = GLFormat.GL_COMPRESSED_SRGB_S3TC_DXT1_EXT ∧
      internalFormatOf 4 isS3TCSupported flags =
        GLFormat.GL_COMPRESSED_SRGB_ALPHA_S3TC_DXT5_EXT) := by
  refine ⟨⟨rfl, rfl, rfl, rfl⟩, ?_, ?_, ?_, ?_⟩ <;>
  · intro hc hs
    simp [internalFormatOf, formatsForChannels, applySRGB, hc, hs]

/-- C17 (witness). The uncompressed sRGB row of the table, for a driver without S3TC and
the flags sRGB and compress-to-DXT. -/
theorem texture_format_table_witness :
    internalFormatOf 1 false
        { SoilFlags.none with SOIL_FLAG_SRGB_TEXTURE := true, SOIL_FLAG_COMPRESS_TO_DXT := true }
        = GLFormat.GL_R8 ∧
      internalFormatOf 2 false
        { SoilFlags.none with SOIL_FLAG_SRGB_TEXTURE := true, SOIL_FLAG_COMPRESS_TO_DXT := true }
        = GLFormat.GL_RG8 ∧
      internalFormatOf 3 false
        { SoilFlags.none with SOIL_FLAG_SRGB_TEXTURE := true, SOIL_FLAG_COMPRESS_TO_DXT := true }
        = GLFormat.GL_SRGB8 ∧
      internalFormatOf 4 false
        { SoilFlags.none with SOIL_FLAG_SRGB_TEXTURE := true, SOIL_FLAG_COMPRESS_TO_DXT := true }
        = GLFormat.GL_SRGB8_ALPHA8 :=
  (texture_format_table false
    { SoilFlags.none with
      SOIL_FLAG_SRGB_TEXTURE := true
      SOIL_FLAG_COMPRESS_TO_DXT := true }).right.right.left rfl rfl

/-- C18 (failing input). With the compress-to-DXT flag and a driver without S3TC, for a
decoded 2 x 2 image of 3 channels, the calls on the texture are the storage call and the
parameter calls only: the branch `if (isS3TCSupported)` of lines 396-424 has no `else`,
so level 0 is never uploaded. -/
theorem compress_without_s3tc_uploads_nothing :
    textureUploadCalls { SoilFlags.none with SOIL_FLAG_COMPRESS_TO_DXT := true } false
        (fun _ => false) 2 2 3 =
      [TextureCall.glTextureStorage2D 1 GLFormat.GL_RGB8 2 2,
        TextureCall.glTextureParameteri TexParameter.GL_TEXTURE_MAG_FILTER
          TexParameterValue.GL_LINEAR,
        TextureCall.glTextureParameteri TexParameter.GL_TEXTURE_MIN_FILTER
          TexParameterValue.GL_LINEAR,
        TextureCall.glTextureParameteri TexParameter.GL_TEXTURE_MAX_LEVEL
          (TexParameterValue.level 0),
        TextureCall.glTextureParameteri TexParameter.GL_TEXTURE_WRAP_S
          TexParameterValue.GL_CLAMP_TO_EDGE,
        TextureCall.glTextureParameteri TexParameter.GL_TEXTURE_WRAP_T
          TexParameterValue.GL_CLAMP_TO_EDGE] ∧
    (textureUploadCalls { SoilFlags.none with SOIL_FLAG_COMPRESS_TO_DXT := true } false
        (fun _ => false) 2 2 3).filter (TextureCall.uploadsLevel 0) = [] := by
  constructor <;> decide

/-- C19 (failing input). With the mipmap flag, for a 4 x 4 image of 4 channels and a
driver without S3TC, two levels above the base are counted, and both level 1 and level 2
are uploaded with the dimensions 2 x 2: `MIPwidth` and `MIPheight` are set to
`(width + 1) / 2` and `(height + 1) / 2` again at the end of every iteration, so level 2
is not uploaded as 1 x 1. -/
theorem mip_level_two_has_level_one_size :
    numMipLevelsOf { SoilFlags.none with SOIL_FLAG_MIPMAPS := true } 4 4 = 2 ∧
    (textureUploadCalls { SoilFlags.none with SOIL_FLAG_MIPMAPS := true } false
        (fun _ => false) 4 4 4).filter
        (fun c => TextureCall.uploadsLevel 1 c || TextureCall.uploadsLevel 2 c) =
      [TextureCall.glTextureSubImage2D 1 2 2 GLFormat.GL_RGBA,
        TextureCall.glTextureSubImage2D 2 2 2 GLFormat.GL_RGBA] ∧
    max 1 (4 >>> 2) = 1 := by
  refine ⟨by decide, by decide, by decide⟩

/-! ## Drawable geometry and the texture cache -/

/-- C11 (failing input). For the mesh description with diffuse path `brick.png` (which
decodes), normal path `missing.png` (which does not) and an empty specular path, on the
empty map: `MakeDrawableModel` stores an entry for each of the two non-empty paths, the
one for `missing.png` with handle 0; the destructor releases the handle 7 of `brick.png`
but skips the handle 0, so the entry of `missing.png` with count 1 stays in the map. -/
theorem undecodable_texture_entry_leaks :
    MakeDrawableModel oneMissingEnv 7 8 9
        { diffuse_texpath := "brick.png", normal_texpath := "missing.png",
          specular_texpath := "" } [] =
      Outcome.returned { diffuse_tex := 7, normal_tex := 0, specular_tex := 0 }
        [{ key := 9, object := 7, refs := 1 }, { key := 11, object := 0, refs := 1 }] ∧
    makeThenDestroy oneMissingEnv 7 8 9
        { diffuse_texpath := "brick.png", normal_texpath := "missing.png",
          specular_texpath := "" } [] =
      Outcome.returned () [{ key := 11, object := 0, refs := 1 }] := by
  constructor <;> decide

/-! ## Reflection: the constant-handle map -/

theorem KeyMap.find_assign {β : Type} (key key1 : Nat) (value : β) :
    ∀ (m : KeyMap β), KeyMap.find key (KeyMap.assign key1 value m) =
      if key1 = key then some value else KeyMap.find key m := by
  intro m
  induction m with
  | nil => simp [KeyMap.assign, KeyMap.find]
  | cons x rest ih =>
    obtain ⟨k, v⟩ := x
    unfold KeyMap.assign
    by_cases h1 : key1 < k
    · simp only [h1, if_true, KeyMap.find]
    · by_cases h2 : key1 = k
      · subst h2
        simp only [h1, if_false, if_true, KeyMap.find]
        by_cases h3 : key1 = key
        · simp [h3]
        · simp [h3]
      · simp only [h1, h2, if_false, KeyMap.find, ih]
        by_cases h3 : k = key
        · have h4 : key1 ≠ key := fun e => h2 (e.trans h3.symm)
          simp [h3, h4]
        · simp [h3]

theorem registerConstants_keeps (hash : List Char → Nat) (idx : Nat) :
    ∀ (names : List (List Char)) (m m1 : KeyMap Nat),
      registerConstants hash idx names m = Except.ok m1 →
      ∀ k b, KeyMap.find k m = some b → KeyMap.find k m1 = some b := by
  intro names
  induction names with
  | nil =>
    intro m m1 h k b hk
    simp only [registerConstants, Except.ok.injEq] at h
    rw [← h]; exact hk
  | cons n rest ih =>
    intro m m1 h k b hk
    unfold registerConstants at h
    cases hf : KeyMap.find (hash n) m with
    | some mapped =>
      simp only [hf] at h
      by_cases hc : mapped ≠ idx
      · simp [hc] at h
      · simp only [hc, if_false] at h
        exact ih m m1 h k b hk
    | none =>
      simp only [hf] at h
      refine ih _ m1 h k b ?_
      rw [KeyMap.find_assign]
      have hne : hash n ≠ k := by
        intro e
        rw [e, hk] at hf
        cases hf
      simp [hne, hk]

theorem registerConstants_error_iff (hash : List Char → Nat) (idx : Nat) :
    ∀ (names : List (List Char)) (m : KeyMap Nat),
      registerConstants hash idx names m =
          Except.error ReflectFatal.constantMappedElsewhere ↔
        ∃ n ∈ names, ∃ b, KeyMap.find (hash n) m = some b ∧ b ≠ idx := by
  intro names
  induction names with
  | nil =>
    intro m
    simp [registerConstants]
  | cons x rest ih =>
    intro m
    unfold registerConstants
    cases hf : KeyMap.find (hash x) m with
    | some mapped =>
      show (if mapped ≠ idx then _ else _) = _ ↔ _
      by_cases hc : mapped ≠ idx
      · rw [if_pos hc]
        exact ⟨fun _ => ⟨x, List.mem_cons_self _ _, mapped, hf, hc⟩, fun _ => rfl⟩
      · rw [if_neg hc, ih m]
        constructor
        · rintro ⟨n, hn, b, hb, hne⟩
          exact ⟨n, List.mem_cons_of_mem _ hn, b, hb, hne⟩
        · rintro ⟨n, hn, b, hb, hne⟩
          rcases List.mem_cons.1 hn with rfl | hr
          · rw [hf] at hb
            cases hb
            exact absurd hne hc
          · exact ⟨n, hr, b, hb, hne⟩
    | none =>
      show registerConstants hash idx rest (KeyMap.assign (hash x) idx m) = _ ↔ _
      rw [ih]
      constructor
      · rintro ⟨n, hn, b, hb, hne⟩
        refine ⟨n, List.mem_cons_of_mem _ hn, b, ?_, hne⟩
        rw [KeyMap.find_assign] at hb
        by_cases he : hash x = hash n
        · simp only [he, if_true, Option.some.injEq] at hb
          exact absurd hb.symm hne
        · simpa [he] using hb
      · rintro ⟨n, hn, b, hb, hne⟩
        rcases List.mem_cons.1 hn with rfl | hr
        · rw [hf] at hb; cases hb
        · refine ⟨n, hr, b, ?_, hne⟩
          rw [KeyMap.find_assign]
          have he : hash x ≠ hash n := by
            intro e
            rw [e, hb] at hf
            cases hf
          simp [he, hb]

theorem registerConstants_error_kind (hash : List Char → Nat) (idx : Nat) :
    ∀ (names : List (List Char)) (m : KeyMap Nat) (f : ReflectFatal),
      registerConstants hash idx names m = Except.error f →
      f = ReflectFatal.constantMappedElsewhere := by
  intro names
  induction names with
  | nil => intro m f h; simp [registerConstants] at h
  | cons x rest ih =>
    intro m f h
    unfold registerConstants at h
    cases hf : KeyMap.find (hash x) m with
    | some mapped =>
      simp only [hf] at h
      by_cases hc : mapped ≠ idx
      · rw [if_pos hc] at h
        cases h
        rfl
      · rw [if_neg hc] at h
        exact ih m f h
    | none =>
      simp only [hf] at h
      exact ih _ f h

theorem processBlock_ok (env : ReflectionEnv) (tokenList : List (List Char)) (i : Nat)
    (name : List Char) (blockIndex : Nat) (program program1 : GLProgram)
    (h : processBlock env tokenList i name blockIndex program = Except.ok program1) :
    ∃ members sig,
      parseMembers (tokenList.drop ((i + 3) % UINT32_MOD)) = some members ∧
      blockSignature env (scanStd140 tokenList i) members = Except.ok sig ∧
      registerConstants env.HashCString
          (env.SetupConstantBuffer name (env.GL_UNIFORM_BLOCK_DATA_SIZE blockIndex) sig)
          (members.map (fun m => m.2)) program.m_shaderConstantToConstantBufferBindingMap =
        Except.ok program1.m_shaderConstantToConstantBufferBindingMap ∧
      program1.m_textureBindIndicesMap = program.m_textureBindIndicesMap := by
  unfold processBlock at h
  cases hp : parseMembers (tokenList.drop ((i + 3) % UINT32_MOD)) with
  | none =>
    simp only [hp] at h
    cases h
  | some members =>
    cases hs : blockSignature env (scanStd140 tokenList i) members with
    | error f =>
      simp only [hp, hs] at h
      cases h
    | ok sig =>
      simp only [hp, hs] at h
      cases hr : registerConstants env.HashCString
            (env.SetupConstantBuffer name (env.GL_UNIFORM_BLOCK_DATA_SIZE blockIndex) sig)
            (members.map (fun m => m.2)) program.m_shaderConstantToConstantBufferBindingMap with
      | error f =>
        simp only [hr] at h
        split_ifs at h
      | ok bindingMap =>
        simp only [hr] at h
        split_ifs at h
        all_goals
          cases h
          exact ⟨members, sig, rfl, hs, hr, rfl⟩

theorem processUniform_ok (env : ReflectionEnv) (tokenList : List (List Char))
    (st st1 : ReflectState) (i : Nat)
    (h : processUniform env tokenList st i = Except.ok st1) :
    st1.program = st.program ∨
      ∃ name blockIndex, processBlock env tokenList i name blockIndex st.program =
        Except.ok st1.program := by
  unfold processUniform at h
  cases h1 : tokenList[(i + 1) % UINT32_MOD]? with
  | none =>
    simp only [h1] at h
    cases h
  | some next =>
    simp only [h1] at h
    by_cases hsamp : tokenContains "sampler" next = true
    · rw [if_pos hsamp] at h
      cases h2 : tokenList[(i + 2) % UINT32_MOD]? with
      | none =>
        simp only [h2] at h
        cases h
      | some name =>
        simp only [h2] at h
        cases h
        exact Or.inl rfl
    · rw [if_neg hsamp] at h
      cases hb : env.glGetUniformBlockIndex next with
      | none =>
        simp only [hb] at h
        cases h
        exact Or.inl rfl
      | some blockIndex =>
        simp only [hb] at h
        cases hpb : processBlock env tokenList i next blockIndex st.program with
        | error f =>
          simp only [hpb] at h
          cases h
        | ok program =>
          simp only [hpb] at h
          cases h
          exact Or.inr ⟨next, blockIndex, hpb⟩

theorem processUniform_keeps (env : ReflectionEnv) (tokenList : List (List Char))
    (st st1 : ReflectState) (i : Nat)
    (h : processUniform env tokenList st i = Except.ok st1) :
    ∀ k b, KeyMap.find k st.program.m_shaderConstantToConstantBufferBindingMap = some b →
      KeyMap.find k st1.program.m_shaderConstantToConstantBufferBindingMap = some b := by
  intro k b hk
  rcases processUniform_ok env tokenList st st1 i h with he | ⟨name, blockIndex, hb⟩
  · rw [he]; exact hk
  · obtain ⟨members, sig, _, _, hr, _⟩ :=
      processBlock_ok env tokenList i name blockIndex _ _ hb
    exact registerConstants_keeps _ _ _ _ _ hr k b hk

theorem processUniforms_keeps (env : ReflectionEnv) (tokenList : List (List Char)) :
    ∀ (positions : List Nat) (st st1 : ReflectState),
      processUniforms env tokenList positions st = Except.ok st1 →
      ∀ k b, KeyMap.find k st.program.m_shaderConstantToConstantBufferBindingMap = some b →
        KeyMap.find k st1.program.m_shaderConstantToConstantBufferBindingMap = some b := by
  intro positions
  induction positions with
  | nil =>
    intro st st1 h k b hk
    simp only [processUniforms, Except.ok.injEq] at h
    rw [← h]; exact hk
  | cons i rest ih =>
    intro st st1 h k b hk
    unfold processUniforms at h
    cases hu : processUniform env tokenList st i with
    | error f =>
      simp only [hu] at h
      cases h
    | ok st2 =>
      simp only [hu] at h
      exact ih st2 st1 h k b (processUniform_keeps env tokenList st st2 i hu k b hk)

/-- C12. In a `GLProgram`'s constant-handle to buffer-index map an entry once set is never
changed: whenever `SetupTextureBindingsAndConstantBuffers` returns, every entry the map
had before is still there with the same buffer index; in the loop over the members of a
block, a member whose hash is already mapped to the block's buffer index leaves the map
as it is, and the loop stops at the assertion exactly when some member's hash is
already mapped to a different buffer index. -/
theorem constant_map_never_reassigned (env : ReflectionEnv) :
    (∀ (shaderSource : List Char) (program program1 : GLProgram),
      SetupTextureBindingsAndConstantBuffers env shaderSource program = Except.ok program1 →
      ∀ k b, KeyMap.find k program.m_shaderConstantToConstantBufferBindingMap = some b →
        KeyMap.find k program1.m_shaderConstantToConstantBufferBindingMap = some b) ∧
    (∀ (idx : Nat) (names : List (List Char)) (m m1 : KeyMap Nat),
      registerConstants env.HashCString idx names m = Except.ok m1 →
      ∀ k b, KeyMap.find k m = some b → KeyMap.find k m1 = some b) ∧
    (∀ (idx : Nat) (name : List Char) (rest : List (List Char)) (m : KeyMap Nat),
      KeyMap.find (env.HashCString name) m = some idx →
      registerConstants env.HashCString idx (name :: rest) m =
        registerConstants env.HashCString idx rest m) ∧
    (∀ (idx : Nat) (names : List (List Char)) (m : KeyMap Nat),
      registerConstants env.HashCString idx names m =
          Except.error ReflectFatal.constantMappedElsewhere ↔
        ∃ n ∈ names, ∃ b, KeyMap.find (env.HashCString n) m = some b ∧ b ≠ idx) := by
  refine ⟨?_, ?_, ?_, ?_⟩
  · intro shaderSource program program1 h k b hk
    unfold SetupTextureBindingsAndConstantBuffers at h
    cases hu : processUniforms env (tokenizer shaderSource)
        (uniformTokenPositions (tokenizer shaderSource))
        { program := program, activeTextures := [] } with
    | error f =>
      simp only [hu] at h
      cases h
    | ok st =>
      simp only [hu, Except.ok.injEq] at h
      rw [← h]
      exact processUniforms_keeps env _ _ _ st hu k b hk
  · intro idx names m m1 h
    exact registerConstants_keeps env.HashCString idx names m m1 h
  · intro idx name rest m hf
    simp [registerConstants, hf]
  · intro idx names m
    exact registerConstants_error_iff env.HashCString idx names m

/-- C12 (witness). On the sample source, for a program whose map already sends the hash
of `ufFar` to the buffer index 0, reflection returns and the entry is still there. -/
theorem constant_map_never_reassigned_witness :
    SetupTextureBindingsAndConstantBuffers sampleReflectionEnv sampleShaderSource
        { GLProgram.empty with m_shaderConstantToConstantBufferBindingMap := [(5, 0)] } =
      Except.ok
        { m_textureBindIndicesMap := [(10, (3, 0))]
          m_shaderConstantToConstantBufferBindingMap := [(5, 0), (7, 0)]
          m_constantBufferBindIndicesMap := [(0, 1)] } ∧
    KeyMap.find 5
        ({ m_textureBindIndicesMap := [(10, (3, 0))]
           m_shaderConstantToConstantBufferBindingMap := [(5, 0), (7, 0)]
           m_constantBufferBindIndicesMap := [(0, 1)] } :
          GLProgram).m_shaderConstantToConstantBufferBindingMap = some 0 :=
  ⟨by decide,
    (constant_map_never_reassigned sampleReflectionEnv).1 sampleShaderSource
      { GLProgram.empty with m_shaderConstantToConstantBufferBindingMap := [(5, 0)] } _
      (by decide) 5 0 (by decide)⟩

theorem scanPrevious_iff (tokenList : List (List Char)) :
    ∀ (p : Nat), scanPrevious tokenList p = true ↔
      ∃ j, j ≤ p ∧ tokenContains "std140" (tokenList.getD j []) = true ∧
        ∀ k, j < k → k ≤ p → tokenContains ";" (tokenList.getD k []) = false := by
  intro p
  induction p with
  | zero =>
    unfold scanPrevious
    constructor
    · intro h
      exact ⟨0, le_refl 0, h, fun k h1 h2 => absurd h1 (by omega)⟩
    · rintro ⟨j, hj, hs, _⟩
      have : j = 0 := by omega
      subst this
      exact hs
  | succ q ih =>
    unfold scanPrevious
    by_cases h1 : tokenContains "std140" (tokenList.getD (q + 1) []) = true
    · rw [if_pos h1]
      exact ⟨fun _ => ⟨q + 1, le_refl _, h1, fun k hk1 hk2 => absurd hk1 (by omega)⟩,
        fun _ => rfl⟩
    · rw [if_neg h1]
      by_cases h2 : tokenContains ";" (tokenList.getD (q + 1) []) = true
      · rw [if_pos h2]
        constructor
        · intro h; cases h
        · rintro ⟨j, hj, hs, hk⟩
          have hne : j ≠ q + 1 := fun e => h1 (e ▸ hs)
          have := hk (q + 1) (by omega) (le_refl _)
          rw [h2] at this
          cases this
      · rw [if_neg h2, ih]
        have h2f : tokenContains ";" (tokenList.getD (q + 1) []) = false := by
          simpa using h2
        constructor
        · rintro ⟨j, hj, hs, hk⟩
          refine ⟨j, by omega, hs, fun k hk1 hk2 => ?_⟩
          by_cases hq : k = q + 1
          · rw [hq]; exact h2f
          · exact hk k hk1 (by omega)
        · rintro ⟨j, hj, hs, hk⟩
          have hne : j ≠ q + 1 := fun e => h1 (e ▸ hs)
          exact ⟨j, by omega, hs, fun k hk1 hk2 => hk k hk1 (by omega)⟩

/-- C14 (as amended). For every token list and every position i of at most 2^31 (so that
i - 1 is not negative as an `int32_t`), the block declared at i is treated as std140 if
and only if there is an index j < i whose token contains `std140` and no token at an
index strictly between j and i contains `;`. -/
theorem std140_scan_iff (tokenList : List (List Char)) (i : Nat) (hi : i ≤ INT32_LIMIT) :
    scanStd140 tokenList i = true ↔
      ∃ j, j < i ∧ tokenContains "std140" (tokenList.getD j []) = true ∧
        ∀ k, j < k → k < i → tokenContains ";" (tokenList.getD k []) = false := by
  unfold scanStd140
  cases i with
  | zero =>
    have h0 : ¬ (UINT32_MOD - 1 < INT32_LIMIT) := by decide
    simp only [if_true, if_neg h0]
    constructor
    · intro h; cases h
    · rintro ⟨j, hj, _⟩
      exact absurd hj (by omega)
  | succ p =>
    have hp : p < INT32_LIMIT := by omega
    have hne : ¬ (p + 1 = 0) := by omega
    simp only [if_neg hne, Nat.add_sub_cancel, if_pos hp]
    rw [scanPrevious_iff]
    constructor
    · rintro ⟨j, hj, hs, hk⟩
      exact ⟨j, by omega, hs, fun k hk1 hk2 => hk k hk1 (by omega)⟩
    · rintro ⟨j, hj, hs, hk⟩
      exact ⟨j, by omega, hs, fun k hk1 hk2 => hk k hk1 (by omega)⟩

/-- C14 (witness). The amended statement at the `uniform` token of index 1 of the sample
source. -/
theorem std140_scan_iff_witness :
    1 ≤ INT32_LIMIT ∧
    (scanStd140 (tokenizer sampleShaderSource) 1 = true ↔
      ∃ j, j < 1 ∧
        tokenContains "std140" ((tokenizer sampleShaderSource).getD j []) = true ∧
        ∀ k, j < k → k < 1 →
          tokenContains ";" ((tokenizer sampleShaderSource).getD k []) = false) :=
  ⟨by decide, std140_scan_iff (tokenizer sampleShaderSource) 1 (by decide)⟩

theorem getD_cons_replicate (a x d : List Char) (rest : List (List Char)) (n k : Nat)
    (h1 : 0 < k) (h2 : k ≤ n) :
    (a :: (List.replicate n x ++ rest)).getD k d = x := by
  obtain ⟨q, rfl⟩ : ∃ q, k = q + 1 := ⟨k - 1, by omega⟩
  have hq : q < n := by omega
  rw [List.getD_cons_succ, List.getD_append _ _ _ _ (by simpa using hq)]
  simp [List.getD_eq_getElem?_getD, List.getElem?_replicate, hq]

theorem getD_after_replicate (a x d : List Char) (rest : List (List Char)) (n : Nat) :
    (a :: (List.replicate n x ++ rest)).getD (n + 1) d = rest.getD 0 d := by
  rw [List.getD_cons_succ, List.getD_append_right _ _ _ _ (by simp)]
  simp

/-- C14 (counterexample). In the token list `longTokenList` the `uniform` token of the
block `PerFrame` is at index 2147483649; the token at index 0 contains `std140` and no
token between them contains `;`, but `previous` starts at 2147483648, which is negative
as an `int32_t`, so the backward scan is not entered and the block is not treated as
std140. -/
theorem std140_scan_counterexample :
    longTokenList.getD 2147483649 [] = "uniform".toList ∧
    scanStd140 longTokenList 2147483649 = false ∧
    (∃ j, j < 2147483649 ∧ tokenContains "std140" (longTokenList.getD j []) = true ∧
      ∀ k, j < k → k < 2147483649 →
        tokenContains ";" (longTokenList.getD k []) = false) := by
  refine ⟨?_, ?_, ⟨0, by omega, by decide, ?_⟩⟩
  · exact getD_after_replicate _ _ _ _ 2147483648
  · unfold scanStd140
    have h1 : ¬ ((2147483649 : Nat) = 0) := by omega
    have h2 : ¬ ((2147483649 : Nat) - 1 < INT32_LIMIT) := by decide
    simp only [if_neg h1, if_neg h2]
  · intro k hk1 hk2
    unfold longTokenList
    rw [getD_cons_replicate _ _ _ _ 2147483648 k hk1 (by omega)]
    decide

/-! ## Reflection: texture bindings -/

theorem bindTexture_find (env : ReflectionEnv) (table : KeyMap (Int × Nat))
    (name : List Char) (k : Nat) :
    KeyMap.find k (bindTexture env table name) = KeyMap.find k table ∨
      (KeyMap.find k table = none ∧ env.HashCString name = k ∧
        env.glGetUniformLocation name > -1 ∧
        KeyMap.find k (bindTexture env table name) =
          some (env.glGetUniformLocation name, 0)) := by
  unfold bindTexture
  cases hf : KeyMap.find (env.HashCString name) table with
  | some v => exact Or.inl rfl
  | none =>
    show KeyMap.find k (if _ then _ else _) = _ ∨ _
    by_cases hl : env.glGetUniformLocation name > -1
    · rw [if_pos hl, KeyMap.find_assign]
      by_cases hk : env.HashCString name = k
      · right
        rw [if_pos hk]
        exact ⟨hk ▸ hf, hk, hl, rfl⟩
      · left
        rw [if_neg hk]
    · rw [if_neg hl]
      exact Or.inl rfl

theorem bindTexture_isSome (env : ReflectionEnv) (table : KeyMap (Int × Nat))
    (name : List Char) (k : Nat) :
    (KeyMap.find k (bindTexture env table name)).isSome = true ↔
      (KeyMap.find k table).isSome = true ∨
        (env.HashCString name = k ∧ env.glGetUniformLocation name > -1) := by
  constructor
  · intro h
    rcases bindTexture_find env table name k with he | ⟨_, hk, hl, _⟩
    · rw [he] at h; exact Or.inl h
    · exact Or.inr ⟨hk, hl⟩
  · rintro (h | ⟨hk, hl⟩)
    · rcases bindTexture_find env table name k with he | ⟨hn, _, _, _⟩
      · rw [he]; exact h
      · rw [hn] at h; cases h
    · unfold bindTexture
      cases hf : KeyMap.find (env.HashCString name) table with
      | some v =>
        show (KeyMap.find k table).isSome = true
        rw [← hk, hf]; rfl
      | none =>
        show (KeyMap.find k (if _ then _ else _)).isSome = true
        rw [if_pos hl, KeyMap.find_assign, if_pos hk]
        rfl

theorem setupTextureBindings_spec (env : ReflectionEnv) (k : Nat) :
    ∀ (textureNames : List (List Char)) (table : KeyMap (Int × Nat)),
      ((KeyMap.find k (SetupTextureBindings env textureNames table)).isSome = true ↔
        (KeyMap.find k table).isSome = true ∨
          ∃ n ∈ textureNames, env.HashCString n = k ∧ env.glGetUniformLocation n > -1) ∧
      (∀ v, KeyMap.find k table = some v →
        KeyMap.find k (SetupTextureBindings env textureNames table) = some v) ∧
      (KeyMap.find k table = none →
        ∀ v, KeyMap.find k (SetupTextureBindings env textureNames table) = some v →
          ∃ n ∈ textureNames, env.HashCString n = k ∧ env.glGetUniformLocation n > -1 ∧
            v = (env.glGetUniformLocation n, 0)) := by
  intro textureNames
  induction textureNames with
  | nil =>
    intro table
    refine ⟨?_, fun v h => h, ?_⟩
    · simp [SetupTextureBindings]
    · intro hn v hv
      simp only [SetupTextureBindings, List.foldl_nil] at hv
      rw [hn] at hv; cases hv
  | cons x rest ih =>
    intro table
    have hstep : SetupTextureBindings env (x :: rest) table =
        SetupTextureBindings env rest (bindTexture env table x) := rfl
    rw [hstep]
    obtain ⟨ih1, ih2, ih3⟩ := ih (bindTexture env table x)
    refine ⟨?_, ?_, ?_⟩
    · rw [ih1, bindTexture_isSome]
      constructor
      · rintro ((h | ⟨hk, hl⟩) | ⟨n, hn, hk, hl⟩)
        · exact Or.inl h
        · exact Or.inr ⟨x, List.mem_cons_self _ _, hk, hl⟩
        · exact Or.inr ⟨n, List.mem_cons_of_mem _ hn, hk, hl⟩
      · rintro (h | ⟨n, hn, hk, hl⟩)
        · exact Or.inl (Or.inl h)
        · rcases List.mem_cons.1 hn with rfl | hr
          · exact Or.inl (Or.inr ⟨hk, hl⟩)
          · exact Or.inr ⟨n, hr, hk, hl⟩
    · intro v hv
      apply ih2
      rcases bindTexture_find env table x k with he | ⟨hn, _, _, _⟩
      · rw [he]; exact hv
      · rw [hn] at hv; cases hv
    · intro hn v hv
      rcases bindTexture_find env table x k with he | ⟨_, hk, hl, hnew⟩
      · obtain ⟨n, hmem, h1, h2, h3⟩ := ih3 (he ▸ hn) v hv
        exact ⟨n, List.mem_cons_of_mem _ hmem, h1, h2, h3⟩
      · have := ih2 _ hnew
        rw [this] at hv
        cases hv
        exact ⟨x, List.mem_cons_self _ _, hk, hl, rfl⟩

/-- C15. For every list of sampler names passed to `SetupTextureBindings` and every key:
afterwards the table has the key if and only if it had it before or it is the hash of a
name of the list for which the driver reports a location above -1; an entry that was
there before is unchanged; an entry that is new carries the location of such a name and
the texture handle 0. The function has no failure path, so a name without an active
location is dropped without failure. -/
theorem texture_bindings_spec (env : ReflectionEnv) (textureNames : List (List Char))
    (table : KeyMap (Int × Nat)) (k : Nat) :
    ((KeyMap.find k (SetupTextureBindings env textureNames table)).isSome = true ↔
      (KeyMap.find k table).isSome = true ∨
        ∃ n ∈ textureNames, env.HashCString n = k ∧ env.glGetUniformLocation n > -1) ∧
    (∀ v, KeyMap.find k table = some v →
      KeyMap.find k (SetupTextureBindings env textureNames table) = some v) ∧
    (KeyMap.find k table = none →
      ∀ v, KeyMap.find k (SetupTextureBindings env textureNames table) = some v →
        ∃ n ∈ textureNames, env.HashCString n = k ∧ env.glGetUniformLocation n > -1 ∧
          v = (env.glGetUniformLocation n, 0)) :=
  setupTextureBindings_spec env k textureNames table

/-- C15 (witness). With the sample driver, the names `u_Colortex` (location 3) and
`u_Unused` (no location) on a table that has the key 4: the key 4 keeps its entry, the
hash 10 of `u_Colortex` gets the entry (3, 0), and the hash 8 of `u_Unused` gets none. -/
theorem texture_bindings_spec_witness :
    SetupTextureBindings sampleReflectionEnv ["u_Colortex".toList, "u_Unused".toList]
        [(4, (6, 9))] = [(4, (6, 9)), (10, (3, 0))] ∧
    KeyMap.find 4 (SetupTextureBindings sampleReflectionEnv
        ["u_Colortex".toList, "u_Unused".toList] [(4, (6, 9))]) = some (6, 9) :=
  ⟨by decide,
    (texture_bindings_spec sampleReflectionEnv ["u_Colortex".toList, "u_Unused".toList]
      [(4, (6, 9))] 4).2.1 (6, 9) (by decide)⟩

/-! ## Render -/

theorem except_bind_ok {ε α β : Type} (x : Except ε α) (f : α → Except ε β) (b : β) :
    (x >>= f) = Except.ok b ↔ ∃ a, x = Except.ok a ∧ f a = Except.ok b := by
  cases x with
  | error e =>
    constructor
    · intro h; cases h
    · rintro ⟨a, ha, _⟩; cases ha
  | ok a =>
    constructor
    · intro h; exact ⟨a, rfl, h⟩
    · rintro ⟨a1, ha, hf⟩
      cases ha
      exact hf

theorem withProgram_frame (s : RenderState) (slot : ProgramSlot) (p : GLProgram) :
    (s.withProgram slot p).gl = s.gl ∧ (s.withProgram slot p).draws = s.draws ∧
      (s.withProgram slot p).m_currentProgram = s.m_currentProgram := by
  cases slot <;> exact ⟨rfl, rfl, rfl⟩

theorem programSetTexture_frame (env : RenderEnv) (slot : ProgramSlot) (name : String)
    (textureObject : Nat) (s : RenderState) :
    (programSetTexture env slot name textureObject s).gl = s.gl ∧
      (programSetTexture env slot name textureObject s).draws = s.draws ∧
      (programSetTexture env slot name textureObject s).m_currentProgram =
        s.m_currentProgram :=
  withProgram_frame s slot _

theorem programSetShaderConstant_ok (env : RenderEnv) (slot : ProgramSlot) (name : String)
    (s s1 : RenderState) (h : programSetShaderConstant env slot name s = Except.ok s1) :
    s1 = s := by
  unfold programSetShaderConstant at h
  cases hc : (s.program slot).SetShaderConstant env (env.HashCString name.toList) with
  | error f => rw [hc] at h; cases h
  | ok u => rw [hc] at h; cases h; rfl

theorem currentSetShaderConstant_ok (env : RenderEnv) (name : String)
    (s s1 : RenderState) (h : currentSetShaderConstant env name s = Except.ok s1) :
    s1 = s := by
  unfold currentSetShaderConstant at h
  cases hc : s.m_currentProgram with
  | none => rw [hc] at h; cases h
  | some slot =>
    rw [hc] at h
    exact programSetShaderConstant_ok env slot name s s1 h

theorem SetShaderProgram_ok (env : RenderEnv) (slot : ProgramSlot) (s s1 : RenderState)
    (h : SetShaderProgram env slot s = Except.ok s1) :
    s1 = { s with m_currentProgram := some slot } := by
  unfold SetShaderProgram at h
  cases hc : (s.program slot).SetActive env with
  | error f => rw [hc] at h; cases h
  | ok u => rw [hc] at h; cases h; rfl

theorem SetTexturesForFullScreenPass_ok (env : RenderEnv) (renderer : GLRenderer)
    (s s1 : RenderState) (h : SetTexturesForFullScreenPass env renderer s = Except.ok s1) :
    s1.gl = s.gl ∧ s1.draws = s.draws ∧ s1.m_currentProgram = s.m_currentProgram := by
  unfold SetTexturesForFullScreenPass at h
  cases hc : s.m_currentProgram with
  | none => rw [hc] at h; cases h
  | some slot =>
    rw [hc] at h
    cases h
    simp only [programSetTexture_frame, hc, and_self]

theorem DrawGeometry_ok (env : RenderEnv) (geom : DrawableGeometry) (s s1 : RenderState)
    (h : DrawGeometry env geom s = Except.ok s1) :
    ∃ slot, s.m_currentProgram = some slot ∧
      s1.m_currentProgram = some slot ∧
      s1.gl = { s.gl with vertexArray := geom.vertex_array } ∧
      s1.draws = s.draws ++
        [{ num_indices := geom.num_indices
           program := slot
           textures := (s.program slot).CommitTextureBindings
           gl := { s.gl with vertexArray := geom.vertex_array } }] := by
  unfold DrawGeometry at h
  cases hc : s.m_currentProgram with
  | none => rw [hc] at h; cases h
  | some slot =>
    rw [hc] at h
    cases hm : (s.program slot).CommitConstantBufferChanges env with
    | error f =>
      simp only [hm] at h
      cases h
    | ok u =>
      simp only [hm] at h
      cases h
      exact ⟨slot, rfl, hc, rfl, rfl⟩

theorem quad_pass_tail (env : RenderEnv) (renderer : GLRenderer) (slot : ProgramSlot)
    (s b c : RenderState) (hcur : b.m_currentProgram = some slot) (hgl : b.gl = s.gl)
    (hdraws : b.draws = s.draws)
    (hc : RenderQuad env renderer (glDepthMask false b) = Except.ok c) :
    QuadDrawn renderer slot s (glDepthMask true c) := by
  obtain ⟨slot1, hs, hs1, hg, hd⟩ := DrawGeometry_ok _ _ _ _ hc
  have hs2 : b.m_currentProgram = some slot1 := hs
  rw [hcur] at hs2
  cases hs2
  refine ⟨((glDepthMask false b).program slot).CommitTextureBindings, ?_, ?_, ?_⟩
  · exact hs1
  · show ({ c.gl with depthMask := true } : GLState) = _
    rw [hg]
    show ({ ({ ({ b.gl with depthMask := false } : GLState) with
        vertexArray := renderer.m_QuadGeometry.vertex_array } : GLState) with
        depthMask := true } : GLState) = _
    rw [hgl]
  · show c.draws = _
    rw [hd]
    show b.draws ++ [({ num_indices := renderer.m_QuadGeometry.num_indices
                        program := slot
                        textures := ((glDepthMask false b).program slot).CommitTextureBindings
                        gl := { ({ b.gl with depthMask := false } : GLState) with
                          vertexArray := renderer.m_QuadGeometry.vertex_array } } :
                      DrawRecord)] = _
    rw [hgl, hdraws]

theorem RenderFramebuffers_ok (env : RenderEnv) (renderer : GLRenderer) (s s1 : RenderState)
    (h : RenderFramebuffers env renderer s = Except.ok s1) :
    QuadDrawn renderer ProgramSlot.m_diagnosticProg s s1 := by
  unfold RenderFramebuffers at h
  obtain ⟨a, ha, h⟩ := (except_bind_ok _ _ _).1 h
  obtain ⟨b, hb, h⟩ := (except_bind_ok _ _ _).1 h
  obtain ⟨c, hc, h⟩ := (except_bind_ok _ _ _).1 h
  cases h
  have ha1 := SetShaderProgram_ok _ _ _ _ ha
  obtain ⟨hb1, hb2, hb3⟩ := SetTexturesForFullScreenPass_ok _ _ _ _ hb
  subst ha1
  refine quad_pass_tail env renderer _ s _ c ?_ ?_ ?_ hc
  · rw [(programSetTexture_frame _ _ _ _ _).2.2, hb3]
  · rw [(programSetTexture_frame _ _ _ _ _).1, hb1]
  · rw [(programSetTexture_frame _ _ _ _ _).2.1, hb2]

theorem RenderPostProcessEffects_ok (env : RenderEnv) (renderer : GLRenderer)
    (s s1 : RenderState) (h : RenderPostProcessEffects env renderer s = Except.ok s1) :
    QuadDrawn renderer ProgramSlot.m_postProg s s1 := by
  unfold RenderPostProcessEffects at h
  obtain ⟨a, ha, h⟩ := (except_bind_ok _ _ _).1 h
  obtain ⟨b, hb, h⟩ := (except_bind_ok _ _ _).1 h
  obtain ⟨c, hc, h⟩ := (except_bind_ok _ _ _).1 h
  cases h
  have ha1 := SetShaderProgram_ok _ _ _ _ ha
  obtain ⟨hb1, hb2, hb3⟩ := SetTexturesForFullScreenPass_ok _ _ _ _ hb
  subst ha1
  refine quad_pass_tail env renderer _ s _ c ?_ ?_ ?_ hc
  · rw [(programSetTexture_frame _ _ _ _ _).2.2, hb3]
  · rw [(programSetTexture_frame _ _ _ _ _).1, hb1]
  · rw [(programSetTexture_frame _ _ _ _ _).2.1, hb2]

theorem RenderDirectionalAndAmbientLighting_ok (env : RenderEnv) (renderer : GLRenderer)
    (s s1 : RenderState)
    (h : RenderDirectionalAndAmbientLighting env renderer s = Except.ok s1) :
    QuadDrawn renderer ProgramSlot.m_directionalProg s s1 := by
  unfold RenderDirectionalAndAmbientLighting at h
  obtain ⟨a, ha, h⟩ := (except_bind_ok _ _ _).1 h
  obtain ⟨b, hb, h⟩ := (except_bind_ok _ _ _).1 h
  obtain ⟨b1, hb4, h⟩ := (except_bind_ok _ _ _).1 h
  obtain ⟨b2, hb5, h⟩ := (except_bind_ok _ _ _).1 h
  obtain ⟨c, hc, h⟩ := (except_bind_ok _ _ _).1 h
  cases h
  have ha1 := SetShaderProgram_ok _ _ _ _ ha
  obtain ⟨hb1, hb2, hb3⟩ := SetTexturesForFullScreenPass_ok _ _ _ _ hb
  have h4 := programSetShaderConstant_ok _ _ _ _ _ hb4
  have h5 := programSetShaderConstant_ok _ _ _ _ _ hb5
  subst ha1
  subst h5
  subst h4
  refine quad_pass_tail env renderer _ s _ c ?_ ?_ ?_ hc
  · rw [(programSetTexture_frame _ _ _ _ _).2.2, hb3]
  · rw [(programSetTexture_frame _ _ _ _ _).1, hb1]
  · rw [(programSetTexture_frame _ _ _ _ _).2.1, hb2]

theorem LightingPass_ends_unbound (env : RenderEnv) (renderer : GLRenderer)
    (s s1 : RenderState) (h : LightingPass env renderer s = Except.ok s1) :
    s1.gl.framebuffer = 0 := by
  unfold LightingPass at h
  obtain ⟨a, _, h⟩ := (except_bind_ok _ _ _).1 h
  obtain ⟨b, _, h⟩ := (except_bind_ok _ _ _).1 h
  obtain ⟨c, _, h⟩ := (except_bind_ok _ _ _).1 h
  cases h
  rfl

theorem PostProcessPass_ok (env : RenderEnv) (renderer : GLRenderer) (s s1 : RenderState)
    (h : PostProcessPass env renderer s = Except.ok s1) :
    ∃ textures,
      s1.draws = s.draws ++
        [{ num_indices := renderer.m_QuadGeometry.num_indices
           program :=
             if renderer.m_displayType ≠ env.DISPLAY_TOTAL then ProgramSlot.m_diagnosticProg
             else ProgramSlot.m_postProg
           textures := textures
           gl :=
             { s.gl with
               depthTest := false, depthMask := false,
               vertexArray := renderer.m_QuadGeometry.vertex_array } }] ∧
      s1.gl =
        { s.gl with
          depthTest := true, depthMask := true,
          vertexArray := renderer.m_QuadGeometry.vertex_array } := by
  unfold PostProcessPass at h
  cases ha : (if renderer.m_displayType ≠ env.DISPLAY_TOTAL then
      RenderFramebuffers env renderer (glDisable Capability.GL_DEPTH_TEST (ClearFramebuffer s))
    else
      RenderPostProcessEffects env renderer
        (glDisable Capability.GL_DEPTH_TEST (ClearFramebuffer s))) with
  | error f =>
    simp only [ha] at h
    cases h
  | ok a =>
    simp only [ha] at h
    cases h
    by_cases hd : renderer.m_displayType ≠ env.DISPLAY_TOTAL
    · rw [if_pos hd] at ha
      rw [if_pos hd]
      obtain ⟨textures, _, hgl, hdraws⟩ := RenderFramebuffers_ok _ _ _ _ ha
      refine ⟨textures, ?_, ?_⟩
      · exact hdraws
      · show ({ a.gl with depthTest := true } : GLState) = _
        rw [hgl]
        rfl
    · rw [if_neg hd] at ha
      rw [if_neg hd]
      obtain ⟨textures, _, hgl, hdraws⟩ := RenderPostProcessEffects_ok _ _ _ _ ha
      refine ⟨textures, ?_, ?_⟩
      · exact hdraws
      · show ({ a.gl with depthTest := true } : GLState) = _
        rw [hgl]
        rfl

/-- C20. For every renderer, every state and both display modes: when `Render` returns,
the post pass has started from a state `mid` (the result of the earlier passes) and has
added exactly one draw call to those of `mid`; it draws the quad geometry (its vertex
array bound, its index count) with the framebuffer 0 bound and the depth test disabled,
with the diagnostic program if the display mode is not `DISPLAY_TOTAL` and with the
post-process program if it is; in the final state the depth test is enabled. -/
theorem post_pass_draws_one_quad (env : RenderEnv) (renderer : GLRenderer)
    (s s1 : RenderState) (h : Render env renderer s = Except.ok s1) :
    ∃ mid d,
      (GBufferPass env renderer (ApplyPerFrameShaderConstants s) >>=
        LightingPass env renderer) = Except.ok mid ∧
      PostProcessPass env renderer mid = Except.ok s1 ∧
      s1.draws = mid.draws ++ [d] ∧
      d.gl.vertexArray = renderer.m_QuadGeometry.vertex_array ∧
      d.num_indices = renderer.m_QuadGeometry.num_indices ∧
      d.gl.framebuffer = 0 ∧
      d.gl.depthTest = false ∧
      d.program =
        (if renderer.m_displayType ≠ env.DISPLAY_TOTAL then ProgramSlot.m_diagnosticProg
         else ProgramSlot.m_postProg) ∧
      s1.gl.depthTest = true := by
  unfold Render at h
  obtain ⟨a, ha, h⟩ := (except_bind_ok _ _ _).1 h
  obtain ⟨mid, hmid, h⟩ := (except_bind_ok _ _ _).1 h
  have hfb := LightingPass_ends_unbound _ _ _ _ hmid
  obtain ⟨textures, hdraws, hgl⟩ := PostProcessPass_ok _ _ _ _ h
  refine ⟨mid, _, ?_, h, hdraws, rfl, rfl, hfb, rfl, rfl, ?_⟩
  · exact (except_bind_ok _ _ _).2 ⟨a, ha, hmid⟩
  · rw [hgl]

/-- C20 (witness). One frame of the sample renderer in a display mode other than
`DISPLAY_TOTAL` returns the state `sampleDiagnosticFrame`, whose last draw call is the
quad drawn by the diagnostic program. -/
theorem post_pass_draws_one_quad_witness :
    Render sampleRenderEnv (sampleRenderer 2) sampleRenderState =
      Except.ok sampleDiagnosticFrame ∧
    ∃ mid d,
      (GBufferPass sampleRenderEnv (sampleRenderer 2)
          (ApplyPerFrameShaderConstants sampleRenderState) >>=
        LightingPass sampleRenderEnv (sampleRenderer 2)) = Except.ok mid ∧
      PostProcessPass sampleRenderEnv (sampleRenderer 2) mid =
        Except.ok sampleDiagnosticFrame ∧
      sampleDiagnosticFrame.draws = mid.draws ++ [d] ∧
      d.gl.vertexArray = (sampleRenderer 2).m_QuadGeometry.vertex_array ∧
      d.num_indices = (sampleRenderer 2).m_QuadGeometry.num_indices ∧
      d.gl.framebuffer = 0 ∧
      d.gl.depthTest = false ∧
      d.program =
        (if (sampleRenderer 2).m_displayType ≠ sampleRenderEnv.DISPLAY_TOTAL then
          ProgramSlot.m_diagnosticProg
         else ProgramSlot.m_postProg) ∧
      sampleDiagnosticFrame.gl.depthTest = true :=
  ⟨by decide!,
    post_pass_draws_one_quad sampleRenderEnv (sampleRenderer 2) sampleRenderState
      sampleDiagnosticFrame (by decide!)⟩

theorem render_total_sample :
    Render sampleRenderEnv (sampleRenderer 0) sampleRenderState =
      Except.ok sampleTotalFrame := by
  decide!

/-! ## SetTexture -/

theorem setTextureObject_keys (h t : Nat) : ∀ (table : KeyMap (Int × Nat)),
    (setTextureObject h t table).map Prod.fst = table.map Prod.fst ∧
      (setTextureObject h t table).map (fun e => e.2.1) = table.map (fun e => e.2.1) ∧
      (setTextureObject h t table).filter (fun e => decide (e.1 ≠ h)) =
        table.filter (fun e => decide (e.1 ≠ h)) := by
  intro table
  induction table with
  | nil => exact ⟨rfl, rfl, rfl⟩
  | cons e rest ih =>
    obtain ⟨k, v⟩ := e
    obtain ⟨ih1, ih2, ih3⟩ := ih
    unfold setTextureObject
    by_cases hk : k = h
    · rw [if_pos hk]
      refine ⟨rfl, rfl, ?_⟩
      simp [List.filter_cons, hk]
    · rw [if_neg hk]
      refine ⟨?_, ?_, ?_⟩
      · simp only [List.map_cons, ih1]
      · simp only [List.map_cons, ih2]
      · simp only [List.filter_cons, ih3]

theorem setTextureObject_find (h t : Nat) : ∀ (table : KeyMap (Int × Nat)) (k : Nat),
    KeyMap.find k (setTextureObject h t table) =
      if k = h then (KeyMap.find h table).map (fun v => (v.1, t)) else KeyMap.find k table := by
  intro table
  induction table with
  | nil =>
    intro k
    by_cases hk : k = h
    · rw [if_pos hk]; rfl
    · rw [if_neg hk]; rfl
  | cons e rest ih =>
    obtain ⟨k1, v⟩ := e
    intro k
    unfold setTextureObject
    by_cases h1 : k1 = h
    · rw [if_pos h1]
      by_cases hk : k = h
      · rw [if_pos hk]
        have e1 : k1 = k := by rw [h1, hk]
        simp only [KeyMap.find, if_pos e1, if_pos h1]
        rfl
      · rw [if_neg hk]
        have e1 : ¬ (k1 = k) := by rw [h1]; exact fun e => hk e.symm
        simp only [KeyMap.find, if_neg e1]
    · rw [if_neg h1]
      by_cases hk : k = h
      · rw [if_pos hk]
        have e1 : ¬ (k1 = k) := by rw [hk]; exact h1
        simp only [KeyMap.find, if_neg e1, if_neg h1]
        rw [ih k, if_pos hk]
      · rw [if_neg hk]
        by_cases e1 : k1 = k
        · simp only [KeyMap.find, if_pos e1]
        · simp only [KeyMap.find, if_neg e1]
          rw [ih k, if_neg hk]

/-- C23. `GLProgram::SetTexture(handle, texture)` leaves the constant map and the
bind-point map of the program as they are; in the texture-binding table it keeps the
keys and the bind slots of all entries, in order, and every entry whose key is not
`handle`; an entry found under `handle` keeps its bind slot and gets `texture` as its
current texture, and the entry found under any other key is the one found before; when no
entry has the key `handle` the program is unchanged. The function has no failure
path. -/
theorem set_texture_changes_one_field (p : GLProgram) (handle texture : Nat) :
    (p.SetTexture handle texture).m_shaderConstantToConstantBufferBindingMap =
      p.m_shaderConstantToConstantBufferBindingMap ∧
    (p.SetTexture handle texture).m_constantBufferBindIndicesMap =
      p.m_constantBufferBindIndicesMap ∧
    (p.SetTexture handle texture).m_textureBindIndicesMap.map Prod.fst =
      p.m_textureBindIndicesMap.map Prod.fst ∧
    (p.SetTexture handle texture).m_textureBindIndicesMap.map (fun e => e.2.1) =
      p.m_textureBindIndicesMap.map (fun e => e.2.1) ∧
    (p.SetTexture handle texture).m_textureBindIndicesMap.filter
        (fun e => decide (e.1 ≠ handle)) =
      p.m_textureBindIndicesMap.filter (fun e => decide (e.1 ≠ handle)) ∧
    (∀ slot old, KeyMap.find handle p.m_textureBindIndicesMap = some (slot, old) →
      KeyMap.find handle (p.SetTexture handle texture).m_textureBindIndicesMap =
        some (slot, texture)) ∧
    (∀ k, k ≠ handle →
      KeyMap.find k (p.SetTexture handle texture).m_textureBindIndicesMap =
        KeyMap.find k p.m_textureBindIndicesMap) ∧
    (KeyMap.find handle p.m_textureBindIndicesMap = none →
      p.SetTexture handle texture = p) := by
  unfold GLProgram.SetTexture
  cases hf : KeyMap.find handle p.m_textureBindIndicesMap with
  | none =>
    refine ⟨rfl, rfl, rfl, rfl, rfl, ?_, fun _ _ => rfl, fun _ => rfl⟩
    intro slot old h
    cases h
  | some v =>
    obtain ⟨h1, h2, h3⟩ := setTextureObject_keys handle texture p.m_textureBindIndicesMap
    refine ⟨rfl, rfl, h1, h2, h3, ?_, ?_, ?_⟩
    · intro slot old h
      cases h
      show KeyMap.find handle (setTextureObject handle texture p.m_textureBindIndicesMap) = _
      rw [setTextureObject_find, if_pos rfl, hf]
      rfl
    · intro k hk
      show KeyMap.find k (setTextureObject handle texture p.m_textureBindIndicesMap) = _
      rw [setTextureObject_find, if_neg hk]
    · intro h
      cases h

/-! ## std140 offsets: the padding -/

theorem exact_padded_smallest (a off : Nat) (ha : 0 < a) :
    SmallestMultipleFrom a off (if a - off % a ≠ a then off + (a - off % a) else off) ∧
      (if a - off % a ≠ a then off + (a - off % a) else off) - off < a := by
  obtain ⟨h1, h2, h3⟩ := exact_padded_spec a off ha
  refine ⟨⟨h1, h2, ?_⟩, by omega⟩
  intro m hm hle
  obtain ⟨q, hq⟩ := Nat.dvd_of_mod_eq_zero hm
  obtain ⟨r, hr⟩ := Nat.dvd_of_mod_eq_zero h1
  rw [hr, hq]
  apply Nat.mul_le_mul_left
  have hlt : a * r < a * (q + 1) := by
    rw [Nat.mul_add, Nat.mul_one, ← hr, ← hq]
    omega
  have := Nat.lt_of_mul_lt_mul_left hlt
  omega

theorem std140Loop_packed (tbl : TypeTable) (hwf : tbl.PositiveAlignments) :
    ∀ (members : List (SupportedTypes × String)) (stdOffset : Nat),
      std140Fits tbl members stdOffset →
      List.Chain'
          (fun s s2 =>
            SmallestMultipleFrom (tbl.GetAlignmentForType s2.type)
                (s.offset + tbl.GetSizeForType s.type) s2.offset ∧
              s2.offset - (s.offset + tbl.GetSizeForType s.type) <
                tbl.GetAlignmentForType s2.type)
          (std140Loop tbl members stdOffset) ∧
        ∀ s ∈ (std140Loop tbl members stdOffset).head?,
          SmallestMultipleFrom (tbl.GetAlignmentForType s.type) stdOffset s.offset ∧
            s.offset - stdOffset < tbl.GetAlignmentForType s.type := by
  intro members
  induction members with
  | nil =>
    intro off _
    simp [std140Loop]
  | cons m rest ih =>
    obtain ⟨ty, nm⟩ := m
    intro off hfit
    simp only [std140Fits] at hfit
    obtain ⟨hlt, hrest⟩ := hfit
    have ha := hwf ty
    have hsp := exact_padded_smallest (tbl.GetAlignmentForType ty) off ha
    have hpo := paddedOffset_exact (tbl.GetAlignmentForType ty) off (by omega)
    have hadv : advanceOffset (paddedOffset (tbl.GetAlignmentForType ty) off)
        (tbl.GetSizeForType ty) =
        (if tbl.GetAlignmentForType ty - off % tbl.GetAlignmentForType ty ≠
            tbl.GetAlignmentForType ty
          then off + (tbl.GetAlignmentForType ty - off % tbl.GetAlignmentForType ty)
          else off) + tbl.GetSizeForType ty := by
      rw [hpo]; exact Nat.mod_eq_of_lt hlt
    obtain ⟨hch, hhd⟩ := ih _ hrest
    simp only [std140Loop]
    rw [hadv]
    refine ⟨?_, ?_⟩
    · rw [List.chain'_cons']
      refine ⟨?_, hch⟩
      intro s hs
      have := hhd s hs
      simp only
      rw [hpo]; exact this
    · intro s hs
      simp only [List.head?_cons, Option.mem_def, Option.some.injEq] at hs
      subst hs
      simp only
      rw [hpo]; exact hsp

/-- C24 (as amended). In the std140 branch, for every sequence of block members and every
type table with positive alignments, provided no `uint32_t` addition of the loop wraps
around: the first member is at offset 0, and every member after the first is at the
smallest multiple of its alignment that is greater than or equal to the end (offset plus
size of the type) of the member before it, with a padding strictly less than its
alignment. -/
theorem std140_offsets_tightly_packed (tbl : TypeTable) (hwf : tbl.PositiveAlignments)
    (members : List (SupportedTypes × String)) (hfit : std140Fits tbl members 0) :
    TightlyPacked tbl (std140Signature tbl members) := by
  obtain ⟨hch, hhd⟩ := std140Loop_packed tbl hwf members 0 hfit
  refine ⟨?_, hch⟩
  intro s hs
  obtain ⟨⟨_, _, hmin⟩, _⟩ := hhd s hs
  have := hmin 0 (Nat.zero_mod _) (le_refl 0)
  omega

/-- C24 (witness). The amended statement at the block `float ufFar; mat4 um4View;
vec3 uf3Colour; float ufNear;` with the sample table (offsets 0, 16, 80, 92). -/
theorem std140_offsets_tightly_packed_witness :
    std140Table.PositiveAlignments ∧
      std140Fits std140Table
        [(SupportedTypes.FLOAT, "ufFar"), (SupportedTypes.MAT4, "um4View"),
          (SupportedTypes.VEC3, "uf3Colour"), (SupportedTypes.FLOAT, "ufNear")] 0 ∧
      (std140Signature std140Table
        [(SupportedTypes.FLOAT, "ufFar"), (SupportedTypes.MAT4, "um4View"),
          (SupportedTypes.VEC3, "uf3Colour"), (SupportedTypes.FLOAT, "ufNear")]).map
          (fun s => s.offset) = [0, 16, 80, 92] ∧
      TightlyPacked std140Table
        (std140Signature std140Table
          [(SupportedTypes.FLOAT, "ufFar"), (SupportedTypes.MAT4, "um4View"),
            (SupportedTypes.VEC3, "uf3Colour"), (SupportedTypes.FLOAT, "ufNear")]) :=
  ⟨by intro t; cases t <;> decide, by decide, by decide,
    std140_offsets_tightly_packed std140Table (by intro t; cases t <;> decide) _
      (by decide)⟩

/-- C24 (counterexample). With the std140 table and a block of 67108864 `mat4` members
followed by one `float`, the last `mat4` is at offset 4294967232 and ends at 2^32, where
the running `uint32_t` offset wraps around to 0: the `float` gets the offset 0, which is
not greater than or equal to the end of the member before it. -/
theorem std140_padding_wrap_counterexample :
    std140Table.PositiveAlignments ∧
      (std140Signature std140Table
          (List.replicate 67108864 (SupportedTypes.MAT4, "m") ++
            [(SupportedTypes.FLOAT, "f")])).drop 67108863 =
        [{ name := "m", type := SupportedTypes.MAT4, offset := 4294967232, size := 1 },
          { name := "f", type := SupportedTypes.FLOAT, offset := 0, size := 1 }] ∧
      ¬ TightlyPacked std140Table
        (std140Signature std140Table
          (List.replicate 67108864 (SupportedTypes.MAT4, "m") ++
            [(SupportedTypes.FLOAT, "f")])) := by
  have hsplit : List.replicate 67108864 (SupportedTypes.MAT4, "m") ++
        [(SupportedTypes.FLOAT, "f")] =
      List.replicate 67108863 (SupportedTypes.MAT4, "m") ++
        [(SupportedTypes.MAT4, "m"), (SupportedTypes.FLOAT, "f")] := by
    rw [show (67108864 : Nat) = 67108863 + 1 from rfl, List.replicate_add,
      List.append_assoc]
    rfl
  have htail : std140Loop std140Table
      [(SupportedTypes.MAT4, "m"), (SupportedTypes.FLOAT, "f")]
      ((0 + 64 * 67108863) % UINT32_MOD) =
      [{ name := "m", type := SupportedTypes.MAT4, offset := 4294967232, size := 1 },
        { name := "f", type := SupportedTypes.FLOAT, offset := 0, size := 1 }] := by
    decide
  have hloop := std140Loop_replicate_mat4 "m"
    [(SupportedTypes.MAT4, "m"), (SupportedTypes.FLOAT, "f")] 67108863 0 (by decide)
    (by decide)
  rw [htail] at hloop
  refine ⟨by intro t; cases t <;> decide, ?_, ?_⟩
  · unfold std140Signature
    rw [hsplit, hloop]
    rw [List.drop_append_of_le_length (by rw [std140Loop_length, List.length_replicate])]
    rw [List.drop_of_length_le (by rw [std140Loop_length, List.length_replicate])]
    rfl
  · unfold std140Signature TightlyPacked
    rw [hsplit, hloop]
    rintro ⟨_, hch⟩
    have h2 := List.Chain'.right_of_append hch
    rw [List.chain'_pair] at h2
    obtain ⟨⟨_, hle, _⟩, _⟩ := h2
    exact absurd hle (by decide)

/-! ## The tokenizer -/

theorem tokenizerLoop_runs : ∀ (rest newToken : List Char) (tokenList : List (List Char)),
    tokenizerLoop rest newToken tokenList =
      tokenList ++
        (((rest.splitOnP isBlank).modifyHead (fun t => newToken ++ t)).dropLast).filter
          (fun t => !t.isEmpty) := by
  intro rest
  induction rest with
  | nil =>
    intro newToken tokenList
    simp [tokenizerLoop, List.splitOnP_nil, List.modifyHead]
  | cons itr rest ih =>
    intro newToken tokenList
    obtain ⟨hd, tl, hsplit⟩ : ∃ hd tl, rest.splitOnP isBlank = hd :: tl := by
      cases hs : rest.splitOnP isBlank with
      | nil => exact absurd hs (List.splitOnP_ne_nil _ _)
      | cons hd tl => exact ⟨hd, tl, rfl⟩
    unfold tokenizerLoop
    rw [List.splitOnP_cons]
    by_cases hb : isBlank itr = true
    · rw [if_pos hb, if_pos hb]
      by_cases hn : newToken.length ≠ 0
      · rw [if_pos hn, ih, hsplit]
        have hne : newToken.isEmpty = false := by
          cases newToken with
          | nil => exact absurd rfl hn
          | cons c cs => rfl
        simp [List.modifyHead, List.dropLast, hne]
      · rw [if_neg hn, ih, hsplit]
        have he : newToken = [] := by
          cases newToken with
          | nil => rfl
          | cons c cs => exact absurd (by simp) hn
        subst he
        simp [List.modifyHead, List.dropLast]
    · rw [if_neg hb, if_neg hb, ih, hsplit]
      simp [List.modifyHead]

theorem splitOnP_no_blank : ∀ (s : List Char), ∀ seg ∈ s.splitOnP isBlank,
    ∀ c ∈ seg, isBlank c = false := by
  intro s
  induction s with
  | nil =>
    intro seg hseg c hc
    rw [List.splitOnP_nil] at hseg
    simp only [List.mem_singleton] at hseg
    subst hseg
    cases hc
  | cons x rest ih =>
    intro seg hseg c hc
    rw [List.splitOnP_cons] at hseg
    by_cases hb : isBlank x = true
    · rw [if_pos hb] at hseg
      rcases List.mem_cons.1 hseg with h | h
      · subst h; cases hc
      · exact ih seg h c hc
    · rw [if_neg hb] at hseg
      cases hs : rest.splitOnP isBlank with
      | nil => exact absurd hs (List.splitOnP_ne_nil _ _)
      | cons hd tl =>
        rw [hs] at hseg ih
        simp only [List.modifyHead, List.mem_cons] at hseg
        rcases hseg with h | h
        · subst h
          rcases List.mem_cons.1 hc with h1 | h1
          · subst h1; simpa using hb
          · exact ih hd (List.mem_cons_self _ _) c h1
        · exact ih seg (List.mem_cons_of_mem _ h) c hc

theorem tokenizerLoop_final_run (run : List Char) (hrun : ∀ c ∈ run, isBlank c = false) :
    ∀ (pre newToken : List Char) (tokenList : List (List Char)),
      tokenizerLoop (pre ++ run) newToken tokenList = tokenizerLoop pre newToken tokenList := by
  have hbase : ∀ (r newToken : List Char) (tokenList : List (List Char)),
      (∀ c ∈ r, isBlank c = false) → tokenizerLoop r newToken tokenList = tokenList := by
    intro r
    induction r with
    | nil => intro _ _ _; rfl
    | cons c cs ih =>
      intro newToken tokenList h
      unfold tokenizerLoop
      have hc : ¬ (isBlank c = true) := by
        rw [h c (List.mem_cons_self _ _)]; exact Bool.false_ne_true
      rw [if_neg hc]
      exact ih _ _ (fun d hd => h d (List.mem_cons_of_mem _ hd))
  intro pre
  induction pre with
  | nil =>
    intro newToken tokenList
    rw [List.nil_append, hbase run newToken tokenList hrun]
    rfl
  | cons x rest ih =>
    intro newToken tokenList
    rw [List.cons_append]
    unfold tokenizerLoop
    simp only [ih]

theorem tokenizerLoop_flatten (b : Char) (hb : isBlank b = true) :
    ∀ (s newToken : List Char) (tokenList : List (List Char)),
      (tokenizerLoop (s ++ [b]) newToken tokenList).flatten =
        tokenList.flatten ++ newToken ++ s.filter (fun c => !isBlank c) := by
  intro s
  induction s with
  | nil =>
    intro newToken tokenList
    rw [List.nil_append]
    unfold tokenizerLoop
    rw [if_pos hb]
    by_cases hn : newToken.length ≠ 0
    · rw [if_pos hn]
      simp [tokenizerLoop]
    · rw [if_neg hn]
      have he : newToken = [] := by
        cases newToken with
        | nil => rfl
        | cons c cs => exact absurd (by simp) hn
      subst he
      simp [tokenizerLoop]
  | cons x rest ih =>
    intro newToken tokenList
    rw [List.cons_append]
    unfold tokenizerLoop
    by_cases hx : isBlank x = true
    · rw [if_pos hx]
      by_cases hn : newToken.length ≠ 0
      · rw [if_pos hn, ih]
        simp [hx]
      · rw [if_neg hn, ih]
        simp [hx]
    · rw [if_neg hx, ih]
      have hx1 : isBlank x = false := by simpa using hx
      simp [hx1]

/-- C25. For every source string the tokens returned by the static tokenizer are, in
source order, the maximal runs of non-whitespace characters that a whitespace character
follows; no token is empty and no token contains a whitespace character; a run without
whitespace appended to the end of any source adds no token; and for a source that ends
in a whitespace character the concatenation of the tokens is the source without its
whitespace characters. -/
theorem tokenizer_returns_runs (sourceString : List Char) :
    tokenizer sourceString = runsFollowedByBlank sourceString ∧
    (∀ t ∈ tokenizer sourceString, t ≠ [] ∧ ∀ c ∈ t, isBlank c = false) ∧
    (∀ run, (∀ c ∈ run, isBlank c = false) →
      tokenizer (sourceString ++ run) = tokenizer sourceString) ∧
    (∀ b, isBlank b = true →
      (tokenizer (sourceString ++ [b])).flatten =
        (sourceString ++ [b]).filter (fun c => !isBlank c)) := by
  have h1 : tokenizer sourceString = runsFollowedByBlank sourceString := by
    unfold tokenizer runsFollowedByBlank
    rw [tokenizerLoop_runs]
    cases hs : sourceString.splitOnP isBlank with
    | nil => exact absurd hs (List.splitOnP_ne_nil _ _)
    | cons hd tl => simp [List.modifyHead]
  refine ⟨h1, ?_, ?_, ?_⟩
  · intro t ht
    rw [h1] at ht
    unfold runsFollowedByBlank at ht
    rw [List.mem_filter] at ht
    obtain ⟨hmem, hne⟩ := ht
    refine ⟨?_, ?_⟩
    · intro he
      subst he
      simp at hne
    · exact splitOnP_no_blank sourceString t (List.mem_of_mem_dropLast hmem)
  · intro run hrun
    exact tokenizerLoop_final_run run hrun sourceString [] []
  · intro b hb
    unfold tokenizer
    rw [tokenizerLoop_flatten b hb]
    simp [List.filter_append, hb]

/-- C25 (sample). The source `ab  cd`, a line feed, `ef`: the two runs that whitespace
follows are the tokens, the final run `ef` is not. -/
theorem tokenizer_returns_runs_sample :
    tokenizer "ab  cd\nef".toList = ["ab".toList, "cd".toList] ∧
    runsFollowedByBlank "ab  cd\nef".toList = ["ab".toList, "cd".toList] :=
  ⟨by decide, (tokenizer_returns_runs "ab  cd\nef".toList).1 ▸ by decide⟩

/-! ## Include resolution: the replaced span -/

theorem findStr_some_startsWith (pat : List Char) : ∀ (s : List Char) (p : Nat),
    findStr pat s = some p → startsWith pat (s.drop p) = true := by
  intro s
  induction s with
  | nil =>
    intro p h
    unfold findStr at h
    by_cases hs : startsWith pat [] = true
    · rw [if_pos hs] at h
      cases h
      exact hs
    · rw [if_neg hs] at h
      cases h
  | cons c cs ih =>
    intro p h
    unfold findStr at h
    by_cases hs : startsWith pat (c :: cs) = true
    · rw [if_pos hs] at h
      cases h
      exact hs
    · rw [if_neg hs] at h
      cases hf : findStr pat cs with
      | none => rw [hf] at h; cases h
      | some i =>
        rw [hf] at h
        cases h
        exact ih i hf

theorem findChar_some (ch : Char) : ∀ (l : List Char) (i : Nat), findChar ch l = some i →
    ∃ pre post, l = pre ++ ch :: post ∧ pre.length = i := by
  intro l
  induction l with
  | nil => intro i h; cases h
  | cons c cs ih =>
    intro i h
    unfold findChar at h
    by_cases hc : c = ch
    · rw [if_pos hc] at h
      cases h
      exact ⟨[], cs, by rw [hc]; rfl, rfl⟩
    · rw [if_neg hc] at h
      cases hf : findChar ch cs with
      | none => rw [hf] at h; cases h
      | some j =>
        rw [hf] at h
        cases h
        obtain ⟨pre, post, hl, hlen⟩ := ih j hf
        exact ⟨c :: pre, post, by rw [hl]; rfl, by simp [hlen]⟩

theorem replaced_span_shape (s : List Char) (p i : Nat) (pre post content : List Char)
    (hdrop : s.drop p = pre ++ '\n' :: post) (hlen : pre.length = i)
    (hne : pre ≠ []) :
    ∃ last,
      s = s.take p ++ substr s p (i + p - p - 1) ++ last :: '\n' :: post ∧
      (substr s p (i + p - p - 1)).length = i + p - p - 1 ∧
      replaceAt s p (i + p - p - 1) content =
        s.take p ++ content ++ last :: '\n' :: post := by
  obtain ⟨body, last, hpre⟩ : ∃ body last, pre = body ++ [last] :=
    ⟨pre.dropLast, pre.getLast hne, (List.dropLast_append_getLast hne).symm⟩
  have hbl : body.length = i - 1 := by
    rw [← hlen, hpre]; simp
  have hi : i + p - p - 1 = body.length := by omega
  have htake : (s.drop p).take body.length = body := by
    rw [hdrop, hpre, List.append_assoc, List.take_left]
  have hdd : s.drop (p + body.length) = last :: '\n' :: post := by
    rw [← List.drop_drop, hdrop, hpre, List.append_assoc, List.drop_left]
    rfl
  refine ⟨last, ?_, ?_, ?_⟩
  · rw [hi]
    unfold substr
    rw [htake]
    have h1 : s = s.take p ++ s.drop p := (List.take_append_drop p s).symm
    rw [List.append_assoc]
    conv_lhs => rw [h1, hdrop, hpre]
    simp
  · rw [hi]
    unfold substr
    rw [htake]
  · unfold replaceAt
    rw [hi, hdd]

theorem preprocessStep_next (loadFile : List Char → Option (List Char))
    (wd s s1 : List Char) (h : preprocessStep loadFile wd s = PreprocessStep.next s1) :
    ∃ p e content headerName last post,
      findStr "#include".toList s = some p ∧
      findCharFrom '\n' s p = some e ∧
      p < e ∧
      loadFile headerName = some content ∧
      s = s.take p ++ substr s p (e - p - 1) ++ last :: '\n' :: post ∧
      (substr s p (e - p - 1)).length = e - p - 1 ∧
      s1 = s.take p ++ content ++ last :: '\n' :: post := by
  unfold preprocessStep at h
  cases hf : findStr "#include".toList s with
  | none => rw [hf] at h; cases h
  | some p =>
    rw [hf] at h
    simp only [] at h
    cases he : findCharFrom '\n' s p with
    | none => rw [he] at h; cases h
    | some e =>
      rw [he] at h
      simp only [] at h
      cases hsb : scanBack s e with
      | none => rw [hsb] at h; cases h
      | some includeNameEnd =>
        rw [hsb] at h
        simp only [] at h
        by_cases h9 : p + 9 > s.length
        · rw [if_pos h9] at h; cases h
        · rw [if_neg h9] at h
          have hstart := findStr_some_startsWith _ s p hf
          unfold findCharFrom at he
          cases hfc : findChar '\n' (s.drop p) with
          | none => rw [hfc] at he; cases he
          | some i =>
            rw [hfc] at he
            simp only [Option.map_some', Option.some.injEq] at he
            obtain ⟨pre, post, hdrop, hlen⟩ := findChar_some '\n' _ i hfc
            have hne : pre ≠ [] := by
              intro hnil
              rw [hnil] at hdrop
              rw [hdrop, include_chars] at hstart
              simp [startsWith] at hstart
            have hi : 0 < i := by
              rw [← hlen]
              exact List.length_pos.2 hne
            subst he
            split at h
            · split_ifs at h with hq
              split at h
              · cases h
              · rename_i content hload
                cases h
                obtain ⟨last, hs, hl, hr⟩ :=
                  replaced_span_shape s p i pre post content hdrop hlen hne
                exact ⟨p, i + p, content, _, last, post, rfl, by simp [findCharFrom, hfc],
                  by omega, hload, hs, hl, hr⟩
            · cases h

theorem scanBack_lf (u v : List Char) (c0 : Char) (h0 : isBlank c0 = false) (k : Nat)
    (hk : k = u.length) :
    scanBack (u ++ c0 :: '\n' :: v) (k + 1) = some k := by
  have e1 : (u ++ c0 :: '\n' :: v).getD (k + 1) (Char.ofNat 0) = '\n' := by
    have := getD_at_length (u ++ [c0]) v '\n' (Char.ofNat 0) (k + 1) (by simp [hk])
    simpa using this
  have e0 : (u ++ c0 :: '\n' :: v).getD k (Char.ofNat 0) = c0 :=
    getD_at_length u _ c0 _ k hk
  have b1 : isBlank '\n' = true := by decide
  rw [scanBack, e1, b1, if_pos rfl]
  cases k with
  | zero => rw [scanBack, e0, h0]; rfl
  | succ j => rw [scanBack, e0, h0]; rfl

theorem lf_find (a name t : List Char) (ha : findStr "#include".toList a = none) :
    findStr "#include".toList (a ++ includeDirective name ++ '\n' :: t) = some a.length := by
  rw [include_chars] at ha ⊢
  have h := findStr_at_append '#' ['i', 'n', 'c', 'l', 'u', 'd', 'e'] (by decide)
    (' ' :: '"' :: name ++ ['"'] ++ '\n' :: t) a ha
  rw [← h]
  simp [includeDirective, include_chars]

theorem lf_end (a name t : List Char) (hn : '\n' ∉ name) :
    findCharFrom '\n' (a ++ includeDirective name ++ '\n' :: t) a.length =
      some (a.length + name.length + 11) := by
  unfold findCharFrom
  have hdrop : (a ++ includeDirective name ++ '\n' :: t).drop a.length =
      includeDirective name ++ '\n' :: t := by
    rw [List.append_assoc, List.drop_left]
  have hmem : '\n' ∉ includeDirective name := by
    simp [includeDirective, include_chars, hn]
  rw [hdrop, findChar_at_append _ _ _ hmem]
  simp only [Option.map_some', includeDirective_length]
  congr 1
  omega

theorem lf_scan (a name t : List Char) :
    scanBack (a ++ includeDirective name ++ '\n' :: t) (a.length + name.length + 11) =
      some (a.length + name.length + 10) := by
  have hsrc : a ++ includeDirective name ++ '\n' :: t =
      (a ++ "#include".toList ++ ' ' :: '"' :: name) ++ '"' :: '\n' :: t := by
    simp [includeDirective]
  rw [hsrc]
  exact scanBack_lf _ t '"' (by decide) _ (by simp [include_chars]; omega)

theorem lf_header (a name t : List Char) :
    substr (a ++ includeDirective name ++ '\n' :: t) (a.length + 9) (name.length + 2) =
      ('"' :: name) ++ ['"'] := by
  have hsrc : a ++ includeDirective name ++ '\n' :: t =
      (a ++ "#include".toList ++ [' ']) ++ ((('"' :: name) ++ ['"']) ++ '\n' :: t) := by
    simp [includeDirective]
  unfold substr
  rw [hsrc, List.drop_left' (by simp [include_chars]), List.take_left' (by simp)]

theorem lf_replace (a name t content : List Char) :
    replaceAt (a ++ includeDirective name ++ '\n' :: t) a.length
      (a.length + name.length + 11 - a.length - 1) content =
      a ++ content ++ '"' :: '\n' :: t := by
  unfold replaceAt
  have hsrc : a ++ includeDirective name ++ '\n' :: t =
      (a ++ "#include".toList ++ ' ' :: '"' :: name) ++ '"' :: '\n' :: t := by
    simp [includeDirective]
  have h1 : (a ++ includeDirective name ++ '\n' :: t).take a.length = a := by
    rw [List.append_assoc, List.take_left]
  have h2 : (a ++ includeDirective name ++ '\n' :: t).drop
      (a.length + (a.length + name.length + 11 - a.length - 1)) = '"' :: '\n' :: t := by
    rw [hsrc, List.drop_left' (by simp [include_chars]; omega)]
  rw [h1, h2]

theorem preprocessStep_lf (loadFile : List Char → Option (List Char))
    (wd a name t : List Char) (ha : findStr "#include".toList a = none)
    (hn : '\n' ∉ name) (hlen : name.length + 2 < SIZE_MOD) :
    preprocessStep loadFile wd (a ++ includeDirective name ++ '\n' :: t) =
      match loadFile (wd ++ name) with
      | some content => PreprocessStep.next (a ++ content ++ '"' :: '\n' :: t)
      | none => PreprocessStep.stop (PreprocessOutcome.loadFailed (wd ++ name)) := by
  have hlen9 : ¬ (a.length + 9 > (a ++ includeDirective name ++ '\n' :: t).length) := by
    simp [includeDirective_length]; omega
  have hsize : (a.length + name.length + 10 + SIZE_MOD - (a.length + 9) + 1) % SIZE_MOD =
      name.length + 2 := by
    unfold SIZE_MOD at hlen ⊢; omega
  have hfirst : findChar '"' (('"' :: name) ++ ['"']) = some 0 := by
    simp [findChar]
  have hlast : findLastChar '"' (('"' :: name) ++ ['"']) = some (name.length + 1) := by
    rw [findLastChar_snoc]; simp
  have hname : substr (('"' :: name) ++ ['"']) (0 + 1) (name.length + 1 - 0 - 1) = name := by
    unfold substr
    simp
  unfold preprocessStep
  rw [lf_find a name t ha]
  simp only []
  rw [lf_end a name t hn]
  simp only []
  rw [lf_scan a name t]
  simp only []
  rw [if_neg hlen9, hsize, lf_header a name t, hfirst, hlast]
  simp only []
  rw [if_pos (by omega), hname]
  cases loadFile (wd ++ name) with
  | none => rfl
  | some content => simp only [lf_replace]

/-- C26. In one iteration of the loop of `PreprocessShaderSource` that replaces a
directive, with `p` the position of `#include` and `e` the position of the next newline:
the source is its first `p` characters, then the `e - p - 1` characters from `p` on, then
one character, then the newline and the rest; the new text has the content of the loaded
file in place of those `e - p - 1` characters and keeps the character before the newline.
Hence a directive `#include "name"` ended by CR LF is replaced exactly, the CR staying,
whereas for one ended by LF alone the closing quote of the header name stays after the
inserted content. -/
theorem include_replaced_span (loadFile : List Char → Option (List Char)) (wd : List Char) :
    (∀ s s1, preprocessStep loadFile wd s = PreprocessStep.next s1 →
      ∃ p e content headerName last post,
        findStr "#include".toList s = some p ∧
        findCharFrom '\n' s p = some e ∧
        p < e ∧
        loadFile headerName = some content ∧
        s = s.take p ++ substr s p (e - p - 1) ++ last :: '\n' :: post ∧
        (substr s p (e - p - 1)).length = e - p - 1 ∧
        s1 = s.take p ++ content ++ last :: '\n' :: post) ∧
    (∀ a name t content, findStr "#include".toList a = none → '\n' ∉ name →
      name.length + 2 < SIZE_MOD → loadFile (wd ++ name) = some content →
      preprocessStep loadFile wd (a ++ includeDirective name ++ '\r' :: '\n' :: t) =
        PreprocessStep.next (a ++ content ++ '\r' :: '\n' :: t)) ∧
    (∀ a name t content, findStr "#include".toList a = none → '\n' ∉ name →
      name.length + 2 < SIZE_MOD → loadFile (wd ++ name) = some content →
      preprocessStep loadFile wd (a ++ includeDirective name ++ '\n' :: t) =
        PreprocessStep.next (a ++ content ++ '"' :: '\n' :: t)) := by
  refine ⟨fun s s1 h => preprocessStep_next loadFile wd s s1 h, ?_, ?_⟩
  · intro a name t content ha hn hlen hload
    have h := preprocessStep_crlf loadFile wd a name t ha hn hlen
    rw [hload] at h
    exact h
  · intro a name t content ha hn hlen hload
    have h := preprocessStep_lf loadFile wd a name t ha hn hlen
    rw [hload] at h
    exact h

/-- C26 (sample). The directive `#include "b.glsl"` ended by LF alone, between `A1` and
`A2`, with the file `sh/b.glsl` holding `B`: the quote stays after `B`. -/
theorem include_replaced_span_sample :
    preprocessStep (filesOf [("sh/b.glsl".toList, "B".toList)]) "sh/".toList
        ("A1\n".toList ++ includeDirective "b.glsl".toList ++ '\n' :: "A2".toList) =
      PreprocessStep.next ("A1\n".toList ++ "B".toList ++ '"' :: '\n' :: "A2".toList) :=
  (include_replaced_span (filesOf [("sh/b.glsl".toList, "B".toList)]) "sh/".toList).2.2
    "A1\n".toList "b.glsl".toList "A2".toList "B".toList (by decide) (by decide)
    (by decide) (by decide)

/-! ## Texture cache: reference counts -/

theorem assign_mem (e : TextureEntry) : ∀ (m : TextureMap), ∀ x ∈ TextureMap.assign e m,
    x = e ∨ x ∈ m := by
  intro m
  induction m with
  | nil =>
    intro x hx
    simp only [TextureMap.assign, List.mem_singleton] at hx
    exact Or.inl hx
  | cons y rest ih =>
    intro x hx
    unfold TextureMap.assign at hx
    by_cases h1 : e.key < y.key
    · rw [if_pos h1] at hx
      rcases List.mem_cons.1 hx with h | h
      · exact Or.inl h
      · exact Or.inr h
    · rw [if_neg h1] at hx
      by_cases h2 : e.key = y.key
      · rw [if_pos h2] at hx
        rcases List.mem_cons.1 hx with h | h
        · exact Or.inl h
        · exact Or.inr (List.mem_cons_of_mem _ h)
      · rw [if_neg h2] at hx
        rcases List.mem_cons.1 hx with h | h
        · exact Or.inr (h ▸ List.mem_cons_self _ _)
        · rcases ih x h with h3 | h3
          · exact Or.inl h3
          · exact Or.inr (List.mem_cons_of_mem _ h3)

theorem acquire_keeps_counts (env : TextureEnv) (texId : Nat) (textureName : String)
    (m m1 : TextureMap) (v bound : Nat) (hb : bound + 1 < UINT32_MOD)
    (hinv : ∀ e ∈ m, 1 ≤ e.refs ∧ e.refs ≤ bound)
    (h : Acquire env texId textureName m = Outcome.returned v m1) :
    ∀ e ∈ m1, 1 ≤ e.refs ∧ e.refs ≤ bound + 1 := by
  unfold Acquire at h
  simp only [] at h
  by_cases hl : textureName.length ≠ 0
  · rw [if_pos hl] at h
    cases hf : TextureMap.lookup (env.HashCString textureName) m with
    | some textureObject =>
      rw [hf] at h
      simp only [Outcome.returned.injEq] at h
      obtain ⟨_, hm⟩ := h
      subst hm
      intro e he
      obtain ⟨x, hx, hxe⟩ := List.mem_map.1 he
      obtain ⟨h1, h2⟩ := hinv x hx
      by_cases hk : x.key = env.HashCString textureName
      · rw [if_pos hk] at hxe
        subst hxe
        have : uint32Inc x.refs = x.refs + 1 := by
          unfold uint32Inc
          exact Nat.mod_eq_of_lt (by omega)
        simp only [this]
        omega
      · rw [if_neg hk] at hxe
        subst hxe
        omega
    | none =>
      rw [hf] at h
      cases hload : LoadImageAndCreateTexture env texId textureName with
      | error f =>
        rw [hload] at h
        cases h
      | ok obj =>
        rw [hload] at h
        simp only [Outcome.returned.injEq] at h
        obtain ⟨_, hm⟩ := h
        subst hm
        intro e he
        rcases assign_mem _ m e he with h1 | h1
        · subst h1
          simp only
          omega
        · have := hinv e h1
          omega
  · rw [if_neg hl] at h
    simp only [Outcome.returned.injEq] at h
    obtain ⟨_, hm⟩ := h
    subst hm
    intro e he
    have := hinv e he
    omega

theorem releaseLoop_keeps_counts (textureObject bound : Nat) (hb : bound < UINT32_MOD) :
    ∀ (post pre m1 : TextureMap),
      (∀ e ∈ pre ++ post, 1 ≤ e.refs ∧ e.refs ≤ bound) →
      releaseLoop textureObject pre post = Outcome.returned () m1 →
      ∀ e ∈ m1, 1 ≤ e.refs ∧ e.refs ≤ bound := by
  intro post
  induction post with
  | nil =>
    intro pre m1 _ h
    cases h
  | cons it post ih =>
    intro pre m1 hinv h
    unfold releaseLoop at h
    by_cases ho : it.object = textureObject
    · rw [if_pos ho] at h
      simp only [Outcome.returned.injEq, true_and] at h
      subst h
      obtain ⟨hit1, hit2⟩ := hinv it (by simp)
      have hdec : uint32Dec it.refs = it.refs - 1 := by
        unfold uint32Dec
        have : it.refs + UINT32_MOD - 1 = (it.refs - 1) + UINT32_MOD := by omega
        rw [this, Nat.add_mod_right]
        exact Nat.mod_eq_of_lt (by omega)
      unfold releaseAt
      simp only [hdec]
      intro e he
      have hmem : ∀ x ∈ pre ++ { it with refs := it.refs - 1 } :: post,
          x = { it with refs := it.refs - 1 } ∨ x ∈ pre ++ it :: post := by
        intro x hx
        rcases List.mem_append.1 hx with h1 | h1
        · exact Or.inr (List.mem_append_left _ h1)
        · rcases List.mem_cons.1 h1 with h2 | h2
          · exact Or.inl h2
          · exact Or.inr (List.mem_append_right _ (List.mem_cons_of_mem _ h2))
      by_cases hz : it.refs - 1 = 0
      · rw [if_pos hz] at he
        unfold TextureMap.eraseKey at he
        obtain ⟨he1, he2⟩ := List.mem_filter.1 he
        rcases hmem e he1 with h1 | h1
        · subst h1
          simp at he2
        · exact hinv e h1
      · rw [if_neg hz] at he
        rcases hmem e he with h1 | h1
        · subst h1
          simp only
          omega
        · exact hinv e h1
    · rw [if_neg ho] at h
      exact ih (pre ++ [it]) m1 (by simpa using hinv) h

theorem runCalls_keeps_counts (env : TextureEnv) : ∀ (calls : List CacheCall)
    (m m1 : TextureMap) (bound : Nat), bound + acquisitions calls < UINT32_MOD →
    (∀ e ∈ m, 1 ≤ e.refs ∧ e.refs ≤ bound) → runCalls env calls m = some m1 →
    ∀ e ∈ m1, 1 ≤ e.refs ∧ e.refs ≤ bound + acquisitions calls := by
  intro calls
  induction calls with
  | nil =>
    intro m m1 bound _ hinv h
    simp only [runCalls, Option.some.injEq] at h
    subst h
    simpa [acquisitions] using hinv
  | cons c rest ih =>
    intro m m1 bound hb hinv h
    cases c with
    | acquire texId textureName =>
      simp only [acquisitions] at hb ⊢
      unfold runCalls at h
      cases ha : Acquire env texId textureName m with
      | aborted f m2 =>
        rw [ha] at h
        cases h
      | returned v m2 =>
        rw [ha] at h
        have h2 := acquire_keeps_counts env texId textureName m m2 v bound (by omega) hinv ha
        have := ih m2 m1 (bound + 1) (by omega) h2 h
        intro e he
        have := this e he
        omega
    | release textureObject =>
      simp only [acquisitions] at hb ⊢
      unfold runCalls at h
      cases hr : Release textureObject m with
      | aborted f m2 =>
        rw [hr] at h
        cases h
      | returned v m2 =>
        rw [hr] at h
        have h2 := releaseLoop_keeps_counts textureObject bound (by omega) m [] m2
          (by simpa using hinv) hr
        exact ih m2 m1 bound hb h2 h

/-- C27. For every sequence of `Acquire` and `Release` calls with fewer than 2^32
`Acquire` calls, run from the empty map, in which no call stops at an assertion: every
entry of the resulting map has a reference count of at least 1 (and at most the number
of `Acquire` calls). -/
theorem cache_counts_at_least_one (env : TextureEnv) (calls : List CacheCall)
    (m : TextureMap) (hcount : acquisitions calls < UINT32_MOD)
    (h : runCalls env calls [] = some m) :
    ∀ e ∈ m, 1 ≤ e.refs ∧ e.refs ≤ acquisitions calls := by
  have := runCalls_keeps_counts env calls [] m 0 (by omega) (by simp) h
  simpa using this

/-- C27 (witness). Three acquisitions of two files and one release, with the decoder that
decodes every file: the two entries left have the counts 1 and 1. -/
theorem cache_counts_at_least_one_witness :
    runCalls decodingEnv
        [CacheCall.acquire 7 "a.png", CacheCall.acquire 8 "a.png",
          CacheCall.acquire 9 "bb.png", CacheCall.release 7] [] =
      some [{ key := 5, object := 7, refs := 1 }, { key := 6, object := 9, refs := 1 }] ∧
    ∀ e ∈ ([{ key := 5, object := 7, refs := 1 }, { key := 6, object := 9, refs := 1 }] :
        TextureMap),
      1 ≤ e.refs ∧
        e.refs ≤ acquisitions
          [CacheCall.acquire 7 "a.png", CacheCall.acquire 8 "a.png",
            CacheCall.acquire 9 "bb.png", CacheCall.release 7] :=
  ⟨by decide,
    cache_counts_at_least_one decodingEnv
      [CacheCall.acquire 7 "a.png", CacheCall.acquire 8 "a.png",
        CacheCall.acquire 9 "bb.png", CacheCall.release 7] _ (by decide) (by decide)⟩

/-! ## Render: the GL state it leaves -/

theorem LightingPass_ends_unblended (env : RenderEnv) (renderer : GLRenderer)
    (s s1 : RenderState) (h : LightingPass env renderer s = Except.ok s1) :
    s1.gl.framebuffer = 0 ∧ s1.gl.blend = false := by
  unfold LightingPass at h
  obtain ⟨a, _, h⟩ := (except_bind_ok _ _ _).1 h
  obtain ⟨b, _, h⟩ := (except_bind_ok _ _ _).1 h
  obtain ⟨c, hc, h⟩ := (except_bind_ok _ _ _).1 h
  cases h
  obtain ⟨_, _, hgl, _⟩ := RenderDirectionalAndAmbientLighting_ok _ _ _ _ hc
  refine ⟨rfl, ?_⟩
  show c.gl.blend = false
  rw [hgl]
  rfl

/-- C28. For every renderer, every state at entry and both display modes: when `Render`
returns, blending is disabled, the depth test is enabled, the depth mask is enabled and
the framebuffer 0 is bound. -/
theorem render_leaves_default_state (env : RenderEnv) (renderer : GLRenderer)
    (s s1 : RenderState) (h : Render env renderer s = Except.ok s1) :
    s1.gl.blend = false ∧ s1.gl.depthTest = true ∧ s1.gl.depthMask = true ∧
      s1.gl.framebuffer = 0 := by
  unfold Render at h
  obtain ⟨a, _, h⟩ := (except_bind_ok _ _ _).1 h
  obtain ⟨mid, hmid, h⟩ := (except_bind_ok _ _ _).1 h
  obtain ⟨hfb, hbl⟩ := LightingPass_ends_unblended _ _ _ _ hmid
  obtain ⟨_, _, hgl⟩ := PostProcessPass_ok _ _ _ _ h
  rw [hgl]
  exact ⟨hbl, rfl, rfl, hfb⟩

/-- C28 (witness). One frame of the sample renderer in the display mode `DISPLAY_TOTAL`
returns the state `sampleTotalFrame`, in which the four values are as stated. -/
theorem render_leaves_default_state_witness :
    Render sampleRenderEnv (sampleRenderer 0) sampleRenderState =
      Except.ok sampleTotalFrame ∧
    sampleTotalFrame.gl.blend = false ∧ sampleTotalFrame.gl.depthTest = true ∧
      sampleTotalFrame.gl.depthMask = true ∧ sampleTotalFrame.gl.framebuffer = 0 :=
  ⟨by decide!,
    render_leaves_default_state sampleRenderEnv (sampleRenderer 0) sampleRenderState
      sampleTotalFrame (by decide!)⟩

/-! ## Render: blending and the order of the draws -/

theorem DrawsBy.of_frame (slot : ProgramSlot) (geoms : List DrawableGeometry)
    (s s1 : RenderState) (hc : s1.m_currentProgram = some slot) (hgl : s1.gl = s.gl)
    (hd : s1.draws = s.draws) : DrawsBy slot geoms s s1 :=
  ⟨hc, ⟨s.gl.vertexArray, hgl⟩, [], by rw [hd, List.append_nil], fun d hd => by cases hd⟩

theorem DrawsBy.trans (slot : ProgramSlot) (geoms : List DrawableGeometry)
    (s a b : RenderState) (h1 : DrawsBy slot geoms s a) (h2 : DrawsBy slot geoms a b) :
    DrawsBy slot geoms s b := by
  obtain ⟨_, ⟨va1, hg1⟩, ds1, hd1, hall1⟩ := h1
  obtain ⟨hc2, ⟨va2, hg2⟩, ds2, hd2, hall2⟩ := h2
  refine ⟨hc2, ⟨va2, ?_⟩, ds1 ++ ds2, ?_, ?_⟩
  · rw [hg2, hg1]
  · rw [hd2, hd1, List.append_assoc]
  · intro d hd
    rcases List.mem_append.1 hd with h | h
    · exact hall1 d h
    · obtain ⟨geom, hgeom, hp, hn, hg⟩ := hall2 d h
      refine ⟨geom, hgeom, hp, hn, ?_⟩
      rw [hg, hg1]

theorem DrawsBy.mono (slot : ProgramSlot) (geoms geoms1 : List DrawableGeometry)
    (s s1 : RenderState) (hsub : ∀ g ∈ geoms, g ∈ geoms1) (h : DrawsBy slot geoms s s1) :
    DrawsBy slot geoms1 s s1 := by
  obtain ⟨hc, hg, ds, hd, hall⟩ := h
  refine ⟨hc, hg, ds, hd, ?_⟩
  intro d hd1
  obtain ⟨geom, hgeom, h1⟩ := hall d hd1
  exact ⟨geom, hsub geom hgeom, h1⟩

theorem DrawGeometry_drawsBy (env : RenderEnv) (geom : DrawableGeometry)
    (slot : ProgramSlot) (s s1 : RenderState) (hcur : s.m_currentProgram = some slot)
    (h : DrawGeometry env geom s = Except.ok s1) : DrawsBy slot [geom] s s1 := by
  obtain ⟨slot1, hs, hs1, hgl, hd⟩ := DrawGeometry_ok env geom s s1 h
  rw [hcur] at hs
  cases hs
  refine ⟨hs1, ⟨geom.vertex_array, hgl⟩, _, hd, ?_⟩
  intro d hmem
  rw [List.mem_singleton] at hmem
  subst hmem
  exact ⟨geom, List.mem_singleton.2 rfl, rfl, rfl, rfl⟩

theorem drawOpaque_drawsBy (env : RenderEnv) (geom : DrawableGeometry) (s s1 : RenderState)
    (hcur : s.m_currentProgram = some ProgramSlot.m_passProg)
    (h : drawOpaque env geom s = Except.ok s1) :
    DrawsBy ProgramSlot.m_passProg [geom] s s1 := by
  unfold drawOpaque at h
  obtain ⟨a, ha, h1⟩ := (except_bind_ok _ _ _).1 h
  obtain ⟨b, hb, h2⟩ := (except_bind_ok _ _ _).1 h1
  obtain ⟨c, hc, h3⟩ := (except_bind_ok _ _ _).1 h2
  have ha1 : a = s := programSetShaderConstant_ok _ _ _ _ _ ha
  have hb1 : b = a := programSetShaderConstant_ok _ _ _ _ _ hb
  have hc1 : c = b := programSetShaderConstant_ok _ _ _ _ _ hc
  rw [hc1, hb1, ha1] at h3
  have hframe : DrawsBy ProgramSlot.m_passProg [geom] s
      (programSetTexture env ProgramSlot.m_passProg "t2DSpecular" geom.specular_tex
        (programSetTexture env ProgramSlot.m_passProg "t2DNormal" geom.normal_tex
          (programSetTexture env ProgramSlot.m_passProg "t2DDiffuse" geom.diffuse_tex s))) := by
    apply DrawsBy.of_frame
    · simp only [programSetTexture_frame, hcur]
    · simp only [programSetTexture_frame]
    · simp only [programSetTexture_frame]
  exact DrawsBy.trans _ _ _ _ _ hframe
    (DrawGeometry_drawsBy env geom _ _ _ hframe.1 h3)

theorem drawOpaqueLoop_drawsBy (env : RenderEnv) : ∀ (geoms : List DrawableGeometry)
    (s s1 : RenderState), s.m_currentProgram = some ProgramSlot.m_passProg →
    drawOpaqueLoop env geoms s = Except.ok s1 →
    DrawsBy ProgramSlot.m_passProg geoms s s1 := by
  intro geoms
  induction geoms with
  | nil =>
    intro s s1 hcur h
    unfold drawOpaqueLoop at h
    cases h
    exact DrawsBy.of_frame _ _ _ _ hcur rfl rfl
  | cons geom rest ih =>
    intro s s1 hcur h
    unfold drawOpaqueLoop at h
    obtain ⟨a, ha, h⟩ := (except_bind_ok _ _ _).1 h
    have h1 := drawOpaque_drawsBy env geom s a hcur ha
    have h2 := ih a s1 h1.1 h
    exact DrawsBy.trans _ _ _ _ _
      (DrawsBy.mono _ _ _ _ _ (fun g hg => by
        rw [List.mem_singleton] at hg; rw [hg]; exact List.mem_cons_self _ _) h1)
      (DrawsBy.mono _ _ _ _ _ (fun g hg => List.mem_cons_of_mem _ hg) h2)

theorem DrawOpaqueList_ok (env : RenderEnv) (renderer : GLRenderer) (s s1 : RenderState)
    (h : DrawOpaqueList env renderer s = Except.ok s1) :
    s1.gl = { s.gl with vertexArray := 0 } ∧
      ∃ ds, s1.draws = s.draws ++ ds ∧
        ∀ d ∈ ds, ∃ geom ∈ renderer.m_opaqueList, DrawOf ProgramSlot.m_passProg s.gl geom d := by
  unfold DrawOpaqueList at h
  cases ha : SetShaderProgram env ProgramSlot.m_passProg s with
  | error f =>
    simp only [ha] at h
    cases h
  | ok a =>
    simp only [ha] at h
    have ha1 := SetShaderProgram_ok _ _ _ _ ha
    subst ha1
    cases hb : drawOpaqueLoop env renderer.m_opaqueList
        { s with m_currentProgram := some ProgramSlot.m_passProg } with
    | error f =>
      simp only [hb] at h
      cases h
    | ok b =>
      simp only [hb] at h
      split_ifs at h
      cases h
      obtain ⟨_, ⟨va, hgl⟩, ds, hd, hall⟩ :=
        drawOpaqueLoop_drawsBy env renderer.m_opaqueList _ b rfl hb
      refine ⟨?_, ds, hd, hall⟩
      show ({ b.gl with vertexArray := 0 } : GLState) = _
      rw [hgl]

theorem runLightCommands_drawsBy (env : RenderEnv) (renderer : GLRenderer)
    (slot : ProgramSlot) : ∀ (cmds : List LightCommand) (s s1 : RenderState),
    s.m_currentProgram = some slot →
    runLightCommands env renderer cmds s = Except.ok s1 →
    DrawsBy slot [renderer.m_QuadGeometry] s s1 := by
  intro cmds
  induction cmds with
  | nil =>
    intro s s1 hcur h
    unfold runLightCommands at h
    cases h
    exact DrawsBy.of_frame _ _ _ _ hcur rfl rfl
  | cons c rest ih =>
    intro s s1 hcur h
    unfold runLightCommands at h
    obtain ⟨a, ha, h⟩ := (except_bind_ok _ _ _).1 h
    have h1 : DrawsBy slot [renderer.m_QuadGeometry] s a := by
      cases c with
      | setLight light =>
        have := currentSetShaderConstant_ok _ _ _ _ ha
        subst this
        exact DrawsBy.of_frame _ _ _ _ hcur rfl rfl
      | setLightIl strength =>
        have := currentSetShaderConstant_ok _ _ _ _ ha
        subst this
        exact DrawsBy.of_frame _ _ _ _ hcur rfl rfl
      | renderQuad =>
        exact DrawGeometry_drawsBy env renderer.m_QuadGeometry slot s a hcur ha
    exact DrawsBy.trans _ _ _ _ _ h1 (ih a s1 h1.1 h)

theorem drawLightOn_drawsBy (env : RenderEnv) (renderer : GLRenderer) (slot : ProgramSlot)
    (pos : Vec3) (strength : ℚ) (s s1 : RenderState) (hcur : s.m_currentProgram = some slot)
    (h : drawLightOn env renderer pos strength s = Except.ok s1) :
    DrawsBy slot [renderer.m_QuadGeometry] s s1 :=
  runLightCommands_drawsBy env renderer slot _ s s1 hcur h

theorem DrawLightList_ok (env : RenderEnv) (renderer : GLRenderer) (s s1 : RenderState)
    (h : DrawLightList env renderer s = Except.ok s1) :
    ∃ ds va,
      s1.draws = s.draws ++ ds ∧
      (∀ d ∈ ds,
        DrawOf ProgramSlot.m_pointProg { s.gl with depthMask := false }
          renderer.m_QuadGeometry d) ∧
      s1.gl = { s.gl with depthMask := true, vertexArray := va } := by
  unfold DrawLightList at h
  obtain ⟨a, ha, g1⟩ := (except_bind_ok _ _ _).1 h
  obtain ⟨b, hb, g2⟩ := (except_bind_ok _ _ _).1 g1
  obtain ⟨c, hc, g3⟩ := (except_bind_ok _ _ _).1 g2
  obtain ⟨l1, hl1, g4⟩ := (except_bind_ok _ _ _).1 g3
  obtain ⟨l2, hl2, g5⟩ := (except_bind_ok _ _ _).1 g4
  obtain ⟨k1, hk1, g6⟩ := (except_bind_ok _ _ _).1 g5
  obtain ⟨l3, hl3, g7⟩ := (except_bind_ok _ _ _).1 g6
  obtain ⟨l4, hl4, g8⟩ := (except_bind_ok _ _ _).1 g7
  obtain ⟨k2, hk2, g9⟩ := (except_bind_ok _ _ _).1 g8
  obtain ⟨l5, hl5, g10⟩ := (except_bind_ok _ _ _).1 g9
  obtain ⟨l6, hl6, g11⟩ := (except_bind_ok _ _ _).1 g10
  obtain ⟨k3, hk3, g12⟩ := (except_bind_ok _ _ _).1 g11
  obtain ⟨l7, hl7, g13⟩ := (except_bind_ok _ _ _).1 g12
  obtain ⟨k4, hk4, g14⟩ := (except_bind_ok _ _ _).1 g13
  obtain ⟨l8, hl8, g15⟩ := (except_bind_ok _ _ _).1 g14
  have ha1 := SetShaderProgram_ok _ _ _ _ ha
  obtain ⟨hb1, hb2, hb3⟩ := SetTexturesForFullScreenPass_ok _ _ _ _ hb
  have hc1 := programSetShaderConstant_ok _ _ _ _ _ hc
  have e1 : k1 = l2 := programSetShaderConstant_ok _ _ _ _ _ hk1
  have e2 : k2 = l4 := programSetShaderConstant_ok _ _ _ _ _ hk2
  have e3 : k3 = l6 := programSetShaderConstant_ok _ _ _ _ _ hk3
  have e4 : k4 = l7 := programSetShaderConstant_ok _ _ _ _ _ hk4
  rw [e1] at hl3
  rw [e2] at hl5
  rw [e3] at hl7
  rw [e4] at hl8
  have hcur : c.m_currentProgram = some ProgramSlot.m_pointProg := by
    rw [hc1, (programSetTexture_frame _ _ _ _ _).2.2, hb3, ha1]
  have hgl : c.gl = s.gl := by
    rw [hc1, (programSetTexture_frame _ _ _ _ _).1, hb1, ha1]
  have hdr : c.draws = s.draws := by
    rw [hc1, (programSetTexture_frame _ _ _ _ _).2.1, hb2, ha1]
  have d1 := drawLightOn_drawsBy env renderer ProgramSlot.m_pointProg _ _
    (glDepthMask false c) l1 hcur hl1
  have d2 := drawLightOn_drawsBy env renderer ProgramSlot.m_pointProg _ _ l1 l2 d1.1 hl2
  have d3 := drawLightOn_drawsBy env renderer ProgramSlot.m_pointProg _ _ l2 l3 d2.1 hl3
  have d4 := drawLightOn_drawsBy env renderer ProgramSlot.m_pointProg _ _ l3 l4 d3.1 hl4
  have d5 := drawLightOn_drawsBy env renderer ProgramSlot.m_pointProg _ _ l4 l5 d4.1 hl5
  have d6 := drawLightOn_drawsBy env renderer ProgramSlot.m_pointProg _ _ l5 l6 d5.1 hl6
  have d7 := drawLightOn_drawsBy env renderer ProgramSlot.m_pointProg _ _ l6 l7 d6.1 hl7
  have d8 := drawLightOn_drawsBy env renderer ProgramSlot.m_pointProg _ _ l7 l8 d7.1 hl8
  have dall := DrawsBy.trans _ _ _ _ _ d1 (DrawsBy.trans _ _ _ _ _ d2
    (DrawsBy.trans _ _ _ _ _ d3 (DrawsBy.trans _ _ _ _ _ d4 (DrawsBy.trans _ _ _ _ _ d5
      (DrawsBy.trans _ _ _ _ _ d6 (DrawsBy.trans _ _ _ _ _ d7 d8))))))
  obtain ⟨_, ⟨va, hva⟩, ds, hds, hall⟩ := dall
  cases g15
  refine ⟨ds, va, ?_, ?_, ?_⟩
  · show l8.draws = _
    rw [hds]
    show c.draws ++ ds = _
    rw [hdr]
  · intro d hd
    obtain ⟨geom, hgeom, hp, hn, hg⟩ := hall d hd
    rw [List.mem_singleton] at hgeom
    subst hgeom
    refine ⟨hp, hn, ?_⟩
    rw [hg]
    show ({ ({ c.gl with depthMask := false } : GLState) with
      vertexArray := renderer.m_QuadGeometry.vertex_array } : GLState) = _
    rw [hgl]
  · show ({ l8.gl with depthMask := true } : GLState) = _
    rw [hva]
    show ({ ({ ({ c.gl with depthMask := false } : GLState) with vertexArray := va } :
      GLState) with depthMask := true } : GLState) = _
    rw [hgl]

theorem SetFramebufferActive_ok (renderer : GLRenderer) (fbID : Nat) (s s1 : RenderState)
    (h : SetFramebufferActive renderer fbID s = Except.ok s1) :
    ∃ fbo, renderer.m_FBO[fbID]? = some fbo ∧ s1 = glBindFramebuffer fbo s := by
  unfold SetFramebufferActive at h
  cases hf : renderer.m_FBO[fbID]? with
  | none =>
    simp only [hf] at h
    cases h
  | some fbo =>
    simp only [hf] at h
    cases h
    exact ⟨fbo, rfl, rfl⟩

theorem GBufferPass_ok (env : RenderEnv) (renderer : GLRenderer) (s s1 : RenderState)
    (h : GBufferPass env renderer s = Except.ok s1) :
    ∃ fbo ds,
      renderer.m_FBO[env.GBUFFER_FRAMEBUFFER]? = some fbo ∧
      s1.draws = s.draws ++ ds ∧
      (∀ d ∈ ds, d.program = ProgramSlot.m_passProg ∧ d.gl.blend = s.gl.blend ∧
        d.gl.framebuffer = fbo) ∧
      s1.gl.blend = s.gl.blend := by
  unfold GBufferPass at h
  obtain ⟨a, ha, g1⟩ := (except_bind_ok _ _ _).1 h
  obtain ⟨b, hb, g2⟩ := (except_bind_ok _ _ _).1 g1
  cases g2
  obtain ⟨fbo, hfbo, ha1⟩ := SetFramebufferActive_ok _ _ _ _ ha
  obtain ⟨hgl, ds, hds, hall⟩ := DrawOpaqueList_ok _ _ _ _ hb
  subst ha1
  refine ⟨fbo, ds, hfbo, hds, ?_, ?_⟩
  · intro d hd
    obtain ⟨geom, _, hp, _, hg⟩ := hall d hd
    refine ⟨hp, ?_, ?_⟩
    · rw [hg]; rfl
    · rw [hg]; rfl
  · show b.gl.blend = _
    rw [hgl]
    rfl

theorem LightingPass_ok (env : RenderEnv) (renderer : GLRenderer) (s s1 : RenderState)
    (h : LightingPass env renderer s = Except.ok s1) :
    ∃ fbo lights dir,
      renderer.m_FBO[env.LIGHTING_FRAMEBUFFER]? = some fbo ∧
      s1.draws = s.draws ++ lights ++ [dir] ∧
      (∀ d ∈ lights, d.program = ProgramSlot.m_pointProg ∧
        d.num_indices = renderer.m_QuadGeometry.num_indices ∧
        d.gl.vertexArray = renderer.m_QuadGeometry.vertex_array ∧
        d.gl.blend = true ∧ d.gl.blendSrc = BlendFactor.GL_ONE ∧
        d.gl.blendDst = BlendFactor.GL_ONE ∧ d.gl.framebuffer = fbo) ∧
      dir.program = ProgramSlot.m_directionalProg ∧
      dir.num_indices = renderer.m_QuadGeometry.num_indices ∧
      dir.gl.vertexArray = renderer.m_QuadGeometry.vertex_array ∧
      dir.gl.blend = false ∧ dir.gl.framebuffer = fbo := by
  unfold LightingPass at h
  obtain ⟨a, ha, g1⟩ := (except_bind_ok _ _ _).1 h
  obtain ⟨b, hb, g2⟩ := (except_bind_ok _ _ _).1 g1
  obtain ⟨c, hc, g3⟩ := (except_bind_ok _ _ _).1 g2
  cases g3
  obtain ⟨fbo, hfbo, ha1⟩ := SetFramebufferActive_ok _ _ _ _ ha
  obtain ⟨lights, va, hl1, hl2, hl3⟩ := DrawLightList_ok _ _ _ _ hb
  obtain ⟨textures, _, _, hdraws⟩ := RenderDirectionalAndAmbientLighting_ok _ _ _ _ hc
  subst ha1
  refine ⟨fbo, lights,
    { num_indices := renderer.m_QuadGeometry.num_indices
      program := ProgramSlot.m_directionalProg
      textures := textures
      gl :=
        { (glDisable Capability.GL_BLEND b).gl with
          depthMask := false, vertexArray := renderer.m_QuadGeometry.vertex_array } },
    hfbo, ?_, ?_, rfl, rfl, rfl, ?_, ?_⟩
  · show c.draws = _
    rw [hdraws]
    show b.draws ++ _ = _
    rw [hl1]
    rfl
  · intro d hd
    obtain ⟨hp, hn, hg⟩ := hl2 d hd
    refine ⟨hp, hn, ?_, ?_, ?_, ?_, ?_⟩ <;> rw [hg] <;> rfl
  · rfl
  · show b.gl.framebuffer = fbo
    rw [hl3]
    rfl

/-- C21 (as amended). For every renderer and every state in which blending is disabled:
when `Render` returns, the draw calls it has issued are, in this order, the draws of the
geometry pass, the point-light quads, one directional and ambient quad and one post-pass
quad; every geometry-pass draw is issued with blending disabled; every point-light quad
is issued with blending enabled, the factors (ONE, ONE) and the lighting framebuffer
bound; the directional and ambient quad is issued with blending disabled and the lighting
framebuffer still bound; the post-pass quad is issued with blending disabled; and
blending is disabled again in the state that `Render` leaves. -/
theorem render_blending_by_pass (env : RenderEnv) (renderer : GLRenderer)
    (s s1 : RenderState) (hblend : s.gl.blend = false)
    (h : Render env renderer s = Except.ok s1) :
    ∃ fbo geometry lights dir post,
      renderer.m_FBO[env.LIGHTING_FRAMEBUFFER]? = some fbo ∧
      s1.draws = s.draws ++ geometry ++ lights ++ [dir] ++ [post] ∧
      (∀ d ∈ geometry, d.program = ProgramSlot.m_passProg ∧ d.gl.blend = false) ∧
      (∀ d ∈ lights, d.program = ProgramSlot.m_pointProg ∧
        d.num_indices = renderer.m_QuadGeometry.num_indices ∧
        d.gl.vertexArray = renderer.m_QuadGeometry.vertex_array ∧
        d.gl.blend = true ∧ d.gl.blendSrc = BlendFactor.GL_ONE ∧
        d.gl.blendDst = BlendFactor.GL_ONE ∧ d.gl.framebuffer = fbo) ∧
      (dir.program = ProgramSlot.m_directionalProg ∧
        dir.num_indices = renderer.m_QuadGeometry.num_indices ∧
        dir.gl.vertexArray = renderer.m_QuadGeometry.vertex_array ∧
        dir.gl.blend = false ∧ dir.gl.framebuffer = fbo) ∧
      (post.program =
          (if renderer.m_displayType ≠ env.DISPLAY_TOTAL then ProgramSlot.m_diagnosticProg
           else ProgramSlot.m_postProg) ∧
        post.gl.blend = false) ∧
      s1.gl.blend = false := by
  unfold Render at h
  obtain ⟨a, ha, g1⟩ := (except_bind_ok _ _ _).1 h
  obtain ⟨mid, hmid, g2⟩ := (except_bind_ok _ _ _).1 g1
  obtain ⟨_, geometry, _, hg1, hg2, hg3⟩ := GBufferPass_ok _ _ _ _ ha
  obtain ⟨fbo, lights, dir, hfbo, hl1, hl2, hl3⟩ := LightingPass_ok _ _ _ _ hmid
  obtain ⟨_, hmb⟩ := LightingPass_ends_unblended _ _ _ _ hmid
  obtain ⟨textures, hp1, hp2⟩ := PostProcessPass_ok _ _ _ _ g2
  refine ⟨fbo, geometry, lights, dir,
    { num_indices := renderer.m_QuadGeometry.num_indices
      program :=
        if renderer.m_displayType ≠ env.DISPLAY_TOTAL then ProgramSlot.m_diagnosticProg
        else ProgramSlot.m_postProg
      textures := textures
      gl :=
        { mid.gl with
          depthTest := false, depthMask := false,
          vertexArray := renderer.m_QuadGeometry.vertex_array } },
    hfbo, ?_, ?_, hl2, hl3, ⟨rfl, hmb⟩, ?_⟩
  · rw [hp1, hl1, hg1]
    rfl
  · intro d hd
    obtain ⟨hp, hb, _⟩ := hg2 d hd
    exact ⟨hp, hb.trans hblend⟩
  · rw [hp2]
    exact hmb

/-- C21 (witness). One frame of the sample renderer in the display mode `DISPLAY_TOTAL`
from the sample state, in which blending is disabled: the four draw calls are one of the
pass program, one point-light quad, the directional quad and the post quad. -/
theorem render_blending_by_pass_witness :
    sampleRenderState.gl.blend = false ∧
    Render sampleRenderEnv (sampleRenderer 0) sampleRenderState =
      Except.ok sampleTotalFrame ∧
    sampleTotalFrame.draws.map (fun d => (d.program, d.gl.blend, d.gl.framebuffer)) =
      [(ProgramSlot.m_passProg, false, 5), (ProgramSlot.m_pointProg, true, 6),
        (ProgramSlot.m_directionalProg, false, 6), (ProgramSlot.m_postProg, false, 0)] ∧
    ∃ fbo geometry lights dir post,
      (sampleRenderer 0).m_FBO[sampleRenderEnv.LIGHTING_FRAMEBUFFER]? = some fbo ∧
      sampleTotalFrame.draws =
        sampleRenderState.draws ++ geometry ++ lights ++ [dir] ++ [post] ∧
      (∀ d ∈ geometry, d.program = ProgramSlot.m_passProg ∧ d.gl.blend = false) ∧
      (∀ d ∈ lights, d.program = ProgramSlot.m_pointProg ∧
        d.num_indices = (sampleRenderer 0).m_QuadGeometry.num_indices ∧
        d.gl.vertexArray = (sampleRenderer 0).m_QuadGeometry.vertex_array ∧
        d.gl.blend = true ∧ d.gl.blendSrc = BlendFactor.GL_ONE ∧
        d.gl.blendDst = BlendFactor.GL_ONE ∧ d.gl.framebuffer = fbo) ∧
      (dir.program = ProgramSlot.m_directionalProg ∧
        dir.num_indices = (sampleRenderer 0).m_QuadGeometry.num_indices ∧
        dir.gl.vertexArray = (sampleRenderer 0).m_QuadGeometry.vertex_array ∧
        dir.gl.blend = false ∧ dir.gl.framebuffer = fbo) ∧
      (post.program =
          (if (sampleRenderer 0).m_displayType ≠ sampleRenderEnv.DISPLAY_TOTAL then
            ProgramSlot.m_diagnosticProg
           else ProgramSlot.m_postProg) ∧
        post.gl.blend = false) ∧
      sampleTotalFrame.gl.blend = false :=
  ⟨by decide, by decide!, by decide,
    render_blending_by_pass sampleRenderEnv (sampleRenderer 0) sampleRenderState
      sampleTotalFrame (by decide) (by decide!)⟩

/-- C21 (counterexample). One frame of the sample renderer entered with blending enabled
returns, and its first draw call, the opaque mesh drawn by the pass program in the
geometry pass, is issued with blending enabled: `Render` does not touch blending before
the lighting pass. -/
theorem render_blending_counterexample :
    (Render sampleRenderEnv (sampleRenderer 0) sampleBlendedState).toOption.map
        (fun s1 => s1.draws.map (fun d => (d.program, d.gl.blend, d.gl.framebuffer))) =
      some [(ProgramSlot.m_passProg, true, 5), (ProgramSlot.m_pointProg, true, 6),
        (ProgramSlot.m_directionalProg, false, 6), (ProgramSlot.m_postProg, false, 0)] ∧
    (sampleRenderer 0).m_opaqueList.length = 1 ∧
    sampleBlendedState.gl.blend = true := by
  refine ⟨by decide!, by decide, by decide⟩

/-! ## Power-of-two rounding -/

theorem roundUpLoop_spec (d : Nat) : ∀ (n i fuel : Nat), i + n = 30 → n < fuel →
    (i = 0 ∨ 2 ^ (i - 1) < d) →
    (d ≤ 2 ^ 30 →
      ∃ k, k ≤ 30 ∧ roundUpLoop fuel (2 ^ i) d = Except.ok (2 ^ k) ∧ d ≤ 2 ^ k ∧
        (k = 0 ∨ 2 ^ (k - 1) < d)) ∧
    (2 ^ 30 < d → roundUpLoop fuel (2 ^ i) d = Except.error ImageFault.signedOverflow) := by
  intro n
  induction n with
  | zero =>
    intro i fuel hi hfuel hprev
    have hi30 : i = 30 := by omega
    subst hi30
    obtain ⟨f, rfl⟩ : ∃ f, fuel = f + 1 := ⟨fuel - 1, by omega⟩
    have h30 : (2 : Nat) ^ 30 = 1073741824 := by norm_num
    refine ⟨?_, ?_⟩
    · intro hd
      refine ⟨30, le_refl _, ?_, hd, hprev⟩
      unfold roundUpLoop
      rw [if_neg (by omega)]
    · intro hd
      unfold roundUpLoop
      rw [if_pos hd, if_neg (by rw [h30]; unfold INT32_LIMIT; omega)]
  | succ m ih =>
    intro i fuel hi hfuel hprev
    obtain ⟨f, rfl⟩ : ∃ f, fuel = f + 1 := ⟨fuel - 1, by omega⟩
    have hle : (2 : Nat) ^ (i + 1) ≤ 2 ^ 30 :=
      Nat.pow_le_pow_right (by norm_num) (by omega)
    have h30 : (2 : Nat) ^ 30 = 1073741824 := by norm_num
    have hsucc : (2 : Nat) ^ i * 2 = 2 ^ (i + 1) := (pow_succ 2 i).symm
    by_cases hlt : 2 ^ i < d
    · have hstep : roundUpLoop (f + 1) (2 ^ i) d = roundUpLoop f (2 ^ (i + 1)) d := by
        rw [roundUpLoop, if_pos hlt, if_pos (by rw [hsucc]; unfold INT32_LIMIT; omega), hsucc]
      rw [hstep]
      exact ih (i + 1) f (by omega) (by omega) (Or.inr (by simpa using hlt))
    · refine ⟨?_, ?_⟩
      · intro hd
        refine ⟨i, by omega, ?_, by omega, hprev⟩
        rw [roundUpLoop, if_neg hlt]
      · intro hd
        have : (2 : Nat) ^ i ≤ 2 ^ (i + 1) := Nat.pow_le_pow_right (by norm_num) (by omega)
        omega

theorem smallest_power_of_two (d k : Nat) (hk : k = 0 ∨ 2 ^ (k - 1) < d) (j : Nat)
    (hj : d ≤ 2 ^ j) : 2 ^ k ≤ 2 ^ j := by
  apply Nat.pow_le_pow_right (by norm_num)
  rcases hk with h | h
  · omega
  · have hlt : 2 ^ (k - 1) < 2 ^ j := lt_of_lt_of_le h hj
    have := (Nat.pow_lt_pow_iff_right (by norm_num : 1 < 2)).1 hlt
    omega

/-- C30 (as amended). For every dimension d of at most 2^30 (in particular for
1 <= d <= 2^30) the rounding loop ends within its 32 tests and yields a power of two that is at least d and is not larger than
any other power of two that is at least d; a dimension 2^k with k <= 30 is left
unchanged, and for two such dimensions the image is not resampled. -/
theorem round_up_to_power_of_two (d : Nat) (h2 : d ≤ 2 ^ 30) :
    (∃ k, roundUpToPowerOfTwo d = Except.ok (2 ^ k) ∧ d ≤ 2 ^ k ∧
      ∀ j, d ≤ 2 ^ j → 2 ^ k ≤ 2 ^ j) ∧
    (∀ k, d = 2 ^ k → roundUpToPowerOfTwo d = Except.ok d) ∧
    (∀ k a b, d = 2 ^ k → a ≤ 30 → b = 2 ^ a →
      resamples d b = Except.ok false ∧ resamples b d = Except.ok false) := by
  have hspec : ∀ x, x ≤ 2 ^ 30 →
      ∃ k, k ≤ 30 ∧ roundUpToPowerOfTwo x = Except.ok (2 ^ k) ∧ x ≤ 2 ^ k ∧
        (k = 0 ∨ 2 ^ (k - 1) < x) := by
    intro x hx
    have := (roundUpLoop_spec x 30 0 32 (by omega) (by omega) (Or.inl rfl)).1 hx
    simpa [roundUpToPowerOfTwo] using this
  have hpow : ∀ k x, x = 2 ^ k → x ≤ 2 ^ 30 → roundUpToPowerOfTwo x = Except.ok x := by
    intro k x hx hle
    obtain ⟨k1, _, hr, hge, hmin⟩ := hspec x hle
    have hle1 : 2 ^ k1 ≤ 2 ^ k := smallest_power_of_two x k1 hmin k (by omega)
    have : 2 ^ k1 = x := by omega
    rw [hr, this]
  refine ⟨?_, ?_, ?_⟩
  · obtain ⟨k, _, hr, hge, hmin⟩ := hspec d h2
    exact ⟨k, hr, hge, fun j hj => smallest_power_of_two d k hmin j hj⟩
  · intro k hk
    exact hpow k d hk h2
  · intro k a b hk ha hb
    have hb30 : b ≤ 2 ^ 30 := by
      rw [hb]; exact Nat.pow_le_pow_right (by norm_num) ha
    have e1 := hpow k d hk h2
    have e2 := hpow a b hb hb30
    constructor
    · unfold resamples
      rw [e1]
      simp only []
      rw [e2]
      simp
    · unfold resamples
      rw [e2]
      simp only []
      rw [e1]
      simp

/-- C30 (witness). The dimensions 640 and 512: 640 is rounded to 1024, 512 is kept, and
a 512 x 256 image is not resampled. -/
theorem round_up_to_power_of_two_witness :
    roundUpToPowerOfTwo 640 = Except.ok 1024 ∧
    roundUpToPowerOfTwo 512 = Except.ok 512 ∧
    resamples 512 256 = Except.ok false ∧
    (∀ k a b, 512 = 2 ^ k → a ≤ 30 → b = 2 ^ a →
      resamples 512 b = Except.ok false ∧ resamples b 512 = Except.ok false) :=
  ⟨by decide, by decide, by decide,
    (round_up_to_power_of_two 512 (by norm_num)).2.2⟩

/-- C30 (counterexample). The dimension 2^30 + 1 is a positive `int`, but the loop reaches
`new_width = 2^30 < width` and the next `new_width *= 2` is not a value of `int`; no `int`
is a power of two that is at least 2^30 + 1. -/
theorem round_up_overflow_counterexample :
    1 ≤ 1073741825 ∧ 1073741825 < INT32_LIMIT ∧
    roundUpToPowerOfTwo 1073741825 = Except.error ImageFault.signedOverflow ∧
    ¬ ∃ v k, v < INT32_LIMIT ∧ v = 2 ^ k ∧ 1073741825 ≤ v := by
  refine ⟨by decide, by decide, by decide, ?_⟩
  rintro ⟨v, k, hv, hvk, hge⟩
  have h30 : (2 : Nat) ^ 30 = 1073741824 := by norm_num
  have h31 : (2 : Nat) ^ 31 = 2147483648 := by norm_num
  have hlo : 2 ^ 30 < 2 ^ k := by omega
  have hhi : 2 ^ k < 2 ^ 31 := by unfold INT32_LIMIT at hv; omega
  have a := (Nat.pow_lt_pow_iff_right (by norm_num : 1 < 2)).1 hlo
  have b := (Nat.pow_lt_pow_iff_right (by norm_num : 1 < 2)).1 hhi
  omega

/-! ## The vertical flip -/

theorem swapBytes_apart (P Mid S : List Nat) (x y : Nat) :
    swapBytes (P ++ x :: (Mid ++ y :: S)) P.length (P.length + 1 + Mid.length) =
      Except.ok (P ++ y :: (Mid ++ x :: S)) := by
  have hl1 : P.length < (P ++ x :: (Mid ++ y :: S)).length := by simp
  have hl2 : P.length + 1 + Mid.length < (P ++ x :: (Mid ++ y :: S)).length := by
    simp; omega
  have g1 : (P ++ x :: (Mid ++ y :: S)).getD P.length 0 = x := by
    rw [List.getD_append_right _ _ _ _ (le_refl _)]
    simp
  have g2 : (P ++ x :: (Mid ++ y :: S)).getD (P.length + 1 + Mid.length) 0 = y := by
    rw [List.getD_append_right _ _ _ _ (by omega)]
    have : P.length + 1 + Mid.length - P.length = Mid.length + 1 := by omega
    rw [this, List.getD_cons_succ, List.getD_append_right _ _ _ _ (le_refl _)]
    simp
  unfold swapBytes
  rw [if_pos ⟨hl1, hl2⟩, g1, g2]
  congr 1
  have s1 : (P ++ x :: (Mid ++ y :: S)).set P.length y = P ++ y :: (Mid ++ y :: S) := by
    rw [List.set_append_right _ _ (le_refl _)]
    simp
  rw [s1, List.set_append_right _ _ (by omega)]
  have : P.length + 1 + Mid.length - P.length = Mid.length + 1 := by omega
  rw [this, List.set_cons_succ, List.set_append_right _ _ (le_refl _)]
  simp

theorem swapBytes_self (P S : List Nat) (x : Nat) :
    swapBytes (P ++ x :: S) P.length P.length = Except.ok (P ++ x :: S) := by
  have hl1 : P.length < (P ++ x :: S).length := by simp
  have g1 : (P ++ x :: S).getD P.length 0 = x := by
    rw [List.getD_append_right _ _ _ _ (le_refl _)]
    simp
  unfold swapBytes
  rw [if_pos ⟨hl1, hl1⟩, g1]
  congr 1
  have s1 : (P ++ x :: S).set P.length x = P ++ x :: S := by
    rw [List.set_append_right _ _ (le_refl _)]
    simp
  rw [s1, s1]

theorem intInc_ok (a : Nat) (h : a + 1 < INT32_LIMIT) : intInc a = Except.ok (a + 1) := by
  unfold intInc
  rw [if_pos h]

theorem intMul_ok (a b : Nat) (h : a * b < INT32_LIMIT) : intMul a b = Except.ok (a * b) := by
  unfold intMul
  rw [if_pos h]

theorem swapRowLoop_apart : ∀ (n : Nat) (P X Q Y S : List Nat), X.length = n → Y.length = n →
    (P ++ (X ++ (Q ++ (Y ++ S)))).length < INT32_LIMIT →
    swapRowLoop n P.length (P.length + n + Q.length) (P ++ (X ++ (Q ++ (Y ++ S)))) =
      Except.ok (P ++ (Y ++ (Q ++ (X ++ S)))) := by
  intro n
  induction n with
  | zero =>
    intro P X Q Y S hx hy _
    rw [List.length_eq_zero.1 hx, List.length_eq_zero.1 hy]
    rfl
  | succ m ih =>
    intro P X Q Y S hx hy hlen
    obtain ⟨x, X1, rfl⟩ : ∃ x X1, X = x :: X1 := by
      cases X with
      | nil => cases hx
      | cons x X1 => exact ⟨x, X1, rfl⟩
    obtain ⟨y, Y1, rfl⟩ : ∃ y Y1, Y = y :: Y1 := by
      cases Y with
      | nil => cases hy
      | cons y Y1 => exact ⟨y, Y1, rfl⟩
    have hx1 : X1.length = m := by simpa using hx
    have hy1 : Y1.length = m := by simpa using hy
    have hlen1 : P.length + (m + 1) + Q.length + (m + 1) + S.length < INT32_LIMIT := by
      simp only [List.length_append, List.length_cons] at hlen
      omega
    have hsw := swapBytes_apart P (X1 ++ Q) (Y1 ++ S) x y
    have e1 : P ++ (x :: X1 ++ (Q ++ (y :: Y1 ++ S))) =
        P ++ x :: ((X1 ++ Q) ++ y :: (Y1 ++ S)) := by simp
    have e2 : P.length + (m + 1) + Q.length = P.length + 1 + (X1 ++ Q).length := by
      simp [hx1]; omega
    unfold swapRowLoop
    rw [e1, e2, hsw]
    have i1 := intInc_ok P.length (by omega)
    have i2 := intInc_ok (P.length + 1 + (X1 ++ Q).length) (by simp [hx1]; omega)
    show (intInc P.length >>= fun index1 =>
      intInc (P.length + 1 + (X1 ++ Q).length) >>= fun index2 =>
        swapRowLoop m index1 index2 (P ++ y :: ((X1 ++ Q) ++ x :: (Y1 ++ S)))) = _
    rw [i1, i2]
    show swapRowLoop m (P.length + 1) (P.length + 1 + (X1 ++ Q).length + 1)
      (P ++ y :: ((X1 ++ Q) ++ x :: (Y1 ++ S))) = _
    have e3 : P ++ y :: ((X1 ++ Q) ++ x :: (Y1 ++ S)) =
        (P ++ [y]) ++ (X1 ++ ((Q ++ [x]) ++ (Y1 ++ S))) := by simp
    have e4 : P.length + 1 = (P ++ [y]).length := by simp
    have e5 : P.length + 1 + (X1 ++ Q).length + 1 =
        (P ++ [y]).length + m + (Q ++ [x]).length := by
      simp [hx1]; omega
    rw [e3, e5, e4]
    rw [ih (P ++ [y]) X1 (Q ++ [x]) Y1 S hx1 hy1 (by simp [hx1, hy1]; omega)]
    simp

theorem swapRowLoop_self : ∀ (n : Nat) (P X S : List Nat), X.length = n →
    (P ++ (X ++ S)).length < INT32_LIMIT →
    swapRowLoop n P.length P.length (P ++ (X ++ S)) = Except.ok (P ++ (X ++ S)) := by
  intro n
  induction n with
  | zero =>
    intro P X S _ _
    rfl
  | succ m ih =>
    intro P X S hx hlen
    obtain ⟨x, X1, rfl⟩ : ∃ x X1, X = x :: X1 := by
      cases X with
      | nil => cases hx
      | cons x X1 => exact ⟨x, X1, rfl⟩
    have hx1 : X1.length = m := by simpa using hx
    have hlen1 : P.length + (m + 1) + S.length < INT32_LIMIT := by
      simp only [List.length_append, List.length_cons] at hlen
      omega
    have hsw := swapBytes_self P (X1 ++ S) x
    have e1 : P ++ (x :: X1 ++ S) = P ++ x :: (X1 ++ S) := by simp
    unfold swapRowLoop
    rw [e1, hsw]
    have i1 := intInc_ok P.length (by omega)
    show (intInc P.length >>= fun index1 =>
      intInc P.length >>= fun index2 =>
        swapRowLoop m index1 index2 (P ++ x :: (X1 ++ S))) = _
    rw [i1]
    show swapRowLoop m (P.length + 1) (P.length + 1) (P ++ x :: (X1 ++ S)) = _
    have e3 : P ++ x :: (X1 ++ S) = (P ++ [x]) ++ (X1 ++ S) := by simp
    have e4 : P.length + 1 = (P ++ [x]).length := by simp
    rw [e3, e4]
    exact ih (P ++ [x]) X1 S hx1 (by simp [hx1]; omega)

theorem flatten_length_rows (R : Nat) : ∀ (rows : List (List Nat)),
    (∀ row ∈ rows, row.length = R) → rows.flatten.length = rows.length * R := by
  intro rows
  induction rows with
  | nil => intro _; simp
  | cons r rest ih =>
    intro h
    have h1 := h r (List.mem_cons_self _ _)
    have h2 := ih (fun row hrow => h row (List.mem_cons_of_mem _ hrow))
    simp only [List.flatten_cons, List.length_append, List.length_cons, h1, h2]
    rw [Nat.add_mul, Nat.one_mul, Nat.add_comm]

theorem invertLoop_rows (w h c : Nat) (hc : 1 ≤ c) (hsize : h * w * c < INT32_LIMIT)
    (hh : h + 1 < INT32_LIMIT) :
    ∀ (fuel : Nat) (A M B : List (List Nat)) (j : Nat), A.length = j → B.length = j →
      j + M.length + j = h → (∀ row ∈ A ++ M ++ B, row.length = w * c) →
      M.length < fuel →
      invertLoop w h c fuel j (B.reverse ++ M ++ A.reverse).flatten =
        Except.ok (B.reverse ++ M.reverse ++ A.reverse).flatten := by
  intro fuel
  induction fuel with
  | zero =>
    intro A M B j _ _ _ _ hf
    exact absurd hf (Nat.not_lt_zero _)
  | succ f ih =>
    intro A M B j hA hB hM hrows hf
    have hrA : ∀ row ∈ A.reverse, row.length = w * c := fun row hr =>
      hrows row (by simp at hr ⊢; tauto)
    have hrB : ∀ row ∈ B.reverse, row.length = w * c := fun row hr =>
      hrows row (by simp at hr ⊢; tauto)
    have hlenA : A.reverse.flatten.length = j * (w * c) := by
      rw [flatten_length_rows (w * c) _ hrA, List.length_reverse, hA]
    have hlenB : B.reverse.flatten.length = j * (w * c) := by
      rw [flatten_length_rows (w * c) _ hrB, List.length_reverse, hB]
    have hjh : j ≤ h := by omega
    have hj2 : intMul j 2 = Except.ok (j * 2) := intMul_ok j 2 (by omega)
    unfold invertLoop
    rw [hj2]
    simp only []
    cases M with
    | nil =>
      have : ¬ (j * 2 < h) := by simp at hM; omega
      rw [if_neg this]
      rfl
    | cons x t =>
      have hlt : j * 2 < h := by simp at hM; omega
      rw [if_pos hlt]
      have hx : x.length = w * c := hrows x (by simp)
      have hb1 : j * w * c ≤ h * w * c :=
        Nat.mul_le_mul_right c (Nat.mul_le_mul_right w hjh)
      have hb2 : j * w ≤ j * w * c := Nat.le_mul_of_pos_right _ hc
      have hb3 : (h - 1 - j) * w * c ≤ h * w * c :=
        Nat.mul_le_mul_right c (Nat.mul_le_mul_right w (by omega))
      have hb4 : (h - 1 - j) * w ≤ (h - 1 - j) * w * c := Nat.le_mul_of_pos_right _ hc
      have hb5 : w * c ≤ h * w * c := by
        rw [Nat.mul_assoc]
        exact Nat.le_mul_of_pos_left _ (by omega)
      have m1 := intMul_ok j w (by omega)
      have m2 := intMul_ok (j * w) c (by omega)
      have m3 := intMul_ok (h - 1 - j) w (by omega)
      have m4 := intMul_ok ((h - 1 - j) * w) c (by omega)
      have m5 := intMul_ok w c (by omega)
      have i1 := intInc_ok j (by omega)
      show (intMul j w >>= fun a => intMul a c >>= fun index1 =>
        intMul (h - 1 - j) w >>= fun b => intMul b c >>= fun index2 =>
          intMul w c >>= fun i =>
            swapRowLoop i index1 index2 (B.reverse ++ x :: t ++ A.reverse).flatten >>=
              fun img1 => intInc j >>= fun j1 => invertLoop w h c f j1 img1) = _
      rw [m1]
      show (intMul (j * w) c >>= fun index1 =>
        intMul (h - 1 - j) w >>= fun b => intMul b c >>= fun index2 =>
          intMul w c >>= fun i =>
            swapRowLoop i index1 index2 (B.reverse ++ x :: t ++ A.reverse).flatten >>=
              fun img1 => intInc j >>= fun j1 => invertLoop w h c f j1 img1) = _
      rw [m2]
      show (intMul (h - 1 - j) w >>= fun b => intMul b c >>= fun index2 =>
          intMul w c >>= fun i =>
            swapRowLoop i (j * w * c) index2 (B.reverse ++ x :: t ++ A.reverse).flatten >>=
              fun img1 => intInc j >>= fun j1 => invertLoop w h c f j1 img1) = _
      rw [m3]
      show (intMul ((h - 1 - j) * w) c >>= fun index2 =>
          intMul w c >>= fun i =>
            swapRowLoop i (j * w * c) index2 (B.reverse ++ x :: t ++ A.reverse).flatten >>=
              fun img1 => intInc j >>= fun j1 => invertLoop w h c f j1 img1) = _
      rw [m4]
      show (intMul w c >>= fun i =>
            swapRowLoop i (j * w * c) ((h - 1 - j) * w * c)
                (B.reverse ++ x :: t ++ A.reverse).flatten >>=
              fun img1 => intInc j >>= fun j1 => invertLoop w h c f j1 img1) = _
      rw [m5]
      show (swapRowLoop (w * c) (j * w * c) ((h - 1 - j) * w * c)
                (B.reverse ++ x :: t ++ A.reverse).flatten >>=
              fun img1 => intInc j >>= fun j1 => invertLoop w h c f j1 img1) = _
      have hi1 : j * w * c = B.reverse.flatten.length := by
        rw [hlenB, Nat.mul_assoc]
      cases t with
      | nil =>
        have hh1 : h - 1 - j = j := by simp at hM; omega
        have himg : (B.reverse ++ [x] ++ A.reverse).flatten =
            B.reverse.flatten ++ (x ++ A.reverse.flatten) := by simp
        have htot : (B.reverse.flatten ++ (x ++ A.reverse.flatten)).length < INT32_LIMIT := by
          simp only [List.length_append, hlenA, hlenB, hx]
          have : j * (w * c) + (w * c + j * (w * c)) = h * w * c := by
            have : h = j + 1 + j := by simp at hM; omega
            rw [this, Nat.mul_assoc, Nat.add_mul, Nat.add_mul, Nat.one_mul]
            omega
          omega
        rw [hh1, himg, hi1,
          swapRowLoop_self (w * c) B.reverse.flatten x A.reverse.flatten hx htot]
        show (intInc j >>= fun j1 =>
          invertLoop w h c f j1 (B.reverse.flatten ++ (x ++ A.reverse.flatten))) = _
        rw [i1]
        show invertLoop w h c f (j + 1) (B.reverse.flatten ++ (x ++ A.reverse.flatten)) = _
        obtain ⟨f1, rfl⟩ : ∃ f1, f = f1 + 1 := ⟨f - 1, by simp at hf; omega⟩
        unfold invertLoop
        rw [intMul_ok (j + 1) 2 (by omega)]
        simp only []
        rw [if_neg (by simp at hM; omega)]
        simp
      | cons z t1 =>
        obtain ⟨M1, y, hzt⟩ : ∃ M1 y, z :: t1 = M1 ++ [y] :=
          ⟨(z :: t1).dropLast, (z :: t1).getLast (by simp),
            (List.dropLast_append_getLast (by simp)).symm⟩
        rw [hzt] at hM hrows hf ⊢
        have hy : y.length = w * c := hrows y (by simp)
        have hrM : ∀ row ∈ M1, row.length = w * c := fun row hr =>
          hrows row (by simp; tauto)
        have hlenM : M1.flatten.length = M1.length * (w * c) :=
          flatten_length_rows (w * c) _ hrM
        have hhj : h - 1 - j = j + 1 + M1.length := by simp at hM; omega
        have hhh : h = j + 1 + M1.length + 1 + j := by simp at hM; omega
        have himg : (B.reverse ++ x :: (M1 ++ [y]) ++ A.reverse).flatten =
            B.reverse.flatten ++ (x ++ (M1.flatten ++ (y ++ A.reverse.flatten))) := by simp
        have htot : (B.reverse.flatten ++
            (x ++ (M1.flatten ++ (y ++ A.reverse.flatten)))).length < INT32_LIMIT := by
          simp only [List.length_append, hlenA, hlenB, hlenM, hx, hy]
          have : j * (w * c) + (w * c + (M1.length * (w * c) + (w * c + j * (w * c)))) =
              h * w * c := by
            rw [hhh, Nat.mul_assoc, Nat.add_mul, Nat.add_mul, Nat.add_mul, Nat.add_mul,
              Nat.one_mul]
            omega
          omega
        have hi2 : (h - 1 - j) * w * c =
            B.reverse.flatten.length + w * c + M1.flatten.length := by
          rw [hhj, hlenB, hlenM, Nat.mul_assoc, Nat.add_mul, Nat.add_mul, Nat.one_mul]
        rw [himg, hi2, hi1,
          swapRowLoop_apart (w * c) B.reverse.flatten x M1.flatten y A.reverse.flatten hx hy
            htot]
        show (intInc j >>= fun j1 => invertLoop w h c f j1
          (B.reverse.flatten ++ (y ++ (M1.flatten ++ (x ++ A.reverse.flatten))))) = _
        rw [i1]
        show invertLoop w h c f (j + 1)
          (B.reverse.flatten ++ (y ++ (M1.flatten ++ (x ++ A.reverse.flatten)))) = _
        have hstate : B.reverse.flatten ++ (y ++ (M1.flatten ++ (x ++ A.reverse.flatten))) =
            ((y :: B).reverse ++ M1 ++ (A ++ [x]).reverse).flatten := by simp
        rw [hstate, ih (A ++ [x]) M1 (y :: B) (j + 1) (by simp [hA]) (by simp [hB])
          (by omega)
          (by
            intro row hr
            apply hrows
            simp at hr ⊢
            tauto)
          (by simp at hf; omega)]
        simp

/-- C29 (as amended). For every image of height h, width w and c >= 1 channels, given
as its h rows of w * c bytes, whose buffer has fewer than 2^31 bytes and whose height is
below 2^31 - 1: the flip returns the buffer whose rows are the rows of the input in
reverse order, each row with its bytes unchanged, so row j of the result is row h - 1 - j
of the input and the middle row of an image of odd height stays in place; the flip of the
result is the input. -/
theorem invert_y_reverses_rows (w h c : Nat) (rows : List (List Nat)) (hc : 1 ≤ c)
    (hsize : h * w * c < INT32_LIMIT) (hh : h + 1 < INT32_LIMIT) (hrows : rows.length = h)
    (hlen : ∀ row ∈ rows, row.length = w * c) :
    invertY w h c rows.flatten = Except.ok rows.reverse.flatten ∧
    (∀ j, j < h → rows.reverse[j]? = rows[h - 1 - j]?) ∧
    (∀ m, h = 2 * m + 1 → rows.reverse[m]? = rows[m]?) ∧
    invertY w h c rows.reverse.flatten = Except.ok rows.flatten := by
  have hrev : ∀ j, j < h → rows.reverse[j]? = rows[h - 1 - j]? := by
    intro j hj
    rw [List.getElem?_reverse (by omega), hrows]
  refine ⟨?_, hrev, ?_, ?_⟩
  · have := invertLoop_rows w h c hc hsize hh (h + 1) [] rows [] 0 rfl rfl (by simpa using hrows)
      (by simpa using hlen) (by omega)
    simpa [invertY] using this
  · intro m hm
    rw [hrev m (by omega)]
    congr 1
    omega
  · have := invertLoop_rows w h c hc hsize hh (h + 1) [] rows.reverse [] 0 rfl rfl
      (by simpa using hrows) (by simpa using hlen) (by simp; omega)
    simpa [invertY] using this

/-- C29 (witness). The image of width 2, height 3 and 1 channel with the rows (1, 2),
(3, 4), (5, 6). -/
theorem invert_y_reverses_rows_witness :
    invertY 2 3 1 [1, 2, 3, 4, 5, 6] = Except.ok [5, 6, 3, 4, 1, 2] ∧
    invertY 2 3 1 [[1, 2], [3, 4], [5, 6]].flatten =
      Except.ok [[1, 2], [3, 4], [5, 6]].reverse.flatten :=
  ⟨by decide,
    (invert_y_reverses_rows 2 3 1 [[1, 2], [3, 4], [5, 6]] (by decide) (by decide)
      (by decide) (by decide) (by decide)).1⟩

/-- C29 (counterexample). For an image of width 46341, height 46342 and 1 channel the
index of the last row, `(height - 1 - 0) * width`, is 46341 * 46341 = 2147488281, which is
not a value of `int`: the first iteration of the loop has no defined result. -/
theorem invert_y_overflow_counterexample :
    (List.replicate (46341 * 46342 * 1) 0).length = 46341 * 46342 * 1 ∧
    (46342 - 1 - 0) * 46341 = 2147488281 ∧
    ¬ (2147488281 < INT32_LIMIT) ∧
    invertY 46341 46342 1 (List.replicate (46341 * 46342 * 1) 0) =
      Except.error ImageFault.signedOverflow := by
  refine ⟨List.length_replicate _ _, by decide, by decide, by decide⟩

/-! ## The command line -/

theorem quoteLoop_never_ends : ∀ (fuel : Nat) (value : List Char),
    quoteLoop fuel { rest := [], good := false } value [] = none := by
  intro fuel
  induction fuel with
  | zero => intro value; rfl
  | succ f ih =>
    intro value
    unfold quoteLoop
    have hg : getline { rest := [], good := false } [] ' ' =
        ({ rest := [], good := false }, []) := rfl
    simp only [hg, List.append_nil]
    have hlast : (value ++ [' ']).getLast? ≠ some '"' := by
      rw [List.getLast?_append]
      simp
    rw [if_pos hlast]
    exact ih (value ++ [' '])

theorem parseLoop_unclosed_quote (fuel : Nat) :
    parseLoop fuel 7 { rest := ['x', '=', '"', 'a', 'b', 'c'], good := true } [] [] [] =
      ParseOutcome.outOfFuel := by
  have hq := quoteLoop_never_ends fuel ['"', 'a', 'b', 'c']
  have h1 : getline { rest := ['x', '=', '"', 'a', 'b', 'c'], good := true } [] '=' =
      ({ rest := ['"', 'a', 'b', 'c'], good := true }, ['x']) := by decide
  have h2 : getline { rest := ['"', 'a', 'b', 'c'], good := true } [] ' ' =
      ({ rest := [], good := false }, ['"', 'a', 'b', 'c']) := by decide
  have h3 : hasUnclosedQuote ['"', 'a', 'b', 'c'] = true := by decide
  have h0 : IStringStream.peekIsEOF
      { rest := ['x', '=', '"', 'a', 'b', 'c'], good := true } = false := by decide
  rw [parseLoop]
  simp only [h0, h1, h2, h3, hq, if_true, Bool.false_eq_true, if_false]

/-- C22 (failing input). The command line `x="abc` does not supply the mesh key, whatever
the key is. After `x` and the value `"abc` have been read the stream is at its end; the
value has one double quote, so the inner loop is entered, and there every `getline` fails
and leaves `_value` empty, every iteration appends one space to `value`, and `value.back()`
is never a double quote: for every bound on the iterations the parsing does not finish,
so the usage message is not reached. -/
theorem unclosed_quote_never_finishes :
    (∀ (c_meshArgumentString : List Char) (fuel : Nat),
      WinMain c_meshArgumentString fuel "x=\"abc".toList = MainOutcome.outOfFuel) ∧
    WinMain "mesh".toList 5 "".toList = MainOutcome.usage ∧
    WinMain "mesh".toList 5 "model=a.obj".toList = MainOutcome.usage ∧
    WinMain "mesh".toList 5 "mesh=\"a b.obj\" x=1".toList =
      MainOutcome.createsApp
        [("x".toList, "1".toList), ("mesh".toList, "a b.obj".toList)] := by
  refine ⟨?_, by decide, by decide, by decide⟩
  intro key fuel
  have hs : "x=\"abc".toList = ['x', '=', '"', 'a', 'b', 'c'] := by decide
  unfold WinMain
  rw [hs]
  have hp := parseLoop_unclosed_quote fuel
  have hl : (['x', '=', '"', 'a', 'b', 'c'] : List Char).length + 1 = 7 := rfl
  rw [hl, hp]

end P6
